import Mathlib

/-!
# Subgroup broadcast engine and hierarchy builder of `coll_acoll_utils.h`

A shallow embedding of the functions of `ompi/mca/coll/acoll/coll_acoll_utils.h`
and theorems about them.

Conventions of the embedding:

* a C `int` is a Lean `Int`. In the subgroup broadcasts (`log_sg_bcast_intra`,
  `lin_sg_bcast_intra`) and in the layout of `coll_acoll_init` every `+`, `-`,
  `*`, `%` and `<<` on `int` operands is checked (`int_add`, `int_sub`,
  `int_mul`, `int_mod`, `int_shl`): an operation whose value is not an `int`
  (signed overflow, `1 << 31`, a remainder by zero) has no result, and the run
  is marked undefined. Elsewhere the arithmetic on `int` is exact (a C
  execution that does not overflow computes the same values);
* C `%` is `Int.tmod` (truncating remainder);
* C `&`, `|`, `~` are the two's-complement operations `bit_and`, `bit_or`,
  `Int.lnot` on `Int`;
* a call into the point-to-point layer (`MCA_PML_CALL(recv ...)`,
  `MCA_PML_CALL(isend ...)`) is recorded in a list of calls, and its result
  code is given by a transport function of the calls made so far and the call;
* a local variable that C leaves uninitialised is a parameter of the
  embedding (its value is whatever the caller of the model supplies).
-/

namespace Acoll

/-! ## Integer operations of C -/

/-- Bitwise and of two's-complement integers (`a & b`), written with the
operations on `Nat` that evaluate by computation. -/
def bit_and : Int → Int → Int
  | Int.ofNat m, Int.ofNat n => Int.ofNat (m &&& n)
  | Int.ofNat m, Int.negSucc n => Int.ofNat (m ^^^ (m &&& n))
  | Int.negSucc m, Int.ofNat n => Int.ofNat (n ^^^ (n &&& m))
  | Int.negSucc m, Int.negSucc n => Int.negSucc (m ||| n)

/-- Bitwise or of two's-complement integers (`a | b`). -/
def bit_or : Int → Int → Int
  | Int.ofNat m, Int.ofNat n => Int.ofNat (m ||| n)
  | Int.ofNat m, Int.negSucc n => Int.negSucc (n ^^^ (n &&& m))
  | Int.negSucc m, Int.ofNat n => Int.negSucc (m ^^^ (m &&& n))
  | Int.negSucc m, Int.negSucc n => Int.negSucc (m &&& n)

/-- The largest value of the type `int` (32 bits). -/
def INT_MAX : Int := 2147483647

/-- The smallest value of the type `int` (32 bits). -/
def INT_MIN : Int := -2147483648

/-- The result of an arithmetic operation on operands of type `int` whose
mathematical value is `v`: `v` when it is representable, and undefined
(signed overflow) otherwise. -/
def int_result (v : Int) : Option Int :=
  if INT_MIN ≤ v ∧ v ≤ INT_MAX then some v else none

/-- The product `a * b` of two `int` operands. -/
def int_mul (a b : Int) : Option Int := int_result (a * b)

/-- The sum `a + b` of two `int` operands. -/
def int_add (a b : Int) : Option Int := int_result (a + b)

/-- The difference `a - b` of two `int` operands. -/
def int_sub (a b : Int) : Option Int := int_result (a - b)

/-- The remainder `a % b` of two `int` operands (truncating): undefined when
`b` is zero and when the quotient `a / b` is not representable. -/
def int_mod (a b : Int) : Option Int :=
  if b = 0 ∨ (a = INT_MIN ∧ b = -1) then none else some (Int.tmod a b)

/-- The shift `a << k` of an `int` operand: defined when `a` is not negative,
`0 ≤ k < 32` and `a * 2 ^ k` is representable (so `1 << 31` is undefined). -/
def int_shl (a k : Int) : Option Int :=
  if 0 ≤ a ∧ 0 ≤ k ∧ k < 32 then int_result (a * 2 ^ k.toNat) else none

/-- The success code of the message-passing layer. -/
def MPI_SUCCESS : Int := 0

/-! ## `opal_hibit` -/

/-- The downward scan of `opal_hibit`: the bits `k-1, k-2, ..., 0` of `value`
are tested in this order, the index of the first one that is set is returned,
and `-1` when none is. -/
def opal_hibit_scan (value : Int) : Nat → Int
  | 0 => -1
  | k + 1 => if Int.testBit value k then (k : Int) else opal_hibit_scan value k

/-- Modelled from the spec: `opal_hibit` is declared in `opal/util/bit_ops.h`,
which is not among the sources; `opal_hibit value start` is the index of the
highest set bit of `value` below bit `start`, or `-1` when there is none. -/
def opal_hibit (value start : Int) : Int :=
  opal_hibit_scan value start.toNat

/-! ## The point-to-point layer -/

/-- A call into the point-to-point layer made by a subgroup broadcast: a
blocking receive from `peer` or a non-blocking send to `peer`. -/
inductive PmlCall where
  | recv (peer : Int)
  | isend (peer : Int)
deriving DecidableEq, Repr

/-- The point-to-point layer as seen by one caller: the result code of a call,
given the calls made before it. -/
abbrev Pml := List PmlCall → PmlCall → Int

/-- A transport on which every call succeeds. -/
def pml_ok : Pml := fun _ _ => MPI_SUCCESS

/-- What a subgroup broadcast leaves behind: the value it returns (`err`), the
value of `*nreqs`, and the calls it made, in order. `undefined` is set when the
run evaluated an `int` expression that has no value (signed overflow, an
invalid shift, a remainder by zero); C gives such a run no meaning, and the
other fields then hold the state reached before that expression. -/
structure BcastOut where
  err : Int
  nreqs : Int
  calls : List PmlCall
  undefined : Bool := false
deriving DecidableEq, Repr

/-- The peers of the receives in a list of calls. -/
def recvPeers : List PmlCall → List Int
  | [] => []
  | PmlCall.recv p :: cs => p :: recvPeers cs
  | PmlCall.isend _ :: cs => recvPeers cs

/-- The peers of the sends in a list of calls. -/
def sendPeers : List PmlCall → List Int
  | [] => []
  | PmlCall.recv _ :: cs => sendPeers cs
  | PmlCall.isend p :: cs => p :: sendPeers cs

/-! ## `log_sg_bcast_intra` -/

/-- The peer remapped into the window by `log_sg_bcast_intra`,
`((peer + cur_base - sg_start) % sg_size) + sg_start`. -/
def log_remap (peer sg_size cur_base sg_start : Int) : Option Int := do
  let a ← int_add peer cur_base
  let b ← int_sub a sg_start
  let c ← int_mod b sg_size
  int_add c sg_start

/-- The values of `end_peer` and `sub_rank` computed at the head of
`log_sg_bcast_intra`. -/
def log_window (rank size sg_size cur_base sg_start : Int) : Option (Int × Int) := do
  let end_sg ← int_add sg_start sg_size
  let end_sg ← int_sub end_sg 1
  let end_sg ← if end_sg ≥ size then int_sub size 1 else some end_sg
  let d ← int_sub end_sg cur_base
  let end_peer ← int_mod d sg_size
  let a ← int_sub rank cur_base
  let b ← int_add a sg_size
  let sub_rank ← int_mod b sg_size
  pure (end_peer, sub_rank)

/-- The parent of `log_sg_bcast_intra`: `sub_rank & ~(1 << msb_pos)`, remapped
when it lies beyond `end_peer`. -/
def log_parent (sg_size cur_base sg_start sub_rank end_peer msb_pos : Int) : Option Int := do
  let m ← int_shl 1 msb_pos
  let peer := bit_and sub_rank (Int.lnot m)
  if peer > end_peer then log_remap peer sg_size cur_base sg_start
  else int_add peer cur_base

/-- The body of the send loop of `log_sg_bcast_intra` for one value of `mask`:
the state after it, and whether the function left the loop from inside the
body (a failing `isend`, or an expression without a value). -/
def log_send_body (pml : Pml) (rank size sg_size cur_base sg_start sub_rank end_peer mask : Int)
    (st : BcastOut) : BcastOut × Bool :=
  let peer := bit_or sub_rank mask
  if peer ≥ sg_size then (st, false)
  else
    match (if peer ≥ end_peer then log_remap peer sg_size cur_base sg_start
           else int_add peer cur_base) with
    | none => ({ st with undefined := true }, true)
    | some peer =>
      if peer < size ∧ peer ≠ rank ∧ peer ≠ cur_base then
        match int_add st.nreqs 1 with
        | none => ({ st with undefined := true }, true)
        | some k =>
          let e := pml st.calls (PmlCall.isend peer)
          ({ st with err := e, nreqs := k, calls := st.calls ++ [PmlCall.isend peer] },
            decide (e ≠ MPI_SUCCESS))
      else (st, false)

/-- The send loop of `log_sg_bcast_intra`,
`for (i = msb_pos + 1, mask = 1 << i; i <= dim; ++i, mask <<= 1)`.
The first argument is the number of iterations left (`dim - i + 1`), `mask`
is the current mask, `st` the state on entry of the iteration. A failing
`isend` returns at once. The step `mask <<= 1` is evaluated after every pass
through the body, the last one included; `++i` cannot overflow before
`mask <<= 1` does. -/
def log_send_loop (pml : Pml) (rank size sg_size cur_base sg_start sub_rank end_peer : Int) :
    Nat → Int → BcastOut → BcastOut
  | 0, _, st => st
  | n + 1, mask, st =>
    let r := log_send_body pml rank size sg_size cur_base sg_start sub_rank end_peer mask st
    if r.2 then r.1
    else
      match int_shl mask 1 with
      | none => { r.1 with undefined := true }
      | some mask =>
        log_send_loop pml rank size sg_size cur_base sg_start sub_rank end_peer n mask r.1

/-- The send loop of `log_sg_bcast_intra` with its initialisation
`i = msb_pos + 1, mask = 1 << i`, which is evaluated also when the loop makes
no iteration; `dim` is the value after `--dim`. -/
def log_sends (pml : Pml) (rank dim size sg_size cur_base sg_start sub_rank end_peer msb_pos : Int)
    (st : BcastOut) : BcastOut :=
  match int_add msb_pos 1 with
  | none => { st with undefined := true }
  | some i =>
    match int_shl 1 i with
    | none => { st with undefined := true }
    | some mask =>
      log_send_loop pml rank size sg_size cur_base sg_start sub_rank end_peer
        (dim - i + 1).toNat mask st

/-- The function `log_sg_bcast_intra`: the tree variant of the subgroup broadcast, as run by
the caller `rank`. `err0` is the value of the uninitialised local `err`,
`nreqs` the value of `*nreqs` on entry. The buffer, count, datatype and
communicator are passed through to the transport unchanged and are not
modelled. The `assert` is compiled out. -/
def log_sg_bcast_intra (pml : Pml) (err0 : Int)
    (rank dim size sg_size cur_base sg_start nreqs : Int) : BcastOut :=
  let st0 : BcastOut := { err := err0, nreqs := nreqs, calls := [] }
  match log_window rank size sg_size cur_base sg_start with
  | none => { st0 with undefined := true }
  | some (end_peer, sub_rank) =>
    let msb_pos := opal_hibit sub_rank dim
    match int_sub dim 1 with
    | none => { st0 with undefined := true }
    | some dim =>
      if sub_rank > 0 then
        match log_parent sg_size cur_base sg_start sub_rank end_peer msb_pos with
        | none => { st0 with undefined := true }
        | some peer =>
          let e := pml [] (PmlCall.recv peer)
          let st1 : BcastOut := { err := e, nreqs := nreqs, calls := [PmlCall.recv peer] }
          if e ≠ MPI_SUCCESS then st1
          else
            log_sends pml rank dim size sg_size cur_base sg_start sub_rank end_peer msb_pos st1
      else
        log_sends pml rank dim size sg_size cur_base sg_start sub_rank end_peer msb_pos st0

/-- The ranks the caller `rank` receives from in the tree variant when every
transport call succeeds. -/
def log_recv_from (rank dim size sg_size cur_base sg_start : Int) : List Int :=
  recvPeers (log_sg_bcast_intra pml_ok 0 rank dim size sg_size cur_base sg_start 0).calls

/-- The ranks the caller `rank` sends to in the tree variant when every
transport call succeeds. -/
def log_send_to (rank dim size sg_size cur_base sg_start : Int) : List Int :=
  sendPeers (log_sg_bcast_intra pml_ok 0 rank dim size sg_size cur_base sg_start 0).calls

/-! ## `lin_sg_bcast_intra` -/

/-- The send loop of `lin_sg_bcast_intra`,
`for (peer = sg_start; peer <= sg_end; peer++)`. The first argument is the
number of iterations left (`sg_end - peer + 1`), `peer` the current peer. The
root itself is skipped; a failing `isend` returns at once. The step `peer++`
is evaluated after every pass through the body, the last one included. -/
def lin_send_loop (pml : Pml) (cur_base : Int) : Nat → Int → BcastOut → BcastOut
  | 0, _, st => st
  | n + 1, peer, st =>
    if peer = cur_base then
      match int_add peer 1 with
      | none => { st with undefined := true }
      | some peer => lin_send_loop pml cur_base n peer st
    else
      match int_add st.nreqs 1 with
      | none => { st with undefined := true }
      | some k =>
        let e := pml st.calls (PmlCall.isend peer)
        let st1 : BcastOut :=
          { st with err := e, nreqs := k, calls := st.calls ++ [PmlCall.isend peer] }
        if e ≠ MPI_SUCCESS then st1
        else
          match int_add peer 1 with
          | none => { st1 with undefined := true }
          | some peer => lin_send_loop pml cur_base n peer st1

/-- The value of `sg_end` computed at the head of `lin_sg_bcast_intra`. -/
def lin_sg_end (size sg_size sg_start : Int) : Option Int := do
  let sg_end ← int_add sg_start sg_size
  let sg_end ← int_sub sg_end 1
  if sg_end ≥ size then int_sub size 1 else some sg_end

/-- The function `lin_sg_bcast_intra`: the linear variant of the subgroup broadcast, as run
by the caller `rank`. `err0` is the value of the uninitialised local `err`,
`nreqs` the value of `*nreqs` on entry. -/
def lin_sg_bcast_intra (pml : Pml) (err0 : Int)
    (rank dim size sg_size cur_base sg_start nreqs : Int) : BcastOut :=
  let _ := dim
  let st0 : BcastOut := { err := err0, nreqs := nreqs, calls := [] }
  match lin_sg_end size sg_size sg_start with
  | none => { st0 with undefined := true }
  | some sg_end =>
    if rank = cur_base then
      lin_send_loop pml cur_base (sg_end - sg_start + 1).toNat sg_start st0
    else
      let e := pml [] (PmlCall.recv cur_base)
      { err := e, nreqs := nreqs, calls := [PmlCall.recv cur_base] }

/-! ## `sg_bcast_intra` -/

/-- The width of `size_t` and `unsigned long`. -/
def SIZE_WIDTH : Nat := 64

/-- The value of `total_dsize` in `sg_bcast_intra`: the product
`dsize * (unsigned long) count` in `size_t`, that is modulo `2 ^ 64`; `dsize`
is the size of the datatype as `ompi_datatype_type_size` reports it. -/
def total_dsize (dsize : Nat) (count : Int) : Nat :=
  (dsize * (count % (2 ^ SIZE_WIDTH : Int)).toNat) % 2 ^ SIZE_WIDTH

/-- The choice made by `sg_bcast_intra`: `tree` is what the branch
`total_dsize <= 8192` yields, `linear` what the other branch yields. -/
def sg_bcast_select {α : Type} (dsize : Nat) (count : Int) (tree linear : α) : α :=
  if total_dsize dsize count ≤ 8192 then tree else linear

/-- The function `sg_bcast_intra`: the subgroup broadcast, which runs the tree variant or
the linear variant according to the payload size and returns its result. -/
def sg_bcast_intra (pml : Pml) (err0 : Int) (dsize : Nat) (count : Int)
    (rank dim size sg_size cur_base sg_start nreqs : Int) : BcastOut :=
  sg_bcast_select dsize count
    (log_sg_bcast_intra pml err0 rank dim size sg_size cur_base sg_start nreqs)
    (lin_sg_bcast_intra pml err0 rank dim size sg_size cur_base sg_start nreqs)

/-! ## The node count of `mca_coll_acoll_comm_split_init` -/

/-- The function `compare_cids`: the comparator handed to `qsort`. -/
def compare_cids (a b : Int) : Int :=
  if a < b then -1
  else if a > b then 1
  else 0

/-- The order `qsort` sorts by when given `compare_cids`: `a` may stand before
`b` when the comparator does not return a positive value. -/
def cids_le (a b : Int) : Prop := compare_cids a b ≤ 0

instance : DecidableRel cids_le := fun a b => by
  unfold cids_le; infer_instance

instance : IsTotal Int cids_le where
  total a b := by
    unfold cids_le compare_cids
    split <;> split <;> omega

instance : IsTrans Int cids_le where
  trans a b c := by
    unfold cids_le compare_cids
    split <;> split <;> (try split) <;> (try split) <;> (try split) <;> (try split) <;> omega

instance : IsAntisymm Int cids_le where
  antisymm a b := by
    unfold cids_le compare_cids
    split <;> split <;> omega

/-- The call `qsort(size_list_buf, size, sizeof(int), compare_cids)` of the C
library: the array sorted by the comparator (insertion sort stands for the
library routine; the sorted array does not depend on the algorithm, the
comparator being a total order on `int`). -/
def qsort_cids (size_list_buf : List Int) : List Int :=
  List.insertionSort cids_le size_list_buf

/-- How the scan for the number of nodes ends: with a value of `num_nodes`,
with a read outside the array, or without having ended within the number of
iterations granted. -/
inductive ScanResult where
  | done (num_nodes : Int)
  | out_of_bounds
  | out_of_fuel
deriving DecidableEq, Repr

/-- The scan `for (int i = 0; i < size;) { int ofst = size_list_buf[i];
num_nodes++; i += ofst; }` of `mca_coll_acoll_comm_split_init`, run for at
most `fuel` iterations from the index `i` and the count `num_nodes`. -/
def count_nodes_loop (size_list_buf : List Int) (size : Int) : Nat → Int → Int → ScanResult
  | 0, i, num_nodes => if i < size then ScanResult.out_of_fuel else ScanResult.done num_nodes
  | fuel + 1, i, num_nodes =>
    if i < size then
      if i < 0 then ScanResult.out_of_bounds
      else
        match size_list_buf.get? i.toNat with
        | none => ScanResult.out_of_bounds
        | some ofst => count_nodes_loop size_list_buf size fuel (i + ofst) (num_nodes + 1)
    else ScanResult.done num_nodes

/-- The derivation of `num_nodes` in `mca_coll_acoll_comm_split_init`: 1 when
the node subgroup is the whole group; otherwise the gathered node sizes
(`size_list_buf` after the allgather) are sorted and scanned from index 0 with
`num_nodes = 0`; the scan is granted `size` iterations. -/
def derive_num_nodes (size local_size : Int) (size_list_buf : List Int) : ScanResult :=
  if size = local_size then ScanResult.done 1
  else count_nodes_loop (qsort_cids size_list_buf) size size.toNat 0 0

/-- The array every rank holds after the allgather of the node sizes, for the
placement `node` (rank `i` runs on the node `node[i]`): at index `i` the
number of ranks on the node of rank `i`. -/
def gathered_sizes (node : List Nat) : List Int :=
  node.map (fun x => ((node.count x : Nat) : Int))

/-- The number of nodes of the placement `node`. -/
def node_count (node : List Nat) : Nat := node.dedup.length

/-! ## The hierarchy builder: data -/

/-- The constant `MPI_UNDEFINED` of Open MPI. -/
def MPI_UNDEFINED : Int := -32766

/-- The collective implementations a communicator can point to: the three
baseline algorithms the builder installs, and any other function. -/
inductive CollFn where
  | ompi_coll_base_allgather_intra_ring
  | ompi_coll_base_allreduce_intra_recursivedoubling
  | ompi_coll_base_bcast_intra_basic_linear
  | other (id : Nat)
deriving DecidableEq, Repr

/-- The entries of `c_coll` that the builder reads and writes. -/
structure CollTable where
  coll_allgather : CollFn
  coll_allreduce : CollFn
  coll_bcast : CollFn
deriving DecidableEq, Repr

/-- A communicator as one rank sees it: its members in rank order, named by
their ranks in the communicator handed to the builder, and its table of
collectives. -/
structure Comm where
  ranks : List Int
  c_coll : CollTable
deriving DecidableEq, Repr

/-- The null communicator handle. -/
def COMM_NULL : Comm :=
  { ranks := [],
    c_coll := { coll_allgather := CollFn.other 0, coll_allreduce := CollFn.other 0,
                coll_bcast := CollFn.other 0 } }

/-- The index of the first dimension of `local_root` and the second of
`base_root`, `base_comm`: `MCA_COLL_ACOLL_LYR_NODE`, `MCA_COLL_ACOLL_LYR_SOCKET`
(there are `MCA_COLL_ACOLL_NUM_LAYERS = 2` of them). -/
inductive Layer where
  | node
  | socket
deriving DecidableEq, Repr

/-- The index of `base_rank` and the first of `base_root`, `base_comm`:
`MCA_COLL_ACOLL_L3CACHE`, `MCA_COLL_ACOLL_NUMA`. -/
inductive BaseLayer where
  | l3cache
  | numa
deriving DecidableEq, Repr

/-- An array indexed by `Layer`. -/
structure PerLayer (α : Type) where
  node : α
  socket : α
deriving DecidableEq, Repr

/-- An array indexed by `BaseLayer`. -/
structure PerBase (α : Type) where
  l3cache : α
  numa : α
deriving DecidableEq, Repr

/-- Reading `a[l]`. -/
def PerLayer.get {α : Type} (a : PerLayer α) : Layer → α
  | Layer.node => a.node
  | Layer.socket => a.socket

/-- Writing `a[l] = v`. -/
def PerLayer.set {α : Type} (a : PerLayer α) (l : Layer) (v : α) : PerLayer α :=
  match l with
  | Layer.node => { a with node := v }
  | Layer.socket => { a with socket := v }

/-- Reading `a[b]`. -/
def PerBase.get {α : Type} (a : PerBase α) : BaseLayer → α
  | BaseLayer.l3cache => a.l3cache
  | BaseLayer.numa => a.numa

/-- Writing `a[b] = v`. -/
def PerBase.set {α : Type} (a : PerBase α) (b : BaseLayer) (v : α) : PerBase α :=
  match b with
  | BaseLayer.l3cache => { a with l3cache := v }
  | BaseLayer.numa => { a with numa := v }

/-- Modelled from the spec: the declaration of `coll_acoll_subcomms_t` is in
`coll_acoll.h`, which is not among the sources. The record of one hierarchy
has the fields that `mca_coll_acoll_comm_split_init` reads or writes: one
group per layer, the local rank of the root and the flag "am I on the root's
side" per layer, the derived scalars, the initialization flag, the previous
root and the counter of root changes. -/
structure Subcomms where
  cid : Int
  orig_comm : Int
  initialized : Int
  num_nodes : Int
  subgrp_size : Int
  derived_node_size : Int
  is_root_node : Int
  is_root_socket : Int
  is_root_sg : Int
  is_root_numa : Int
  outer_grp_root : Int
  subgrp_root : Int
  numa_root : Int
  socket_ldr_root : Int
  socket_rank : Int
  local_root : PerLayer Int
  base_rank : PerBase Int
  base_root : PerBase (PerLayer Int)
  prev_init_root : Int
  num_root_change : Int
  local_comm : Comm
  socket_comm : Comm
  subgrp_comm : Comm
  numa_comm : Comm
  leader_comm : Comm
  socket_ldr_comm : Comm
  local_r_comm : Comm
  numa_comm_ldrs : Comm
  base_comm : PerBase (PerLayer Comm)

/-- The locality criteria of `ompi_comm_split_type` used by the builder:
`MPI_COMM_TYPE_SHARED`, `OMPI_COMM_TYPE_SOCKET`, `OMPI_COMM_TYPE_L3CACHE`,
`OMPI_COMM_TYPE_NUMA`. -/
inductive SplitType where
  | shared
  | socket
  | l3cache
  | numa
deriving DecidableEq, Repr

/-- The fields of the record that receive a communicator from
`ompi_comm_split` or lose it to `ompi_comm_free`. -/
inductive Slot where
  | leader_comm
  | socket_ldr_comm
  | base_comm (b : BaseLayer) (l : Layer)
  | numa_comm_ldrs
  | local_r_comm
deriving DecidableEq, Repr

/-- The group operations the builder performs, as recorded in its log. -/
inductive CommOp where
  | split_type (t : SplitType)
  | allgather (fn : CollFn) (local_size : Int)
  | split (slot : Slot) (parent : List Int) (color key : Int)
  | free (slot : Slot)
deriving DecidableEq, Repr

/-- The rest of the system as one rank sees it during one call of the
builder: the result code and the group of each `ompi_comm_split_type`, the
result code and the gathered array of the allgather, the result code and the
group of each `ompi_comm_split` (by receiving field, parent members, colour
and key), and the result code of `ompi_group_free`. -/
structure HierEnv where
  split_type : SplitType → Int × Comm
  allgather : Int → Int × List Int
  split : Slot → List Int → Int → Int → Int × Comm
  group_free : Int

/-- The state of a call of the builder: the record `acoll_module->subc[cid]`,
the table `(comm)->c_coll` of the communicator handed in, the log of group
operations, the local `err`, whether the call has returned, and whether the
execution has left the defined behaviour of C (the scan for the number of
nodes reading outside its array or not ending). -/
structure Build where
  subc : Subcomms
  c_coll : CollTable
  ops : List CommOp
  err : Int
  returned : Bool
  stuck : Bool

/-! ## The hierarchy builder: operations -/

/-- The function `ompi_comm_size`. -/
def ompi_comm_size (c : Comm) : Int := (c.ranks.length : Int)

/-- The function `ompi_comm_rank` for the caller whose rank in the communicator handed to
the builder is `me`. -/
def ompi_comm_rank (c : Comm) (me : Int) : Int :=
  if me ∈ c.ranks then (c.ranks.indexOf me : Int) else MPI_UNDEFINED

/-- The members of the communicator handed to the builder: the ranks
`0 .. size-1`. -/
def comm_ranks (size : Int) : List Int :=
  (List.range size.toNat).map (fun i : Nat => (i : Int))

/-- The function `ompi_group_translate_ranks` applied to all the ranks `0 .. n-1` of the
first group: for each member of `local_grp`, its rank in `grp`, or
`MPI_UNDEFINED` when it is not a member of `grp`. -/
def translate_ranks (local_grp grp : List Int) : List Int :=
  local_grp.map (fun w => if w ∈ grp then (grp.indexOf w : Int) else MPI_UNDEFINED)

/-- The search loop of `comm_grp_ranks_local`: the first index `i` with
`ranks[i] == root` sets the flag to 1 and the local root to `i`; when there
is none both keep their values. -/
def find_root (root : Int) : List Int → Int → Int × Int → Int × Int
  | [], _, acc => acc
  | r :: rs, i, acc => if r = root then (1, i) else find_root root rs (i + 1) acc

/-- What `comm_grp_ranks_local` hands back: the flag and the local root
(both through pointers), the translated ranks (`*ranks_buf`, when asked for)
and the returned code. -/
structure RanksLocal where
  is_root_node : Int
  local_root : Int
  ranks : List Int
  err : Int
deriving DecidableEq, Repr

/-- The function `comm_grp_ranks_local`: the members of `local_comm` are translated to
ranks of `comm`, and `root` is looked up among them. The value returned is
the code of the last `ompi_group_free`. -/
def comm_grp_ranks_local (env : HierEnv) (comm local_comm : List Int)
    (is_root_node local_root root : Int) : RanksLocal :=
  let ranks := translate_ranks local_comm comm
  let found := find_root root ranks 0 (is_root_node, local_root)
  { is_root_node := found.1, local_root := found.2, ranks := ranks, err := env.group_free }

/-- Writing a communicator into the field `slot` of the record. -/
def Subcomms.set_slot (s : Subcomms) (slot : Slot) (c : Comm) : Subcomms :=
  match slot with
  | Slot.leader_comm => { s with leader_comm := c }
  | Slot.socket_ldr_comm => { s with socket_ldr_comm := c }
  | Slot.base_comm b l => { s with base_comm := s.base_comm.set b ((s.base_comm.get b).set l c) }
  | Slot.numa_comm_ldrs => { s with numa_comm_ldrs := c }
  | Slot.local_r_comm => { s with local_r_comm := c }

/-- The call `err = ompi_comm_split(parent, color, key, &subc-><slot>, false)`. -/
def do_split (env : HierEnv) (slot : Slot) (parent : List Int) (color key : Int) (b : Build) :
    Build :=
  let r := env.split slot parent color key
  { b with
    subc := b.subc.set_slot slot r.2,
    ops := b.ops ++ [CommOp.split slot parent color key],
    err := r.1 }

/-- The statements `ompi_comm_free(&subc-><slot>); subc-><slot> = NULL;`. -/
def do_free (slot : Slot) (b : Build) : Build :=
  { b with subc := b.subc.set_slot slot COMM_NULL, ops := b.ops ++ [CommOp.free slot] }

/-- The statement `return err;` taken when `MPI_SUCCESS != err`. -/
def Build.ret (b : Build) : Build := { b with returned := true }

/-- One iteration of the loop of `mca_coll_acoll_create_base_comm` for the
layer `i`: the split of `parent_comm[i]` into `base_comm[base_lyr][i]`, the
return when it fails, and the lookup of `root[i]` in the new group. -/
def create_base_comm_step (env : HierEnv) (parent_comm : PerLayer Comm) (color rank : Int)
    (root : PerLayer Int) (base_lyr : BaseLayer) (i : Layer) (b : Build) : Build :=
  let b := do_split env (Slot.base_comm base_lyr i) (parent_comm.get i).ranks color rank b
  if b.err ≠ MPI_SUCCESS then b.ret
  else
    let r := comm_grp_ranks_local env (parent_comm.get i).ranks
      ((b.subc.base_comm.get base_lyr).get i).ranks 0
      ((b.subc.base_root.get base_lyr).get i) (root.get i)
    { b with
      subc := { b.subc with
        base_root := b.subc.base_root.set base_lyr
          ((b.subc.base_root.get base_lyr).set i r.local_root) },
      err := r.err }

/-- The function `mca_coll_acoll_create_base_comm`: the loop over the
`MCA_COLL_ACOLL_NUM_LAYERS = 2` layers. The field `returned` of the result
tells whether the function left through the `return err` inside the loop;
the caller resets it. -/
def mca_coll_acoll_create_base_comm (env : HierEnv) (parent_comm : PerLayer Comm)
    (color rank : Int) (root : PerLayer Int) (base_lyr : BaseLayer) (b : Build) : Build :=
  let b := create_base_comm_step env parent_comm color rank root base_lyr Layer.node b
  if b.returned then { b with returned := false }
  else
    let b := create_base_comm_step env parent_comm color rank root base_lyr Layer.socket b
    { b with returned := false }

/-- The table of the three baseline collectives that the builder installs on
a communicator while it runs. -/
def base_coll_table : CollTable :=
  { coll_allgather := CollFn.ompi_coll_base_allgather_intra_ring,
    coll_allreduce := CollFn.ompi_coll_base_allreduce_intra_recursivedoubling,
    coll_bcast := CollFn.ompi_coll_base_bcast_intra_basic_linear }

/-- Writing the communicator made by `ompi_comm_split_type` into the field of
the record that belongs to the locality criterion: `local_comm`,
`socket_comm`, `subgrp_comm`, `numa_comm`. -/
def store_locality (t : SplitType) (c : Comm) (b : Build) : Build :=
  match t with
  | SplitType.shared => { b with subc := { b.subc with local_comm := c } }
  | SplitType.socket => { b with subc := { b.subc with socket_comm := c } }
  | SplitType.l3cache => { b with subc := { b.subc with subgrp_comm := c } }
  | SplitType.numa => { b with subc := { b.subc with numa_comm := c } }

/-- One call `err = ompi_comm_split_type(comm, type, 0, &comm_info, &field)`
with its log entry. -/
def do_split_type (env : HierEnv) (t : SplitType) (b : Build) : Build :=
  store_locality t (env.split_type t).2
    { b with ops := b.ops ++ [CommOp.split_type t], err := (env.split_type t).1 }

/-- The assignment `subc->subgrp_size = ompi_comm_size(subc->subgrp_comm)`. -/
def store_subgrp_size (b : Build) : Build :=
  { b with subc := { b.subc with subgrp_size := ompi_comm_size b.subc.subgrp_comm } }

/-- The assignment `subc->num_nodes = num_nodes`. -/
def store_num_nodes (num_nodes : Int) (b : Build) : Build :=
  { b with subc := { b.subc with num_nodes := num_nodes } }

/-- The call `err = (comm)->c_coll->coll_allgather(&local_size, 1, MPI_INT,
size_list_buf, 1, MPI_INT, comm, &acoll_module->super)` with its log entry. -/
def do_allgather (env : HierEnv) (local_size : Int) (b : Build) : Build :=
  { b with
    ops := b.ops ++ [CommOp.allgather b.c_coll.coll_allgather local_size],
    err := (env.allgather local_size).1 }

/-- The execution leaves the defined behaviour of C. -/
def Build.undefined (b : Build) : Build := { b with stuck := true, returned := true }

/-- The block "Derive the no. of nodes": 1 when the node group is the whole
group; otherwise the node sizes are gathered, sorted and scanned. -/
def derive_nodes (env : HierEnv) (size : Int) (b : Build) : Build :=
  if size = ompi_comm_size b.subc.local_comm then store_num_nodes 1 b
  else
    let local_size := ompi_comm_size b.subc.local_comm
    let b := do_allgather env local_size b
    if b.err ≠ MPI_SUCCESS then b.ret
    else
      match count_nodes_loop (qsort_cids (env.allgather local_size).2) size size.toNat 0 0 with
      | ScanResult.done num_nodes => store_num_nodes num_nodes b
      | ScanResult.out_of_bounds => b.undefined
      | ScanResult.out_of_fuel => b.undefined

/-- The block `if (!subc->initialized) { ... }` at the start of
`mca_coll_acoll_comm_split_init`: the four locality subgroups, `subgrp_size`
and the number of nodes. -/
def split_init_locality (env : HierEnv) (size : Int) (b : Build) : Build :=
  let b := do_split_type env SplitType.shared b
  if b.err ≠ MPI_SUCCESS then b.ret
  else
    let b := do_split_type env SplitType.socket b
    if b.err ≠ MPI_SUCCESS then b.ret
    else
      let b := do_split_type env SplitType.l3cache b
      if b.err ≠ MPI_SUCCESS then b.ret
      else
        let b := do_split_type env SplitType.numa b
        if b.err ≠ MPI_SUCCESS then b.ret
        else derive_nodes env size (store_subgrp_size b)

/-- The assignments `subc->base_root[MCA_COLL_ACOLL_L3CACHE][i] = -1;
subc->base_root[MCA_COLL_ACOLL_NUMA][i] = -1;`. -/
def reset_base_root (i : Layer) (b : Build) : Build :=
  let b := { b with subc := { b.subc with
    base_root := b.subc.base_root.set BaseLayer.l3cache
      ((b.subc.base_root.get BaseLayer.l3cache).set i (-1)) } }
  { b with subc := { b.subc with
    base_root := b.subc.base_root.set BaseLayer.numa
      ((b.subc.base_root.get BaseLayer.numa).set i (-1)) } }

/-- One iteration of the loop over the layers in the common
initializations: the two base groups of the layer are freed when the
hierarchy was initialized, and the two base roots are reset. -/
def split_init_common_layer (i : Layer) (b : Build) : Build :=
  if b.subc.initialized ≠ 0 then
    reset_base_root i
      (do_free (Slot.base_comm BaseLayer.numa i) (do_free (Slot.base_comm BaseLayer.l3cache i) b))
  else reset_base_root i b

/-- The first assignments of the block "Common initializations": the
root-dependent scalars are reset. -/
def reset_root_scalars (b : Build) : Build :=
  { b with subc := { b.subc with
    outer_grp_root := -1, subgrp_root := 0, is_root_sg := 0, is_root_numa := 0,
    numa_root := 0, is_root_socket := 0, socket_ldr_root := -1 } }

/-- The frees of the block "Common initializations" before its loop: of the
leader group when there are several nodes, and of the socket-leader group,
when the hierarchy was initialized. -/
def free_leader_groups (b : Build) : Build :=
  if b.subc.initialized ≠ 0 then
    if b.subc.num_nodes > 1 then do_free Slot.socket_ldr_comm (do_free Slot.leader_comm b)
    else do_free Slot.socket_ldr_comm b
  else b

/-- The block "Common initializations" up to the loop over the layers: the
root-dependent scalars are reset, and the root-dependent groups of an
initialized hierarchy are freed. -/
def split_init_common (b : Build) : Build :=
  split_init_common_layer Layer.socket
    (split_init_common_layer Layer.node (free_leader_groups (reset_root_scalars b)))

/-- The end of the block "Common initializations": the baseline collectives
are installed on the node and socket groups (the caller has saved their
tables). -/
def split_init_override (b : Build) : Build :=
  { b with subc := { b.subc with
    local_comm := { b.subc.local_comm with c_coll := base_coll_table },
    socket_comm := { b.subc.socket_comm with c_coll := base_coll_table } } }

/-- The result of a `comm_grp_ranks_local` whose flag and local root go to
`is_root_socket` and `local_root[MCA_COLL_ACOLL_LYR_SOCKET]`. -/
def store_socket_root (r : RanksLocal) (b : Build) : Build :=
  { b with
    subc := { b.subc with
      is_root_socket := r.is_root_node,
      local_root := b.subc.local_root.set Layer.socket r.local_root },
    err := r.err }

/-- The result of a `comm_grp_ranks_local` whose flag and local root go to
`is_root_sg` and `subgrp_root`. -/
def store_subgrp_root (r : RanksLocal) (b : Build) : Build :=
  { b with
    subc := { b.subc with is_root_sg := r.is_root_node, subgrp_root := r.local_root },
    err := r.err }

/-- The result of a `comm_grp_ranks_local` whose flag and local root go to
`is_root_numa` and `numa_root`. -/
def store_numa_root (r : RanksLocal) (b : Build) : Build :=
  { b with
    subc := { b.subc with is_root_numa := r.is_root_node, numa_root := r.local_root },
    err := r.err }

/-- The result of a `comm_grp_ranks_local` whose local root goes to
`socket_ldr_root` (the flag goes to a local variable). -/
def store_socket_ldr_root (r : RanksLocal) (b : Build) : Build :=
  { b with subc := { b.subc with socket_ldr_root := r.local_root }, err := r.err }

/-- The result of a `comm_grp_ranks_local` whose local root goes to
`outer_grp_root` (the flag goes to a local variable). -/
def store_outer_grp_root (r : RanksLocal) (b : Build) : Build :=
  { b with subc := { b.subc with outer_grp_root := r.local_root }, err := r.err }

/-- The assignment `subc->socket_rank = subc->is_root_socket == 1 ? root :
socket_ranks[0]` (`root` is `local_root` in the branch for several nodes). -/
def store_socket_rank (root : Int) (socket_ranks : List Int) (b : Build) : Build :=
  { b with subc := { b.subc with
    socket_rank := if b.subc.is_root_socket = 1 then root else socket_ranks.headD 0 } }

/-- The assignment `subc->base_rank[MCA_COLL_ACOLL_L3CACHE] =
subc->is_root_sg == 1 ? root : subgrp_ranks[0]`. -/
def store_base_rank_l3 (root : Int) (subgrp_ranks : List Int) (b : Build) : Build :=
  { b with subc := { b.subc with
    base_rank := b.subc.base_rank.set BaseLayer.l3cache
      (if b.subc.is_root_sg = 1 then root else subgrp_ranks.headD 0) } }

/-- The assignment `subc->base_rank[MCA_COLL_ACOLL_NUMA] =
subc->is_root_numa == 1 ? root : numa_ranks[0]`. -/
def store_base_rank_numa (root : Int) (numa_ranks : List Int) (b : Build) : Build :=
  { b with subc := { b.subc with
    base_rank := b.subc.base_rank.set BaseLayer.numa
      (if b.subc.is_root_numa = 1 then root else numa_ranks.headD 0) } }

/-- The start of the branch for several nodes: `local_root[]` is reset and
the root is looked up in the node group, which sets `is_root_node` and
`local_root[MCA_COLL_ACOLL_LYR_NODE]` when the root is on this node. -/
def multi_find_node_root (env : HierEnv) (size root : Int) (b : Build) : Build :=
  let b := { b with subc := { b.subc with local_root := { node := 0, socket := 0 } } }
  let r := comm_grp_ranks_local env (comm_ranks size) b.subc.local_comm.ranks
    b.subc.is_root_node b.subc.local_root.node root
  { b with
    subc := { b.subc with
      is_root_node := r.is_root_node,
      local_root := b.subc.local_root.set Layer.node r.local_root },
    err := r.err }

/-- The colour of the split that creates the group of leaders:
`color = 1; if (!subc->is_root_node && (local_rank == 0)) color = 0;
if (rank == root) color = 0;`. -/
def leader_color (is_root_node local_rank rank root : Int) : Int :=
  let color : Int := 1
  let color : Int := if is_root_node = 0 ∧ local_rank = 0 then 0 else color
  if rank = root then 0 else color

/-- The base groups of both layers, L3-cache then NUMA, with the lookups
between them; common to both branches up to the callers' arguments: `root`
is the rank looked up (`local_root` or `root`), `key` the key of the splits
(`local_rank` or `rank`), `grp` the members of the group in which ranks are
counted (`local_comm` or `comm`), `numa_ldrs` whether the split for
`numa_comm_ldrs` is made (single node only). -/
def split_init_base_groups (env : HierEnv) (root key rank : Int) (grp : List Int)
    (numa_ldrs : Bool) (b : Build) : Build :=
  let r := comm_grp_ranks_local env grp b.subc.subgrp_comm.ranks
    b.subc.is_root_sg b.subc.subgrp_root root
  let b := store_base_rank_l3 root r.ranks (store_subgrp_root r b)
  let color : Int := if key = b.subc.base_rank.get BaseLayer.l3cache then 0 else 1
  let parent_comm : PerLayer Comm := { node := b.subc.local_comm, socket := b.subc.socket_comm }
  let b := mca_coll_acoll_create_base_comm env parent_comm color key
    b.subc.local_root BaseLayer.l3cache b
  let b :=
    if numa_ldrs then
      let numa_rank := ompi_comm_rank b.subc.numa_comm rank
      let color : Int := if numa_rank = 0 then 0 else 1
      do_split env Slot.numa_comm_ldrs b.subc.local_comm.ranks color rank b
    else b
  let r := comm_grp_ranks_local env grp b.subc.numa_comm.ranks
    b.subc.is_root_numa b.subc.numa_root root
  let b := store_base_rank_numa root r.ranks (store_numa_root r b)
  let color : Int := if key = b.subc.base_rank.get BaseLayer.numa then 0 else 1
  mca_coll_acoll_create_base_comm env parent_comm color key
    b.subc.local_root BaseLayer.numa b

/-- The group of socket leaders and what follows it, common to both branches
up to the callers' arguments (see `split_init_base_groups`). -/
def split_init_socket_leaders (env : HierEnv) (root key rank : Int) (grp : List Int)
    (numa_ldrs : Bool) (b : Build) : Build :=
  let r := comm_grp_ranks_local env grp b.subc.socket_comm.ranks
    b.subc.is_root_socket b.subc.local_root.socket root
  let b := store_socket_rank root r.ranks (store_socket_root r b)
  let color : Int := if key = b.subc.socket_rank then 0 else 1
  let b := do_split env Slot.socket_ldr_comm grp color key b
  if b.err ≠ MPI_SUCCESS then b.ret
  else
    let r := comm_grp_ranks_local env grp b.subc.socket_ldr_comm.ranks
      0 b.subc.socket_ldr_root root
    split_init_base_groups env root key rank grp numa_ldrs (store_socket_ldr_root r b)

/-- The branch `if (subc->num_nodes > 1)` of
`mca_coll_acoll_comm_split_init`: the root-dependent groups of a hierarchy
that spans several nodes. -/
def split_init_multi_node (env : HierEnv) (size rank root : Int) (b : Build) : Build :=
  let local_rank := ompi_comm_rank b.subc.local_comm rank
  let b := multi_find_node_root env size root b
  let color := leader_color b.subc.is_root_node local_rank rank root
  let b := do_split env Slot.leader_comm (comm_ranks size) color rank b
  if b.err ≠ MPI_SUCCESS then b.ret
  else
    let r := comm_grp_ranks_local env (comm_ranks size) b.subc.leader_comm.ranks
      0 b.subc.outer_grp_root root
    let b := store_outer_grp_root r b
    let local_root : Int := if b.subc.is_root_node ≠ 0 then b.subc.local_root.node else 0
    split_init_socket_leaders env local_root local_rank rank b.subc.local_comm.ranks false b

/-- The assignments `subc->local_root[MCA_COLL_ACOLL_LYR_NODE] = root;
subc->local_root[MCA_COLL_ACOLL_LYR_SOCKET] = 0;` at the start of the branch
for a single node. -/
def single_init_local_root (root : Int) (b : Build) : Build :=
  { b with subc := { b.subc with local_root := { node := root, socket := 0 } } }

/-- The branch `else` ("Intra node case") of
`mca_coll_acoll_comm_split_init`. -/
def split_init_single_node (env : HierEnv) (size rank root : Int) (b : Build) : Build :=
  split_init_socket_leaders env root rank rank (comm_ranks size) true
    (single_init_local_root root b)

/-- The split for the rank-contiguous node-sized group:
`int node_size = (size + subc->num_nodes - 1) / subc->num_nodes;
int color = rank / node_size;
err = ompi_comm_split(comm, color, rank, &subc->local_r_comm, false);`. -/
def split_local_r (env : HierEnv) (size rank : Int) (b : Build) : Build :=
  let node_size := Int.tdiv (size + b.subc.num_nodes - 1) b.subc.num_nodes
  let color := Int.tdiv rank node_size
  do_split env Slot.local_r_comm (comm_ranks size) color rank b

/-- The assignment `subc->derived_node_size = (size + subc->num_nodes - 1) /
subc->num_nodes`. -/
def store_derived_node_size (size : Int) (b : Build) : Build :=
  { b with subc := { b.subc with
    derived_node_size := Int.tdiv (size + b.subc.num_nodes - 1) b.subc.num_nodes } }

/-- The block `if (!subc->initialized) { ... }` near the end of
`mca_coll_acoll_comm_split_init`: the rank-contiguous node-sized group and
`derived_node_size`. -/
def split_init_rank_contiguous (env : HierEnv) (size rank : Int) (b : Build) : Build :=
  if b.subc.num_nodes > 1 then
    if (split_local_r env size rank b).err ≠ MPI_SUCCESS then (split_local_r env size rank b).ret
    else store_derived_node_size size (split_local_r env size rank b)
  else store_derived_node_size size b

/-- The statements after the test of `cid`: `subc->cid = cid;
subc->orig_comm = comm;` and the installation of the baseline collectives on
`comm`. -/
def enter_body (cid : Int) (b : Build) : Build :=
  { b with subc := { b.subc with cid := cid, orig_comm := cid }, c_coll := base_coll_table }

/-- The block "Restore originals for local and socket comms". -/
def restore_local_socket (coll_loc coll_soc : CollTable) (b : Build) : Build :=
  { b with subc := { b.subc with
    local_comm := { b.subc.local_comm with c_coll := coll_loc },
    socket_comm := { b.subc.socket_comm with c_coll := coll_soc } } }

/-- The count of root changes: `if (root != subc->prev_init_root)
subc->num_root_change++;`. -/
def count_root_change (root : Int) (b : Build) : Build :=
  if root ≠ b.subc.prev_init_root then
    { b with subc := { b.subc with num_root_change := b.subc.num_root_change + 1 } }
  else b

/-- The end of `mca_coll_acoll_comm_split_init`: the original collectives of
`comm` are restored, the hierarchy is marked initialized, a change of root is
counted, the root is recorded, and `err` is returned. -/
def finish_body (root : Int) (coll_org : CollTable) (b : Build) : Build :=
  let b := { b with c_coll := coll_org }
  let b := { b with subc := { b.subc with initialized := 1 } }
  let b := count_root_change root b
  let b := { b with subc := { b.subc with prev_init_root := root } }
  { b with returned := true }

/-- The function `mca_coll_acoll_comm_split_init` after the test of `cid`, on the record
`acoll_module->subc[cid]`: `b0` holds the record and the table of `comm` on
entry, an empty log and the value of the uninitialised local `err`. -/
def comm_split_init_body (env : HierEnv) (size rank cid root : Int) (b0 : Build) : Build :=
  let coll_org := b0.c_coll
  let b := enter_body cid b0
  let b := if b.subc.initialized = 0 then split_init_locality env size b else b
  if b.returned then b
  else
    let b := split_init_common b
    let coll_loc := b.subc.local_comm.c_coll
    let coll_soc := b.subc.socket_comm.c_coll
    let b := split_init_override b
    let b :=
      if b.subc.num_nodes > 1 then split_init_multi_node env size rank root b
      else split_init_single_node env size rank root b
    if b.returned then b
    else
      let b := restore_local_socket coll_loc coll_soc b
      let b := if b.subc.initialized = 0 then split_init_rank_contiguous env size rank b else b
      if b.returned then b
      else finish_body root coll_org b

/-- What a call of `mca_coll_acoll_comm_split_init` leaves behind: the array
`acoll_module->subc`, the table of `comm`, the log of group operations, the
value returned, and whether the execution left the defined behaviour of C. -/
structure SplitInitOut where
  subc : Int → Subcomms
  c_coll : CollTable
  ops : List CommOp
  err : Int
  stuck : Bool

/-- The function `mca_coll_acoll_comm_split_init`, as run by the caller `rank` of a
communicator of `size` ranks and identity `cid`. `max_cid` is the constant
`MCA_COLL_ACOLL_MAX_CID` (declared in `coll_acoll.h`, not among the sources),
`subc` the array `acoll_module->subc`, `c_coll` the table of `comm`, `err0`
the value of the uninitialised local `err`. -/
def mca_coll_acoll_comm_split_init (env : HierEnv) (max_cid err0 : Int)
    (size rank cid root : Int) (subc : Int → Subcomms) (c_coll : CollTable) : SplitInitOut :=
  if cid ≥ max_cid then
    { subc := subc, c_coll := c_coll, ops := [], err := MPI_SUCCESS, stuck := false }
  else
    let b := comm_split_init_body env size rank cid root
      { subc := subc cid, c_coll := c_coll, ops := [], err := err0, returned := false,
        stuck := false }
    { subc := Function.update subc cid b.subc, c_coll := b.c_coll, ops := b.ops, err := b.err,
      stuck := b.stuck }

/-! ## Auxiliary definitions for the schedule of the tree variant -/

/-- The peer contacted by one iteration of the send loop of `log_sg_bcast_intra`
for the sub-rank `s` and the mask `2 ^ j`, when there is one. -/
def log_child (rank size sg_size cur_base sg_start end_peer : Int) (s j : Nat) : Option Int :=
  let peer : Int := ((s + 2 ^ j : Nat) : Int)
  if peer ≥ sg_size then none
  else
    let peer :=
      if peer ≥ end_peer then Int.tmod (peer + cur_base - sg_start) sg_size + sg_start
      else peer + cur_base
    if peer < size ∧ peer ≠ rank ∧ peer ≠ cur_base then some peer else none

/-- The peers contacted by `n` iterations of the send loop from bit `i` on. -/
def log_children (rank size sg_size cur_base sg_start end_peer : Int) (s : Nat) :
    Nat → Nat → List Int
  | 0, _ => []
  | n + 1, i =>
    (log_child rank size sg_size cur_base sg_start end_peer s i).toList ++
      log_children rank size sg_size cur_base sg_start end_peer s n (i + 1)

/-- The value of `end_peer` in `log_sg_bcast_intra`: the sub-rank of the last
live rank of the window. -/
def log_end_peer (size sg_size cur_base sg_start : Int) : Int :=
  Int.tmod ((if sg_start + sg_size - 1 ≥ size then size - 1 else sg_start + sg_size - 1) - cur_base)
    sg_size

/-- The rank of the window member with sub-rank `p`: `p` places after the
root, wrapping around the end of the window. -/
def log_unsub (sg_size cur_base sg_start p : Int) : Int :=
  if p + cur_base < sg_start + sg_size then p + cur_base else p + cur_base - sg_size

/-- The sub-rank of the window member `r`: its distance from the root,
counted upwards and wrapping around the end of the window. -/
def log_sub (sg_size cur_base r : Int) : Nat :=
  (if cur_base ≤ r then r - cur_base else r - cur_base + sg_size).toNat

/-- The hypotheses on a window and its root under which the tree variant is
studied: the root lies in the window and in the group, `2 ^ dim` is at
least the window size, and the `int` expressions of the function have values:
`dim` is at most 30 (the last `mask <<= 1` gives `1 << dim`), the window start
is an `int`, and `sg_start + sg_size` and the greatest sum `peer + cur_base`,
which is `sg_size - 1 + cur_base`, do not exceed `INT_MAX`. -/
structure LogWindow (dim size sg_size cur_base sg_start : Int) : Prop where
  base_ge : sg_start ≤ cur_base
  base_lt : cur_base < sg_start + sg_size
  base_live : cur_base < size
  dim_ok : sg_size ≤ ((2 ^ dim.toNat : Nat) : Int)
  dim_ge : 0 ≤ dim
  dim_le : dim ≤ 30
  start_ge : INT_MIN ≤ sg_start
  end_le : sg_start + sg_size ≤ INT_MAX
  peer_le : cur_base + sg_size - 1 ≤ INT_MAX

/-- Following the receive sources of the tree variant upwards from `r`, for
at most `k` steps; a rank that receives from nobody stays where it is. -/
def log_climb (dim size sg_size cur_base sg_start : Int) : Nat → Int → Int
  | 0, r => r
  | k + 1, r =>
    match log_recv_from r dim size sg_size cur_base sg_start with
    | p :: _ => log_climb dim size sg_size cur_base sg_start k p
    | [] => r

/-- The live window: the ranks `sg_start .. min (sg_start+sg_size-1) (size-1)`. -/
def live_window (size sg_size sg_start r : Int) : Prop :=
  sg_start ≤ r ∧ r ≤ min (sg_start + sg_size - 1) (size - 1)

instance (size sg_size sg_start r : Int) : Decidable (live_window size sg_size sg_start r) := by
  unfold live_window; infer_instance

/-- The window `[sg_start, sg_start + sg_size)`. -/
def in_window (sg_size sg_start r : Int) : Prop :=
  sg_start ≤ r ∧ r < sg_start + sg_size

instance (sg_size sg_start r : Int) : Decidable (in_window sg_size sg_start r) := by
  unfold in_window; infer_instance

/-- The ranks `sg_start, sg_start + 1, ...` (`n` of them) other than
`cur_base`, in increasing order. -/
def lin_targets (cur_base : Int) : Nat → Int → List Int
  | 0, _ => []
  | n + 1, peer =>
    if peer = cur_base then lin_targets cur_base n (peer + 1)
    else peer :: lin_targets cur_base n (peer + 1)

/-- The number of ranks of the live window
`sg_start .. min (sg_start+sg_size-1) (size-1)`. -/
def live_count (size sg_size sg_start : Int) : Nat :=
  (min (sg_start + sg_size - 1) (size - 1) - sg_start + 1).toNat

/-- A run of `z` entries equal to `z`: what one node of size `z` contributes
to the sorted array. -/
def size_run (z : Int) : List Int := List.replicate z.toNat z

/-! ## Auxiliary definitions for the hierarchy builder -/

/-- The fields of the record that do not depend on the root keep their
values from `s` to `s'` (for the four locality groups: their members). -/
def RootIndep (s s' : Subcomms) : Prop :=
  s'.initialized = s.initialized ∧ s'.num_nodes = s.num_nodes ∧
  s'.subgrp_size = s.subgrp_size ∧ s'.derived_node_size = s.derived_node_size ∧
  s'.prev_init_root = s.prev_init_root ∧ s'.num_root_change = s.num_root_change ∧
  s'.local_comm.ranks = s.local_comm.ranks ∧ s'.socket_comm.ranks = s.socket_comm.ranks ∧
  s'.subgrp_comm = s.subgrp_comm ∧ s'.numa_comm = s.numa_comm ∧
  s'.local_r_comm = s.local_r_comm

/-- From `b` to `b'` the root-independent fields keep their values and the
log grows by operations that all satisfy `P`. -/
def Rebuilds (P : CommOp → Prop) (b b' : Build) : Prop :=
  RootIndep b.subc b'.subc ∧ ∃ l, b'.ops = b.ops ++ l ∧ ∀ op ∈ l, P op

/-- The operations on the root-dependent groups: freeing a group, and a split
into any field other than `local_r_comm`. -/
def rebuild_op : CommOp → Prop
  | CommOp.free _ => True
  | CommOp.split slot _ _ _ => slot ≠ Slot.local_r_comm
  | CommOp.split_type _ => False
  | CommOp.allgather _ _ => False

/-- The members of the locality group of rank `q` for the placement `loc`
(`loc[p]` is the node, socket, ... of rank `p`): the ranks `p` with
`loc[p] = loc[q]`, in increasing order. -/
def members_by (loc : List Nat) (q : Nat) : List Int :=
  ((List.range loc.length).filter (fun p => loc.getD p 0 = loc.getD q 0)).map
    (fun p : Nat => (p : Int))

/-- The value of `is_root_node` after the lookup of the root in the node
group, for the rank `q` of a fresh hierarchy (flag 0 on entry) under the
placement `node`. -/
def placement_is_root_node (node : List Nat) (root q : Nat) : Int :=
  (find_root (root : Int) (translate_ranks (members_by node q) (comm_ranks (node.length : Int))) 0
    (0, 0)).1

/-- The rank of `q` in its node group under the placement `node`. -/
def placement_local_rank (node : List Nat) (q : Nat) : Int :=
  ompi_comm_rank { ranks := members_by node q, c_coll := base_coll_table } (q : Int)

/-- The colour the rank `q` of a fresh hierarchy passes to the split that
creates the group of leaders, under the placement `node`. -/
def placement_leader_color (node : List Nat) (root q : Nat) : Int :=
  leader_color (placement_is_root_node node root q) (placement_local_rank node q) (q : Int)
    (root : Int)

/-- The colours of the splits for `leader_comm` in a log of group operations. -/
def leader_split_colors : List CommOp → List Int
  | [] => []
  | CommOp.split Slot.leader_comm _ color _ :: ops => color :: leader_split_colors ops
  | _ :: ops => leader_split_colors ops

/-- A record as it is before the first build: not initialized, all flags and
scalars 0, no previous root, all groups null. -/
def blank_subc : Subcomms :=
  { cid := 0, orig_comm := 0, initialized := 0, num_nodes := 0, subgrp_size := 0,
    derived_node_size := 0, is_root_node := 0, is_root_socket := 0, is_root_sg := 0,
    is_root_numa := 0, outer_grp_root := 0, subgrp_root := 0, numa_root := 0,
    socket_ldr_root := 0, socket_rank := 0,
    local_root := { node := 0, socket := 0 },
    base_rank := { l3cache := 0, numa := 0 },
    base_root := { l3cache := { node := 0, socket := 0 }, numa := { node := 0, socket := 0 } },
    prev_init_root := -1, num_root_change := 0,
    local_comm := COMM_NULL, socket_comm := COMM_NULL, subgrp_comm := COMM_NULL,
    numa_comm := COMM_NULL, leader_comm := COMM_NULL, socket_ldr_comm := COMM_NULL,
    local_r_comm := COMM_NULL, numa_comm_ldrs := COMM_NULL,
    base_comm := { l3cache := { node := COMM_NULL, socket := COMM_NULL },
                   numa := { node := COMM_NULL, socket := COMM_NULL } } }

/-- The table of collectives of a communicator that uses none of the baseline
algorithms: three other functions. -/
def other_coll_table : CollTable :=
  { coll_allgather := CollFn.other 1, coll_allreduce := CollFn.other 2,
    coll_bcast := CollFn.other 3 }

/-- The system as rank 0 sees it in a group of four ranks on two nodes: the
ranks 0, 1 on one node and 2, 3 on the other, each node with one socket, one
L3-cache domain and one NUMA domain. Every operation succeeds. The locality
splits give the ranks 0, 1; the allgather gives the node sizes 2, 2, 2, 2;
the split for the leaders gives the ranks 0, 2 to colour 0 (the leaders when
rank 0 has colour 0) and the ranks 0, 1, 3 to colour 1 (the non-leaders when
the root is 2 and rank 0 has colour 1); the splits inside the node give the
rank 0 alone to colour 0 and the ranks 0, 1 to colour 1; the rank-contiguous
split gives the ranks 0, 1. -/
def two_node_env : HierEnv :=
  { split_type := fun _ => (MPI_SUCCESS, { ranks := [0, 1], c_coll := other_coll_table }),
    allgather := fun _ => (MPI_SUCCESS, [2, 2, 2, 2]),
    split := fun slot _ color _ =>
      match slot with
      | Slot.leader_comm =>
        (MPI_SUCCESS,
          { ranks := if color = 0 then [0, 2] else [0, 1, 3], c_coll := other_coll_table })
      | Slot.local_r_comm => (MPI_SUCCESS, { ranks := [0, 1], c_coll := other_coll_table })
      | _ =>
        (MPI_SUCCESS, { ranks := if color = 0 then [0] else [0, 1], c_coll := other_coll_table }),
    group_free := MPI_SUCCESS }

/-- The first build of the example: rank 0 of the four ranks on two nodes
builds the hierarchy of the communicator 0 with the root 0, from blank
records. -/
def two_node_first_build : SplitInitOut :=
  mca_coll_acoll_comm_split_init two_node_env 100 0 4 0 0 0 (fun _ => blank_subc)
    other_coll_table

/-- The result codes of the calls `cs`, made in this order after the calls
`done`. -/
def call_results (pml : Pml) : List PmlCall → List PmlCall → List Int
  | _, [] => []
  | done, c :: cs => pml done c :: call_results pml (done ++ [c]) cs

/-- What the result of a subgroup broadcast is in terms of its transport
calls: either no call was made and the value returned is the initial content
`err0` of the local `err`; or the value returned is the result code of the
last call made, and every call before the last succeeded. -/
def result_of_last_call (pml : Pml) (err0 : Int) (out : BcastOut) : Prop :=
  (out.calls = [] ∧ out.err = err0) ∨
  (∃ init c, out.calls = init ++ [c] ∧ out.err = pml init c ∧
    ∀ r ∈ call_results pml [] init, r = MPI_SUCCESS)

/-- The state of a send loop that goes on: every call made so far succeeded,
and `err` holds `err0` when no call was made and `MPI_SUCCESS` otherwise. -/
def all_calls_ok (pml : Pml) (err0 : Int) (st : BcastOut) : Prop :=
  (∀ r ∈ call_results pml [] st.calls, r = MPI_SUCCESS) ∧
  ((st.calls = [] ∧ st.err = err0) ∨ (st.calls ≠ [] ∧ st.err = MPI_SUCCESS))

/-! ## Further auxiliary definitions for the hierarchy builder -/

/-- The function `mca_coll_acoll_comm_split_init` after the test of `cid` up to its last
block ("Restore originals" for `comm`, "Init done"): the state in which the
call reaches that block, or, with `returned` set, the state in which it
returned before. -/
def body_before_finish (env : HierEnv) (size rank cid root : Int) (b0 : Build) : Build :=
  let b := enter_body cid b0
  let b := if b.subc.initialized = 0 then split_init_locality env size b else b
  if b.returned then b
  else
    let b := split_init_common b
    let coll_loc := b.subc.local_comm.c_coll
    let coll_soc := b.subc.socket_comm.c_coll
    let b := split_init_override b
    let b :=
      if b.subc.num_nodes > 1 then split_init_multi_node env size rank root b
      else split_init_single_node env size rank root b
    if b.returned then b
    else
      let b := restore_local_socket coll_loc coll_soc b
      if b.subc.initialized = 0 then split_init_rank_contiguous env size rank b else b

/-- The call of `mca_coll_acoll_comm_split_init` runs to its end: `cid` is below the bound
and no `return err` before the last block is taken (nor does the execution
leave the defined behaviour of C). -/
def runs_to_end (env : HierEnv) (max_cid err0 size rank cid root : Int)
    (subc : Int → Subcomms) (c_coll : CollTable) : Prop :=
  cid < max_cid ∧
  (body_before_finish env size rank cid root
    { subc := subc cid, c_coll := c_coll, ops := [], err := err0, returned := false,
      stuck := false }).returned = false

instance (env : HierEnv) (max_cid err0 size rank cid root : Int)
    (subc : Int → Subcomms) (c_coll : CollTable) :
    Decidable (runs_to_end env max_cid err0 size rank cid root subc c_coll) := by
  unfold runs_to_end
  infer_instance

/-- The bookkeeping of root changes, the fields `prev_init_root` and
`num_root_change`, has the same values in `s'` as in `s`. -/
def SameCount (s s' : Subcomms) : Prop :=
  s'.prev_init_root = s.prev_init_root ∧ s'.num_root_change = s.num_root_change

/-- The node group and the socket group, with their tables of collectives,
are the same in `s'` as in `s`. -/
def SameNodeSocket (s s' : Subcomms) : Prop :=
  s'.local_comm = s.local_comm ∧ s'.socket_comm = s.socket_comm

/-- The system `env` in which the `ompi_comm_split` that writes the field
`slot` fails with the result code `code` (and gives the null communicator);
every other operation is as in `env`. -/
def failing_split (env : HierEnv) (slot : Slot) (code : Int) : HierEnv :=
  { env with
    split := fun s parent color key =>
      if s = slot then (code, COMM_NULL) else env.split s parent color key }

/-- The system as rank 0 sees it in a group of two ranks on one node with one
socket, one L3-cache domain and one NUMA domain. Every operation succeeds.
The locality splits give the ranks 0, 1; every split gives the rank 0 alone
to colour 0 and the ranks 0, 1 to colour 1. -/
def one_node_env : HierEnv :=
  { split_type := fun _ => (MPI_SUCCESS, { ranks := [0, 1], c_coll := other_coll_table }),
    allgather := fun _ => (MPI_SUCCESS, [2, 2]),
    split := fun _ _ color _ =>
      (MPI_SUCCESS, { ranks := if color = 0 then [0] else [0, 1], c_coll := other_coll_table }),
    group_free := MPI_SUCCESS }

/-- The result code that the system `env` gives to a group operation (a free
has no result code and counts as a success). -/
def op_code (env : HierEnv) : CommOp → Int
  | CommOp.split_type t => (env.split_type t).1
  | CommOp.allgather _ local_size => (env.allgather local_size).1
  | CommOp.split slot parent color key => (env.split slot parent color key).1
  | CommOp.free _ => MPI_SUCCESS

/-- From `b` to `b'` the table of collectives of `comm` and the flag
`initialized` keep their values, and the call has not returned. -/
def Quiet (b b' : Build) : Prop :=
  b'.c_coll = b.c_coll ∧ b'.subc.initialized = b.subc.initialized ∧ b'.returned = false

/-- From `b` to `b'` the table of collectives of `comm` and the flag
`initialized` keep their values, and if the call has returned (within the
defined behaviour of C) then the last group operation of the log failed and
`err` holds its result code. -/
def Surfaced (env : HierEnv) (b b' : Build) : Prop :=
  b'.c_coll = b.c_coll ∧ b'.subc.initialized = b.subc.initialized ∧
  (b'.returned = true → b'.stuck = false →
    ∃ init op, b'.ops = init ++ [op] ∧ b'.err = op_code env op ∧ b'.err ≠ MPI_SUCCESS)

/-- The fields freed by the operations of a log, in order. -/
def freed_slots : List CommOp → List Slot
  | [] => []
  | CommOp.free slot :: l => slot :: freed_slots l
  | CommOp.split_type _ :: l => freed_slots l
  | CommOp.allgather _ _ :: l => freed_slots l
  | CommOp.split _ _ _ _ :: l => freed_slots l

/-- The fields written by the `ompi_comm_split`s of a log, in order. -/
def split_slots : List CommOp → List Slot
  | [] => []
  | CommOp.split slot _ _ _ :: l => slot :: split_slots l
  | CommOp.split_type _ :: l => split_slots l
  | CommOp.allgather _ _ :: l => split_slots l
  | CommOp.free _ :: l => split_slots l

/-- Every `ompi_comm_split` of the system succeeds. -/
def splits_succeed (env : HierEnv) : Prop :=
  ∀ slot parent color key, (env.split slot parent color key).1 = MPI_SUCCESS

/-- The root-dependent groups of a hierarchy over `num_nodes` nodes, in the
order in which the block "Common initializations" frees them: the group of
leaders (several nodes only), the group of socket leaders, and the base
groups, layer by layer. -/
def root_dependent_frees (num_nodes : Int) : List Slot :=
  (if num_nodes > 1 then [Slot.leader_comm] else []) ++
    [Slot.socket_ldr_comm,
      Slot.base_comm BaseLayer.l3cache Layer.node, Slot.base_comm BaseLayer.numa Layer.node,
      Slot.base_comm BaseLayer.l3cache Layer.socket, Slot.base_comm BaseLayer.numa Layer.socket]

/-- The fields into which the branch for several nodes, or the branch for a
single node, splits when no split fails, in order: the root-dependent groups,
and for a single node also `numa_comm_ldrs`. -/
def root_dependent_splits (num_nodes : Int) : List Slot :=
  (if num_nodes > 1 then [Slot.leader_comm] else []) ++
    [Slot.socket_ldr_comm,
      Slot.base_comm BaseLayer.l3cache Layer.node, Slot.base_comm BaseLayer.l3cache Layer.socket] ++
    (if num_nodes > 1 then [] else [Slot.numa_comm_ldrs]) ++
    [Slot.base_comm BaseLayer.numa Layer.node, Slot.base_comm BaseLayer.numa Layer.socket]

/-- From `b` to `b'` the log grows by operations that free the fields `fs`
and split into the fields `ss`, in these orders. -/
def Extends (fs ss : List Slot) (b b' : Build) : Prop :=
  ∃ l, b'.ops = b.ops ++ l ∧ freed_slots l = fs ∧ split_slots l = ss

/-! ## The reserve allocator -/

/-- Modelled from the spec: the declaration of `coll_acoll_reserve_mem_t` is
in `coll_acoll.h`, which is not among the sources. The record has the four
fields that `coll_acoll_malloc` and `coll_acoll_free` use: the address of the
reserve block (0 is `NULL`), its size, whether the reserve is enabled, and
whether the block is lent out. -/
structure ReserveMem where
  reserve_mem : Nat
  reserve_mem_size : Int
  reserve_mem_allocate : Bool
  reserve_mem_in_use : Bool
deriving DecidableEq, Repr

/-- A call of the allocator of the C library: `malloc(size)` with the address
it returned (0 is `NULL`), or `free(ptr)`. -/
inductive HeapCall where
  | malloc (size : Int) (ptr : Nat)
  | free (ptr : Nat)
deriving DecidableEq, Repr

/-- The allocator of the C library: the address that `malloc(size)` returns
after the calls made so far (0 is `NULL`). -/
abbrev Heap := List HeapCall → Int → Nat

/-- The state the two functions of the reserve allocator work on: the record
`*reserve_mem_ptr` and the log of the calls to the allocator of the C
library. -/
structure AllocState where
  res : ReserveMem
  calls : List HeapCall
deriving DecidableEq, Repr

/-- The function `coll_acoll_malloc`: the new state and the address returned. -/
def coll_acoll_malloc (heap : Heap) (st : AllocState) (size : Int) : AllocState × Nat :=
  if st.res.reserve_mem_allocate = true ∧ size ≤ st.res.reserve_mem_size ∧
      st.res.reserve_mem_in_use = false then
    let st1 : AllocState :=
      if st.res.reserve_mem = 0 then
        { res := { st.res with reserve_mem := heap st.calls st.res.reserve_mem_size },
          calls := st.calls ++
            [HeapCall.malloc st.res.reserve_mem_size (heap st.calls st.res.reserve_mem_size)] }
      else st
    let temp_ptr := st1.res.reserve_mem
    if temp_ptr ≠ 0 then
      ({ st1 with res := { st1.res with reserve_mem_in_use := true } }, temp_ptr)
    else (st1, temp_ptr)
  else
    ({ st with calls := st.calls ++ [HeapCall.malloc size (heap st.calls size)] },
      heap st.calls size)

/-- The function `coll_acoll_free`. -/
def coll_acoll_free (st : AllocState) (ptr : Nat) : AllocState :=
  if st.res.reserve_mem_allocate = false ∨ st.res.reserve_mem_in_use = false then
    if ptr ≠ 0 then { st with calls := st.calls ++ [HeapCall.free ptr] } else st
  else if st.res.reserve_mem = ptr then
    { st with res := { st.res with reserve_mem_in_use := false } }
  else st

/-! ## Auxiliary definitions for the reserve allocator -/

/-- The effect of one call of the allocator of the C library on the list of
allocated addresses. -/
def live_step (acc : List Nat) : HeapCall → List Nat
  | HeapCall.malloc _ p => if p = 0 then acc else p :: acc
  | HeapCall.free p => acc.erase p

/-- The addresses that are allocated (handed out by `malloc` and not given
back by `free`) after the calls `calls`. -/
def live (calls : List HeapCall) : List Nat := calls.foldl live_step []

/-- The allocator of the C library does not hand out an address that is still
allocated: after the calls `calls`, `malloc(size)` returns `NULL` or an
address that is not live. -/
def fresh_or_null (heap : Heap) (calls : List HeapCall) (size : Int) : Prop :=
  heap calls size = 0 ∨ heap calls size ∉ live calls

instance (heap : Heap) (calls : List HeapCall) (size : Int) :
    Decidable (fresh_or_null heap calls size) := by
  unfold fresh_or_null
  infer_instance

/-- The condition under which `coll_acoll_malloc` takes its first branch. -/
def reserve_free (st : AllocState) (size : Int) : Prop :=
  st.res.reserve_mem_allocate = true ∧ size ≤ st.res.reserve_mem_size ∧
    st.res.reserve_mem_in_use = false

instance (st : AllocState) (size : Int) : Decidable (reserve_free st size) := by
  unfold reserve_free
  infer_instance

/-- An allocator that hands out the addresses 1, 2, 3, ... in turn: the
address after `n` calls is `n + 1`. -/
def bump_heap : Heap := fun calls _ => calls.length + 1

/-- An allocator that is out of memory: `malloc` returns `NULL`. -/
def exhausted_heap : Heap := fun _ _ => 0

/-- A reserve of 1024 bytes that is enabled, whose block has not been
obtained yet, and no call to the allocator of the C library so far. -/
def fresh_reserve : AllocState :=
  { res := { reserve_mem := 0, reserve_mem_size := 1024, reserve_mem_allocate := true,
             reserve_mem_in_use := false },
    calls := [] }

/-! ## `coll_acoll_init` -/

/-- The constant `OMPI_ERR_OUT_OF_RESOURCE` of Open MPI. -/
def OMPI_ERR_OUT_OF_RESOURCE : Int := -2

/-- The constant `OPAL_SUCCESS` of Open MPI. -/
def OPAL_SUCCESS : Int := 0

/-- The assignments to `data->offset[0..3]` in `coll_acoll_init`:
`offset[0] = 16 * 1024; offset[1] = offset[0] + size * 64;
offset[2] = offset[1] + size * 64; offset[3] = offset[2] + rank * 8 * 1024;`
(the entries are taken to be of type `int`, like `size` and `rank`). -/
def init_offsets (size rank : Int) : Option (List Int) := do
  let o0 ← int_mul 16 1024
  let m1 ← int_mul size 64
  let o1 ← int_add o0 m1
  let m2 ← int_mul size 64
  let o2 ← int_add o1 m2
  let m3 ← int_mul rank 8
  let m4 ← int_mul m3 1024
  let o3 ← int_add o2 m4
  pure [o0, o1, o2, o3]

/-- The size of the segment the leader creates in `coll_acoll_init`:
`long memsize = (16 * 1024 + 64 * size + 64 * size + 8 * 1024 * size);`,
an expression whose operands all have the type `int`. -/
def init_memsize (size : Int) : Option Int := do
  let a ← int_mul 16 1024
  let b ← int_mul 64 size
  let ab ← int_add a b
  let c ← int_mul 64 size
  let abc ← int_add ab c
  let d0 ← int_mul 8 1024
  let d ← int_mul d0 size
  int_add abc d

/-- The byte offset, in the segment of the level-1 leader, of the 64 bytes
the caller clears: `int offset = 16 * 1024; memset(... + offset + 64 * rank,
0, 64);`. -/
def l1_sync_offset (rank : Int) : Option Int := do
  let offset ← int_mul 16 1024
  let m ← int_mul 64 rank
  pure (offset + m)

/-- The byte offset, in the segment of the first level-2 member, of the 64
bytes a leader clears: `memset(... + (offset + 64 * size) + 64 * rank, 0,
64);`. -/
def l2_sync_offset (size rank : Int) : Option Int := do
  let offset ← int_mul 16 1024
  let a ← int_mul 64 size
  let b ← int_add offset a
  let m ← int_mul 64 rank
  pure (b + m)

/-- Modelled from the spec: the declaration of `coll_acoll_data_t` is in
`coll_acoll.h`, which is not among the sources. The record has the fields
that `coll_acoll_init` computes from its arguments: the size of the group,
the members, size and caller's rank of the level-1 and level-2 groups, the
four offsets of the layout, and the two sync counters. -/
structure AcollData where
  comm_size : Int
  l1_gp : List Int
  l1_gp_size : Int
  l1_local_rank : Int
  l2_gp : List Int
  l2_gp_size : Int
  l2_local_rank : Int
  offset : List Int
  sync : List Int
deriving DecidableEq, Repr

/-- What the rest of the system answers during one call of `coll_acoll_init`: whether
the code is compiled with `HAVE_XPMEM_H`; whether each `malloc` succeeds
(named after the variable that receives the block); the results of
`xpmem_make`, of the two allgathers, of `xpmem_get` per peer, of
`mca_rcache_base_module_create` per peer (whether it is non-null), of
`asprintf`, and of `opal_shmem_segment_create` for a size. -/
structure InitEnv where
  have_xpmem : Bool
  data_ok : Bool
  scratch_ok : Bool
  allseg_id_ok : Bool
  all_apid_ok : Bool
  allshm_sbuf_ok : Bool
  allshm_rbuf_ok : Bool
  xpmem_saddr_ok : Bool
  xpmem_raddr_ok : Bool
  rcache_ok : Bool
  allshmseg_id_ok : Bool
  allshmmmap_sbuf_ok : Bool
  xpmem_make : Int
  allgather_seg_id : Int
  xpmem_get : Int → Int
  rcache_create_ok : Int → Bool
  asprintf : Int
  segment_create : Int → Int
  allgather_seg_ds : Int

/-- Modelled from the spec: the fields of `coll_acoll_subcomms_t` (declared
in `coll_acoll.h`, not among the sources) that `coll_acoll_init` reads or
writes: `cid`, the flags `initialized_data` and `initialized_shm_data`,
`xpmem_use_sr_buf`, the groups `numa_comm` and `numa_comm_ldrs`, and `data`. -/
structure InitSubc where
  cid : Int
  initialized_data : Bool
  initialized_shm_data : Bool
  xpmem_use_sr_buf : Int
  numa_comm : Comm
  numa_comm_ldrs : Comm
  data : Option AcollData
deriving DecidableEq, Repr

/-- What a call of `coll_acoll_init` leaves behind: the record of the group, the size
passed to `opal_shmem_segment_create` when the call was made, the byte ranges
cleared with `memset` (rank that owns the segment, byte offset, length), the
value returned, and whether the execution left the defined behaviour of C. -/
structure InitOut where
  subc : InitSubc
  segment : Option Int
  memsets : List (Int × Int × Int)
  ret : Int
  undefined : Bool
deriving DecidableEq, Repr

/-- The loop over the peers under `HAVE_XPMEM_H`, from peer `i` for `n`
iterations: `xpmem_get` and the creation of the registration cache for every
peer other than the caller; the first failure gives the value -1 to return. -/
def init_peers (env : InitEnv) (rank : Int) : Nat → Int → Option Int
  | 0, _ => none
  | n + 1, i =>
    if rank ≠ i then
      if env.xpmem_get i = -1 then some (-1)
      else if env.rcache_create_ok i = false then some (-1)
      else init_peers env rank n (i + 1)
    else init_peers env rank n (i + 1)

/-- The part of `coll_acoll_init` under `#ifdef HAVE_XPMEM_H`: the allocations, the
segment identity, its allgather and the loop over the peers. The result is
the value of `ret` with which the function goes on, or the value with which
it jumps to `error_hndl`. -/
def init_xpmem (env : InitEnv) (sub : InitSubc) (size rank : Int) : Except Int Int :=
  if sub.xpmem_use_sr_buf = 0 ∧ env.scratch_ok = false then
    Except.error OMPI_ERR_OUT_OF_RESOURCE
  else if env.allseg_id_ok = false then Except.error OMPI_ERR_OUT_OF_RESOURCE
  else if env.all_apid_ok = false then Except.error OMPI_ERR_OUT_OF_RESOURCE
  else if env.allshm_sbuf_ok = false then Except.error OMPI_ERR_OUT_OF_RESOURCE
  else if env.allshm_rbuf_ok = false then Except.error OMPI_ERR_OUT_OF_RESOURCE
  else if env.xpmem_saddr_ok = false then Except.error OMPI_ERR_OUT_OF_RESOURCE
  else if env.xpmem_raddr_ok = false then Except.error OMPI_ERR_OUT_OF_RESOURCE
  else if env.rcache_ok = false then Except.error OMPI_ERR_OUT_OF_RESOURCE
  else if env.xpmem_make = -1 then Except.error (-1)
  else
    match init_peers env rank size.toNat 0 with
    | some r => Except.error r
    | none => Except.ok env.allgather_seg_id

/-- The exit of `coll_acoll_init` through `error_hndl` with the value `ret`: the local
`data` is freed and the record of the group keeps its `data` (the calls of
`free` in the handler are not part of the model). -/
def init_error (sub : InitSubc) (segment : Option Int) (ret : Int) : InitOut :=
  { subc := sub, segment := segment, memsets := [], ret := ret, undefined := false }

/-- The execution of `coll_acoll_init` leaves the defined behaviour of C. -/
def init_undefined (sub : InitSubc) : InitOut :=
  { subc := sub, segment := none, memsets := [], ret := 0, undefined := true }

/-- The end of `coll_acoll_init` after the second allgather: the 64 bytes of the caller
in the level-1 sync region of its leader's segment are cleared, a leader
also clears its 64 bytes in the level-2 sync region of the segment of the
first level-2 member, the record is marked initialized and receives `data`,
and `MPI_SUCCESS` is returned. -/
def init_finish (sub : InitSubc) (size rank ldr : Int) (d : AcollData) (segment : Option Int) :
    InitOut :=
  match l1_sync_offset rank with
  | none => init_undefined sub
  | some c1 =>
    if ldr = rank then
      match l2_sync_offset size rank, d.l2_gp.head? with
      | some c2, some ldr2 =>
        { subc := { sub with initialized_data := true, data := some d },
          segment := segment, memsets := [(ldr, c1, 64), (ldr2, c2, 64)],
          ret := MPI_SUCCESS, undefined := false }
      | _, _ => init_undefined sub
    else
      { subc := { sub with initialized_data := true, data := some d },
        segment := segment, memsets := [(ldr, c1, 64)], ret := MPI_SUCCESS, undefined := false }

/-- The part of `coll_acoll_init` from the test `data->l1_gp[0] == rank` on, for a
caller that is the leader of its level-1 group: the flag
`initialized_shm_data`, the name of the segment (`asprintf`), the creation
of the segment with `memsize` bytes, the second allgather, and the end. -/
def init_leader (env : InitEnv) (sub : InitSubc) (size rank : Int) (d : AcollData) : InitOut :=
  if env.asprintf < 0 then
    init_error { sub with initialized_shm_data := true } none env.asprintf
  else
    match init_memsize size with
    | none => init_undefined { sub with initialized_shm_data := true }
    | some memsize =>
      if env.segment_create memsize ≠ OPAL_SUCCESS then
        init_error { sub with initialized_shm_data := true } (some memsize)
          (env.segment_create memsize)
      else if env.allshmseg_id_ok = false ∨ env.allshmmmap_sbuf_ok = false then
        init_undefined { sub with initialized_shm_data := true }
      else init_finish { sub with initialized_shm_data := true } size rank rank d (some memsize)

/-- The part of `coll_acoll_init` from the test `data->l1_gp[0] == rank` on, for a
caller that is not the leader of its level-1 group: `ret` still holds the
value `ret0` it had after `#endif`, which passes the tests `ret < 0` and
`ret != OPAL_SUCCESS` only when it is 0; then the second allgather and the
end. -/
def init_member (env : InitEnv) (sub : InitSubc) (size rank ldr ret0 : Int) (d : AcollData) :
    InitOut :=
  if ret0 < 0 then init_error sub none ret0
  else if ret0 ≠ OPAL_SUCCESS then init_error sub none ret0
  else if env.allshmseg_id_ok = false ∨ env.allshmmmap_sbuf_ok = false then init_undefined sub
  else init_finish sub size rank ldr d none

/-- The record `data` as `coll_acoll_init` has filled it when it reaches the test
`data->l1_gp[0] == rank`. -/
def init_data (sub : InitSubc) (size rank : Int) (offset : List Int) : AcollData :=
  { comm_size := size,
    l1_gp := translate_ranks sub.numa_comm.ranks (comm_ranks size),
    l1_gp_size := ompi_comm_size sub.numa_comm,
    l1_local_rank := ompi_comm_rank sub.numa_comm rank,
    l2_gp := translate_ranks sub.numa_comm_ldrs.ranks (comm_ranks size),
    l2_gp_size := ompi_comm_size sub.numa_comm_ldrs,
    l2_local_rank := ompi_comm_rank sub.numa_comm_ldrs rank,
    offset := offset, sync := [0, 0] }

/-- The part of `coll_acoll_init` after `#endif`, entered with the value `ret0` of
`ret`: the level-1 and level-2 groups (the ranks that `comm_grp_ranks_local`
hands back through `ranks_buf`), the offsets of the layout, and the rest
according to whether the caller is the leader (`data->l1_gp[0] == rank`). -/
def init_shm (env : InitEnv) (sub : InitSubc) (size rank ret0 : Int) : InitOut :=
  match init_offsets size rank, (translate_ranks sub.numa_comm.ranks (comm_ranks size)).head? with
  | some offset, some ldr =>
    if ldr = rank then init_leader env sub size rank (init_data sub size rank offset)
    else init_member env sub size rank ldr ret0 (init_data sub size rank offset)
  | _, _ => init_undefined sub

/-- The function `coll_acoll_init`, as run by the caller `rank` of a communicator of
`size` ranks and identity `cid` on the record `acoll_module->subc[cid]`. -/
def coll_acoll_init (env : InitEnv) (sub : InitSubc) (size rank cid : Int) : InitOut :=
  if sub.initialized_data = true then
    { subc := sub, segment := none, memsets := [], ret := 0, undefined := false }
  else
    let sub := { sub with cid := cid }
    if env.data_ok = false then init_error sub none OMPI_ERR_OUT_OF_RESOURCE
    else if env.have_xpmem = true then
      match init_xpmem env sub size rank with
      | Except.error r => init_error sub none r
      | Except.ok ret => init_shm env sub size rank ret
    else init_shm env sub size rank 0

/-! ## Auxiliary definitions for the staging layout -/

/-- A range of bytes of a segment: the bytes `start .. start + len - 1`. -/
structure ByteRange where
  start : Int
  len : Int
deriving DecidableEq, Repr

/-- The two ranges have no byte in common (for ranges of positive length). -/
def ByteRange.disjoint (r s : ByteRange) : Prop :=
  r.start + r.len ≤ s.start ∨ s.start + s.len ≤ r.start

/-- The range lies in the bytes `lo .. hi - 1`. -/
def ByteRange.inside (r : ByteRange) (lo hi : Int) : Prop :=
  lo ≤ r.start ∧ r.start + r.len ≤ hi

/-- The scratch region of the leader at the start of the segment: the bytes
below `offset[0] = 16 * 1024`. -/
def leader_scratch : ByteRange := { start := 0, len := 16 * 1024 }

/-- The level-1 sync cell of a rank: the 64 bytes that `coll_acoll_init` clears at
`l1_sync_offset`. -/
def l1_cell (rank : Int) : Option ByteRange :=
  (l1_sync_offset rank).map (fun a => { start := a, len := 64 })

/-- The level-2 sync cell of a rank: the 64 bytes that `coll_acoll_init` clears at
`l2_sync_offset`. -/
def l2_cell (size rank : Int) : Option ByteRange :=
  (l2_sync_offset size rank).map (fun a => { start := a, len := 64 })

/-- The data slot of a rank: the `8 * 1024` bytes from `offset[3]` on (the
stride of `offset[3]` from one rank to the next). -/
def data_slot (size rank : Int) : Option ByteRange :=
  (init_offsets size rank).map (fun o => { start := o.getD 3 0, len := 8 * 1024 })

/-- The system in which every step of `coll_acoll_init` succeeds, without XPMEM. -/
def init_env_ok : InitEnv :=
  { have_xpmem := false, data_ok := true, scratch_ok := true, allseg_id_ok := true,
    all_apid_ok := true, allshm_sbuf_ok := true, allshm_rbuf_ok := true,
    xpmem_saddr_ok := true, xpmem_raddr_ok := true, rcache_ok := true,
    allshmseg_id_ok := true, allshmmmap_sbuf_ok := true, xpmem_make := 1,
    allgather_seg_id := 0, xpmem_get := fun _ => 1, rcache_create_ok := fun _ => true,
    asprintf := 40, segment_create := fun _ => 0, allgather_seg_ds := 0 }

/-- The record of a group of four ranks on one node with the NUMA domains
{0, 1} and {2, 3}, as rank 2 sees it before the staging data exist: its NUMA
group has the ranks 2, 3 and the group of NUMA leaders the ranks 0, 2. -/
def init_subc_rank2 : InitSubc :=
  { cid := 0, initialized_data := false, initialized_shm_data := false, xpmem_use_sr_buf := 0,
    numa_comm := { ranks := [2, 3], c_coll := other_coll_table },
    numa_comm_ldrs := { ranks := [0, 2], c_coll := other_coll_table },
    data := none }

/-! ## `register_and_cache` -/

/-- The number of values of the type `uintptr_t` (64 bits). -/
def UINTPTR_MOD : Nat := 2 ^ 64

/-- Modelled from the spec: the macro `OPAL_DOWN_ALIGN(x, a, uintptr_t)` of
`opal/include/opal/align.h`, which is not among the sources: `x` rounded
down to a multiple of the power of two `a` (`x & ~(a - 1)`). -/
def OPAL_DOWN_ALIGN (x a : Nat) : Nat := x - x % a

/-- Modelled from the spec: the macro `OPAL_ALIGN(x, a, uintptr_t)` of
`opal/include/opal/align.h`, which is not among the sources: `x` rounded up
to a multiple of the power of two `a` (`(x + (a - 1)) & ~(a - 1)`), in the
arithmetic of `uintptr_t`. -/
def OPAL_ALIGN (x a : Nat) : Nat := OPAL_DOWN_ALIGN ((x + (a - 1)) % UINTPTR_MOD) a

/-- What `rcache_register` hands back: its return code, and the fields
`xpmem_vaddr` and `base.base` of the registration. -/
structure Registration where
  ret : Int
  xpmem_vaddr : Nat
  base : Nat
deriving DecidableEq, Repr

/-- The registration caches of the peers: the outcome of
`rcache_i->rcache_register(rcache_i, base, size, ...)` for the peer `i`. -/
abbrev Rcache := Int → Nat → Nat → Registration

/-- The arrays `data->xpmem_saddr` and `data->xpmem_raddr`, with the log of
the registrations made (peer, base, size). -/
structure XpmemAddrs where
  xpmem_saddr : Int → Nat
  xpmem_raddr : Int → Nat
  registered : List (Int × Nat × Nat)

/-- The address stored for a registered buffer:
`(uintptr_t) reg->xpmem_vaddr + ((uintptr_t) buf - (uintptr_t) reg->base.base)`
in the arithmetic of `uintptr_t`. -/
def xpmem_addr (reg : Registration) (buf : Nat) : Nat :=
  (reg.xpmem_vaddr + (buf + UINTPTR_MOD - reg.base % UINTPTR_MOD) % UINTPTR_MOD) % UINTPTR_MOD

/-- The registration of one buffer of a peer: the page-aligned range around
the `total_dsize` bytes at `buf` is registered with the cache of the peer. -/
def register_buf (rcache : Rcache) (total_dsize : Nat) (i : Int) (buf : Nat) :
    Registration × (Int × Nat × Nat) :=
  let base := OPAL_DOWN_ALIGN buf 4096
  let bound := OPAL_ALIGN ((buf + total_dsize) % UINTPTR_MOD) 4096
  let len := (bound + UINTPTR_MOD - base) % UINTPTR_MOD
  (rcache i base len, (i, base, len))

/-- The loop of `register_and_cache` from the index `i` for `n` iterations. A failed
registration ends the function (`return`). -/
def register_and_cache_loop (rcache : Rcache) (total_dsize : Nat) (rank : Int)
    (allshm_sbuf allshm_rbuf : Int → Nat) : Nat → Int → XpmemAddrs → XpmemAddrs
  | 0, _, d => d
  | n + 1, i, d =>
    if rank ≠ i then
      let s := register_buf rcache total_dsize i (allshm_sbuf i)
      let d := { d with registered := d.registered ++ [s.2] }
      if s.1.ret ≠ 0 then d
      else
        let d := { d with
          xpmem_saddr := Function.update d.xpmem_saddr i (xpmem_addr s.1 (allshm_sbuf i)) }
        let r := register_buf rcache total_dsize i (allshm_rbuf i)
        let d := { d with registered := d.registered ++ [r.2] }
        if r.1.ret ≠ 0 then d
        else
          register_and_cache_loop rcache total_dsize rank allshm_sbuf allshm_rbuf n (i + 1)
            { d with
              xpmem_raddr := Function.update d.xpmem_raddr i (xpmem_addr r.1 (allshm_rbuf i)) }
    else
      register_and_cache_loop rcache total_dsize rank allshm_sbuf allshm_rbuf n (i + 1)
        { d with
          xpmem_saddr := Function.update d.xpmem_saddr i (allshm_sbuf i),
          xpmem_raddr := Function.update d.xpmem_raddr i (allshm_rbuf i) }

/-- The function `register_and_cache` (compiled under `HAVE_XPMEM_H`): `d` holds the
arrays `data->xpmem_saddr` and `data->xpmem_raddr` on entry. -/
def register_and_cache (rcache : Rcache) (size : Int) (total_dsize : Nat) (rank : Int)
    (allshm_sbuf allshm_rbuf : Int → Nat) (d : XpmemAddrs) : XpmemAddrs :=
  register_and_cache_loop rcache total_dsize rank allshm_sbuf allshm_rbuf size.toNat 0 d

/-! ## Auxiliary definitions for `register_and_cache` -/

/-- The send buffers of the example: the buffer of rank `i` is at the
address `65536 * (i + 1)`. -/
def example_sbuf (i : Int) : Nat := 65536 * (i.toNat + 1)

/-- The receive buffers of the example: the buffer of rank `i` is at the
address `65536 * (i + 1) + 32768`. -/
def example_rbuf (i : Int) : Nat := 65536 * (i.toNat + 1) + 32768

/-- Registration caches of which those of the peers in `bad` fail (code -1)
and all others attach the registered range at `2^32` plus its base. -/
def example_rcache (bad : List Int) : Rcache := fun i base _ =>
  if i ∈ bad then { ret := -1, xpmem_vaddr := 0, base := 0 }
  else { ret := 0, xpmem_vaddr := 4294967296 + base, base := base }

/-- The arrays before the call: no entry has been set (all are `NULL`), no
registration has been made. -/
def unset_addrs : XpmemAddrs :=
  { xpmem_saddr := fun _ => 0, xpmem_raddr := fun _ => 0, registered := [] }

/-- The registration of the send buffer of the peer `i` succeeds. -/
def sbuf_registers (rcache : Rcache) (total_dsize : Nat) (allshm_sbuf : Int → Nat) (i : Int) :
    Prop :=
  (register_buf rcache total_dsize i (allshm_sbuf i)).1.ret = 0

instance (rcache : Rcache) (total_dsize : Nat) (allshm_sbuf : Int → Nat) (i : Int) :
    Decidable (sbuf_registers rcache total_dsize allshm_sbuf i) := by
  unfold sbuf_registers
  infer_instance

/-- Both registrations of the peer `i` succeed: that of its send buffer and
that of its receive buffer. -/
def peer_registers (rcache : Rcache) (total_dsize : Nat) (allshm_sbuf allshm_rbuf : Int → Nat)
    (i : Int) : Prop :=
  (register_buf rcache total_dsize i (allshm_sbuf i)).1.ret = 0 ∧
    (register_buf rcache total_dsize i (allshm_rbuf i)).1.ret = 0

instance (rcache : Rcache) (total_dsize : Nat) (allshm_sbuf allshm_rbuf : Int → Nat) (i : Int) :
    Decidable (peer_registers rcache total_dsize allshm_sbuf allshm_rbuf i) := by
  unfold peer_registers
  infer_instance

/-- No registration fails before the rank `j`: both registrations succeed
for every rank below `j` other than the caller. -/
def no_failure_before (rcache : Rcache) (total_dsize : Nat) (rank : Int)
    (allshm_sbuf allshm_rbuf : Int → Nat) (j : Nat) : Prop :=
  ∀ k ∈ List.range j, (k : Int) ≠ rank →
    peer_registers rcache total_dsize allshm_sbuf allshm_rbuf (k : Int)

instance (rcache : Rcache) (total_dsize : Nat) (rank : Int)
    (allshm_sbuf allshm_rbuf : Int → Nat) (j : Nat) :
    Decidable (no_failure_before rcache total_dsize rank allshm_sbuf allshm_rbuf j) := by
  unfold no_failure_before
  infer_instance

/-! ## Theorems -/

theorem ldiff_eq_xor_and (m n : Nat) : Nat.ldiff m n = m ^^^ (m &&& n) := by
  apply Nat.eq_of_testBit_eq
  intro k
  rw [Nat.testBit_ldiff, Nat.testBit_xor, Nat.testBit_and]
  cases m.testBit k <;> cases n.testBit k <;> rfl

theorem bit_and_eq_land (a b : Int) : bit_and a b = Int.land a b := by
  cases a <;> cases b <;> simp [bit_and, Int.land, ldiff_eq_xor_and]

theorem bit_or_eq_lor (a b : Int) : bit_or a b = Int.lor a b := by
  cases a <;> cases b <;> simp [bit_or, Int.lor, ldiff_eq_xor_and]

theorem testBit_top (x m k : Nat) (hx : x < 2 ^ m) :
    (2 ^ m + x).testBit k = (decide (k = m) || x.testBit k) := by
  rcases Nat.lt_trichotomy k m with h | h | h
  · rw [Nat.testBit_two_pow_add_gt h]
    have : ¬ k = m := by omega
    simp [this]
  · subst h
    rw [Nat.testBit_two_pow_add_eq, Nat.testBit_lt_two_pow hx]
    simp
  · have h1 : x < 2 ^ k := lt_trans hx (Nat.pow_lt_pow_right (by norm_num) h)
    have h2 : 2 ^ m + x < 2 ^ k := by
      have : 2 ^ (m + 1) ≤ 2 ^ k := Nat.pow_le_pow_right (by norm_num) h
      rw [pow_succ] at this
      omega
    rw [Nat.testBit_lt_two_pow h1, Nat.testBit_lt_two_pow h2]
    have : ¬ k = m := by omega
    simp [this]

theorem clear_top_bit (s m : Nat) (h1 : 2 ^ m ≤ s) (h2 : s < 2 ^ (m + 1)) :
    s ^^^ (s &&& 2 ^ m) = s - 2 ^ m := by
  obtain ⟨x, rfl⟩ := Nat.exists_eq_add_of_le h1
  have hx : x < 2 ^ m := by rw [pow_succ] at h2; omega
  rw [Nat.add_sub_cancel_left]
  apply Nat.eq_of_testBit_eq
  intro k
  rw [Nat.testBit_xor, Nat.testBit_and, testBit_top x m k hx, Nat.testBit_two_pow]
  by_cases hk : k = m
  · subst hk
    simp [Nat.testBit_lt_two_pow hx]
  · have : ¬ m = k := fun h => hk h.symm
    simp [hk, this]

theorem or_above (s i : Nat) (h : s < 2 ^ i) : s ||| 2 ^ i = s + 2 ^ i := by
  rw [Nat.add_comm]
  apply Nat.eq_of_testBit_eq
  intro k
  rw [Nat.testBit_or, testBit_top s i k h, Nat.testBit_two_pow, Bool.or_comm]
  congr 1
  by_cases hk : k = i
  · subst hk; simp
  · have : ¬ i = k := fun h => hk h.symm
    simp [hk, this]

theorem bit_and_clear (s m : Nat) (h1 : 2 ^ m ≤ s) (h2 : s < 2 ^ (m + 1)) :
    bit_and (s : Int) (Int.lnot ((2 ^ m : Nat) : Int)) = ((s - 2 ^ m : Nat) : Int) := by
  show Int.ofNat (s ^^^ (s &&& 2 ^ m)) = _
  rw [clear_top_bit s m h1 h2]
  rfl

theorem bit_or_add (s i : Nat) (h : s < 2 ^ i) :
    bit_or (s : Int) ((2 ^ i : Nat) : Int) = ((s + 2 ^ i : Nat) : Int) := by
  show Int.ofNat (s ||| 2 ^ i) = _
  rw [or_above s i h]
  rfl

theorem hibit_scan_zero (d : Nat) : opal_hibit_scan 0 d = -1 := by
  induction d with
  | zero => rfl
  | succ k ih =>
    show (if Int.testBit 0 k then (k : Int) else opal_hibit_scan 0 k) = -1
    have : Int.testBit 0 k = false := by
      show Nat.testBit 0 k = false
      simp
    rw [this]
    simpa using ih

theorem hibit_scan_spec (s : Nat) (hs : 0 < s) :
    ∀ d : Nat, s < 2 ^ d →
      ∃ m : Nat, opal_hibit_scan (s : Int) d = (m : Int) ∧ 2 ^ m ≤ s ∧ s < 2 ^ (m + 1) ∧ m < d := by
  intro d
  induction d with
  | zero => intro h; simp at h; omega
  | succ k ih =>
    intro h
    by_cases hb : Nat.testBit s k = true
    · refine ⟨k, ?_, Nat.testBit_implies_ge hb, h, Nat.lt_succ_self k⟩
      show (if Int.testBit (s : Int) k then (k : Int) else opal_hibit_scan s k) = k
      have : Int.testBit (s : Int) k = true := hb
      rw [this]; rfl
    · have hlt : s < 2 ^ k := by
        by_contra hge
        push_neg at hge
        obtain ⟨x, rfl⟩ := Nat.exists_eq_add_of_le hge
        have hx : x < 2 ^ k := by rw [pow_succ] at h; omega
        rw [Nat.testBit_two_pow_add_eq, Nat.testBit_lt_two_pow hx] at hb
        simp at hb
      obtain ⟨m, h1, h2, h3, h4⟩ := ih hlt
      refine ⟨m, ?_, h2, h3, Nat.lt_succ_of_lt h4⟩
      show (if Int.testBit (s : Int) k then (k : Int) else opal_hibit_scan s k) = m
      have : Int.testBit (s : Int) k = false := by
        show Nat.testBit s k = false
        simpa using hb
      rw [this]
      simpa using h1

theorem msb_unique (s m n : Nat) (h1 : 2 ^ m ≤ s) (h2 : s < 2 ^ (m + 1))
    (h3 : 2 ^ n ≤ s) (h4 : s < 2 ^ (n + 1)) : m = n := by
  have a : m < n + 1 := (Nat.pow_lt_pow_iff_right (by norm_num : 1 < 2)).1 (lt_of_le_of_lt h1 h4)
  have b : n < m + 1 := (Nat.pow_lt_pow_iff_right (by norm_num : 1 < 2)).1 (lt_of_le_of_lt h3 h2)
  omega

theorem tmod_small (x n : Int) (h0 : 0 ≤ x) (h : x < n) : Int.tmod x n = x := by
  rw [Int.tmod_eq_emod h0 (by omega)]
  exact Int.emod_eq_of_lt h0 h

theorem tmod_wrap (x n : Int) (h0 : n ≤ x) (h : x < 2 * n) (hn : 0 < n) :
    Int.tmod x n = x - n := by
  rw [Int.tmod_eq_emod (by omega) (by omega)]
  have : x % n = (x - n) % n := by
    rw [Int.sub_emod, Int.emod_self]; simp
  rw [this]
  exact Int.emod_eq_of_lt (by omega) (by omega)

theorem int_result_some (v : Int) (h1 : INT_MIN ≤ v) (h2 : v ≤ INT_MAX) :
    int_result v = some v := by
  unfold int_result
  rw [if_pos ⟨h1, h2⟩]

theorem int_add_some (a b : Int) (h1 : INT_MIN ≤ a + b) (h2 : a + b ≤ INT_MAX) :
    int_add a b = some (a + b) := int_result_some _ h1 h2

theorem int_sub_some (a b : Int) (h1 : INT_MIN ≤ a - b) (h2 : a - b ≤ INT_MAX) :
    int_sub a b = some (a - b) := int_result_some _ h1 h2

theorem int_mod_some (a b : Int) (hb : 0 < b) : int_mod a b = some (Int.tmod a b) := by
  unfold int_mod
  rw [if_neg]
  rintro (h | ⟨_, h⟩) <;> omega

theorem pow_le_of_le_thirty (i : Nat) (h : i ≤ 30) : ((2 ^ i : Nat) : Int) ≤ 1073741824 := by
  have h1 := Nat.pow_le_pow_right (by norm_num : 0 < 2) h
  have e : (2 : Nat) ^ 30 = 1073741824 := by norm_num
  rw [e] at h1
  exact_mod_cast h1

theorem int_shl_one (i : Nat) (h : i ≤ 30) : int_shl 1 (i : Int) = some ((2 ^ i : Nat) : Int) := by
  unfold int_shl
  rw [if_pos ⟨by norm_num, by omega, by omega⟩]
  have e : (1 : Int) * 2 ^ ((i : Int)).toNat = ((2 ^ i : Nat) : Int) := by
    rw [Int.toNat_natCast]; push_cast; ring
  rw [e]
  exact int_result_some _ (le_trans (by decide) (Int.ofNat_nonneg _))
    (le_trans (pow_le_of_le_thirty i h) (by decide))

theorem int_shl_mask (i : Nat) (h : i < 30) :
    int_shl ((2 ^ i : Nat) : Int) 1 = some ((2 ^ (i + 1) : Nat) : Int) := by
  unfold int_shl
  rw [if_pos ⟨by positivity, by norm_num, by norm_num⟩]
  have e : ((2 ^ i : Nat) : Int) * 2 ^ (1 : Int).toNat = ((2 ^ (i + 1) : Nat) : Int) := by
    have : (1 : Int).toNat = 1 := rfl
    rw [this, pow_succ]; push_cast; ring
  rw [e]
  exact int_result_some _ (le_trans (by decide) (Int.ofNat_nonneg _))
    (le_trans (pow_le_of_le_thirty (i + 1) h) (by decide))

theorem logWindow_size (dim size sg_size cur_base sg_start : Int)
    (w : LogWindow dim size sg_size cur_base sg_start) :
    1 ≤ sg_size ∧ sg_size ≤ 1073741824 ∧ dim.toNat ≤ 30 := by
  have h1 := w.base_ge
  have h2 := w.base_lt
  have h3 := w.dim_ok
  have h4 : dim.toNat ≤ 30 := by have := w.dim_le; omega
  have := pow_le_of_le_thirty dim.toNat h4
  refine ⟨by omega, by omega, h4⟩

theorem log_remap_some (dim size sg_size cur_base sg_start p : Int)
    (w : LogWindow dim size sg_size cur_base sg_start) (hp0 : 0 ≤ p) (hp1 : p < sg_size) :
    log_remap p sg_size cur_base sg_start =
      some (Int.tmod (p + cur_base - sg_start) sg_size + sg_start) := by
  obtain ⟨s1, s2, _⟩ := logWindow_size dim size sg_size cur_base sg_start w
  have h1 := w.base_ge
  have h2 := w.base_lt
  have h3 := w.start_ge
  have h4 := w.end_le
  have h5 := w.peer_le
  unfold INT_MIN at h3
  unfold INT_MAX at h4 h5
  have m0 : 0 ≤ Int.tmod (p + cur_base - sg_start) sg_size := Int.tmod_nonneg _ (by omega)
  have m1 : Int.tmod (p + cur_base - sg_start) sg_size < sg_size := Int.tmod_lt_of_pos _ (by omega)
  have e1 := int_add_some p cur_base (by unfold INT_MIN; omega) (by unfold INT_MAX; omega)
  have e2 := int_sub_some (p + cur_base) sg_start (by unfold INT_MIN; omega)
    (by unfold INT_MAX; omega)
  have e3 := int_mod_some (p + cur_base - sg_start) sg_size (by omega)
  have e4 := int_add_some (Int.tmod (p + cur_base - sg_start) sg_size) sg_start
    (by unfold INT_MIN; omega) (by unfold INT_MAX; omega)
  simp only [log_remap, e1, e2, e3, e4, Option.bind_eq_bind, Option.some_bind]

theorem log_peer_some (dim size sg_size cur_base sg_start p : Int) (c : Prop) [Decidable c]
    (w : LogWindow dim size sg_size cur_base sg_start) (hp0 : 0 ≤ p) (hp1 : p < sg_size) :
    (if c then log_remap p sg_size cur_base sg_start else int_add p cur_base) =
      some (if c then Int.tmod (p + cur_base - sg_start) sg_size + sg_start else p + cur_base) := by
  have h1 := w.base_ge
  have h3 := w.start_ge
  have h5 := w.peer_le
  unfold INT_MIN at h3
  unfold INT_MAX at h5
  split
  · exact log_remap_some dim size sg_size cur_base sg_start p w hp0 hp1
  · exact int_add_some p cur_base (by unfold INT_MIN; omega) (by unfold INT_MAX; omega)

theorem log_window_some (dim size sg_size cur_base sg_start r : Int)
    (w : LogWindow dim size sg_size cur_base sg_start)
    (hr0 : sg_start ≤ r) (hr1 : r < sg_start + sg_size) :
    log_window r size sg_size cur_base sg_start =
      some (log_end_peer size sg_size cur_base sg_start,
        Int.tmod (r - cur_base + sg_size) sg_size) := by
  obtain ⟨s1, s2, _⟩ := logWindow_size dim size sg_size cur_base sg_start w
  have h1 := w.base_ge
  have h2 := w.base_lt
  have h3 := w.start_ge
  have h4 := w.end_le
  have h6 := w.base_live
  unfold INT_MIN at h3
  unfold INT_MAX at h4
  have e1 := int_add_some sg_start sg_size (by unfold INT_MIN; omega) (by unfold INT_MAX; omega)
  have e2 := int_sub_some (sg_start + sg_size) 1 (by unfold INT_MIN; omega)
    (by unfold INT_MAX; omega)
  have e6 := int_sub_some r cur_base (by unfold INT_MIN; omega) (by unfold INT_MAX; omega)
  have e7 := int_add_some (r - cur_base) sg_size (by unfold INT_MIN; omega)
    (by unfold INT_MAX; omega)
  have e8 := int_mod_some (r - cur_base + sg_size) sg_size (by omega)
  by_cases hc : sg_start + sg_size - 1 ≥ size
  · have e3 := int_sub_some size 1 (by unfold INT_MIN; omega) (by unfold INT_MAX; omega)
    have e4 := int_sub_some (size - 1) cur_base (by unfold INT_MIN; omega)
      (by unfold INT_MAX; omega)
    have e5 := int_mod_some (size - 1 - cur_base) sg_size (by omega)
    simp only [log_window, log_end_peer, e1, e2, e3, e4, e5, e6, e7, e8, if_pos hc,
      Option.bind_eq_bind, Option.some_bind, Option.pure_def]
  · have e4 := int_sub_some (sg_start + sg_size - 1) cur_base (by unfold INT_MIN; omega)
      (by unfold INT_MAX; omega)
    have e5 := int_mod_some (sg_start + sg_size - 1 - cur_base) sg_size (by omega)
    simp only [log_window, log_end_peer, e1, e2, e4, e5, e6, e7, e8, if_neg hc,
      Option.bind_eq_bind, Option.some_bind, Option.pure_def]

theorem log_send_body_ok (dim rank size sg_size cur_base sg_start end_peer : Int) (s i : Nat)
    (w : LogWindow dim size sg_size cur_base sg_start) (hs : s < 2 ^ i) (st : BcastOut)
    (h0 : INT_MIN ≤ st.nreqs) (h1 : st.nreqs + 1 ≤ INT_MAX) :
    log_send_body pml_ok rank size sg_size cur_base sg_start (s : Int) end_peer
        ((2 ^ i : Nat) : Int) st =
      (match log_child rank size sg_size cur_base sg_start end_peer s i with
        | none => st
        | some p =>
          { st with err := MPI_SUCCESS, nreqs := st.nreqs + 1,
                    calls := st.calls ++ [PmlCall.isend p] },
        false) := by
  unfold log_send_body log_child
  simp only [bit_or_add s i hs]
  by_cases c1 : ((s + 2 ^ i : Nat) : Int) ≥ sg_size
  · simp only [if_pos c1]
  · simp only [if_neg c1]
    rw [log_peer_some dim size sg_size cur_base sg_start _ _ w (by omega) (by omega)]
    simp only []
    generalize (if ((s + 2 ^ i : Nat) : Int) ≥ end_peer then
        Int.tmod (((s + 2 ^ i : Nat) : Int) + cur_base - sg_start) sg_size + sg_start
      else ((s + 2 ^ i : Nat) : Int) + cur_base) = q
    by_cases c2 : q < size ∧ q ≠ rank ∧ q ≠ cur_base
    · rw [if_pos c2, if_pos c2, int_add_some _ _ (by unfold INT_MIN at *; omega) h1]
      simp [pml_ok]
    · rw [if_neg c2, if_neg c2]

theorem log_send_loop_ok (dim rank size sg_size cur_base sg_start end_peer : Int) (s : Nat)
    (w : LogWindow dim size sg_size cur_base sg_start) :
    ∀ (n i : Nat) (st : BcastOut), s < 2 ^ i → i + n ≤ 30 → INT_MIN ≤ st.nreqs →
      st.nreqs + n ≤ INT_MAX →
      log_send_loop pml_ok rank size sg_size cur_base sg_start (s : Int) end_peer n
          ((2 ^ i : Nat) : Int) st =
        { err := if log_children rank size sg_size cur_base sg_start end_peer s n i = [] then st.err
                 else MPI_SUCCESS,
          nreqs := st.nreqs +
            (log_children rank size sg_size cur_base sg_start end_peer s n i).length,
          calls := st.calls ++
            (log_children rank size sg_size cur_base sg_start end_peer s n i).map PmlCall.isend,
          undefined := st.undefined } := by
  intro n
  induction n with
  | zero =>
    intro i st _ _ _ _
    simp [log_send_loop, log_children]
  | succ n ih =>
    intro i st hs hi h0 h1
    have hs1 : s < 2 ^ (i + 1) := by rw [pow_succ]; omega
    rw [log_send_loop]
    simp only []
    rw [log_send_body_ok dim rank size sg_size cur_base sg_start end_peer s i w hs st h0
      (by push_cast at h1; omega)]
    simp only [Bool.false_eq_true, if_false]
    rw [int_shl_mask i (by omega)]
    simp only []
    push_cast at h1
    cases hc : log_child rank size sg_size cur_base sg_start end_peer s i with
    | none =>
      simp only []
      rw [ih (i + 1) st hs1 (by omega) h0 (by omega)]
      simp [log_children, hc]
    | some p =>
      simp only []
      rw [ih (i + 1) _ hs1 (by omega) (by simp only []; omega) (by simp only []; omega)]
      simp [log_children, hc]
      omega

theorem mem_log_children (rank size sg_size cur_base sg_start end_peer : Int) (s : Nat) (p : Int) :
    ∀ (n i : Nat), p ∈ log_children rank size sg_size cur_base sg_start end_peer s n i ↔
      ∃ j, i ≤ j ∧ j < i + n ∧ log_child rank size sg_size cur_base sg_start end_peer s j = some p := by
  intro n
  induction n with
  | zero =>
    intro i
    simp only [log_children, List.not_mem_nil, false_iff]
    rintro ⟨j, h1, h2, _⟩
    omega
  | succ n ih =>
    intro i
    simp only [log_children, List.mem_append, Option.mem_toList, Option.mem_def, ih]
    constructor
    · rintro (h | ⟨j, h1, h2, h3⟩)
      · exact ⟨i, le_refl _, by omega, h⟩
      · exact ⟨j, by omega, by omega, h3⟩
    · rintro ⟨j, h1, h2, h3⟩
      by_cases hj : j = i
      · subst hj; exact Or.inl h3
      · exact Or.inr ⟨j, by omega, by omega, h3⟩

theorem log_bcast_ok_root (err0 rank dim size sg_size cur_base sg_start nreqs : Int)
    (w : LogWindow dim size sg_size cur_base sg_start)
    (hr0 : sg_start ≤ rank) (hr1 : rank < sg_start + sg_size)
    (hn0 : INT_MIN ≤ nreqs) (hn1 : nreqs + dim ≤ INT_MAX)
    (hsub : Int.tmod (rank - cur_base + sg_size) sg_size = 0) :
    log_sg_bcast_intra pml_ok err0 rank dim size sg_size cur_base sg_start nreqs =
      { err := if log_children rank size sg_size cur_base sg_start
                    (log_end_peer size sg_size cur_base sg_start) 0 dim.toNat 0 = [] then err0
               else MPI_SUCCESS,
        nreqs := nreqs + (log_children rank size sg_size cur_base sg_start
                    (log_end_peer size sg_size cur_base sg_start) 0 dim.toNat 0).length,
        calls := (log_children rank size sg_size cur_base sg_start
                    (log_end_peer size sg_size cur_base sg_start) 0 dim.toNat 0).map PmlCall.isend } := by
  obtain ⟨_, _, hd⟩ := logWindow_size dim size sg_size cur_base sg_start w
  have hd0 := w.dim_ge
  unfold log_sg_bcast_intra
  rw [log_window_some dim size sg_size cur_base sg_start rank w hr0 hr1]
  simp only [hsub]
  have h0 : opal_hibit 0 dim = -1 := hibit_scan_zero _
  rw [h0, int_sub_some dim 1 (by unfold INT_MIN; omega) (by unfold INT_MAX; omega)]
  simp only []
  rw [if_neg (by decide)]
  unfold log_sends
  have ea : int_add (-1) 1 = some 0 := by decide
  have es : int_shl 1 0 = some ((2 ^ 0 : Nat) : Int) := by decide
  have hn : (dim - 1 - 0 + 1).toNat = dim.toNat := by congr 1; ring
  rw [ea]
  simp only []
  rw [es]
  simp only []
  rw [hn]
  have := log_send_loop_ok dim rank size sg_size cur_base sg_start
    (log_end_peer size sg_size cur_base sg_start) 0 w dim.toNat 0
    { err := err0, nreqs := nreqs, calls := [] } (by norm_num) (by omega) hn0
    (by simp only []; omega)
  simp only [Nat.cast_zero] at this
  rw [this]
  simp

theorem log_parent_some (dim size sg_size cur_base sg_start : Int) (s m : Nat)
    (w : LogWindow dim size sg_size cur_base sg_start)
    (h1 : 2 ^ m ≤ s) (h2 : s < 2 ^ (m + 1)) (hm : m ≤ 30) (hlt : (s : Int) < sg_size) :
    log_parent sg_size cur_base sg_start (s : Int)
        (log_end_peer size sg_size cur_base sg_start) (m : Int) =
      some (if ((s - 2 ^ m : Nat) : Int) > log_end_peer size sg_size cur_base sg_start then
                Int.tmod (((s - 2 ^ m : Nat) : Int) + cur_base - sg_start) sg_size + sg_start
              else ((s - 2 ^ m : Nat) : Int) + cur_base) := by
  unfold log_parent
  rw [int_shl_one m hm]
  simp only [Option.bind_eq_bind, Option.some_bind, bit_and_clear s m h1 h2]
  exact log_peer_some dim size sg_size cur_base sg_start _ _ w (by omega) (by omega)

theorem int_add_succ (m : Nat) (hm : m ≤ 30) : int_add (m : Int) 1 = some ((m + 1 : Nat) : Int) := by
  rw [int_add_some _ _ (by unfold INT_MIN; omega) (by unfold INT_MAX; omega)]
  push_cast
  rfl

theorem log_sends_of (pml : Pml) (rank d size sg_size cur_base sg_start sub_rank end_peer : Int)
    (msb i mask : Int) (st : BcastOut) (h1 : int_add msb 1 = some i) (h2 : int_shl 1 i = some mask) :
    log_sends pml rank d size sg_size cur_base sg_start sub_rank end_peer msb st =
      log_send_loop pml rank size sg_size cur_base sg_start sub_rank end_peer
        (d - i + 1).toNat mask st := by
  unfold log_sends
  rw [h1]
  simp only []
  rw [h2]

theorem log_sends_some (pml : Pml) (rank d size sg_size cur_base sg_start sub_rank end_peer : Int)
    (m : Nat) (hm : m + 1 ≤ 30) (st : BcastOut) :
    log_sends pml rank d size sg_size cur_base sg_start sub_rank end_peer (m : Int) st =
      log_send_loop pml rank size sg_size cur_base sg_start sub_rank end_peer
        (d - ((m + 1 : Nat) : Int) + 1).toNat ((2 ^ (m + 1) : Nat) : Int) st :=
  log_sends_of pml rank d size sg_size cur_base sg_start sub_rank end_peer _ _ _ st
    (int_add_succ m (by omega)) (int_shl_one (m + 1) hm)

theorem log_bcast_ok_inner (err0 rank dim size sg_size cur_base sg_start nreqs : Int) (s : Nat)
    (w : LogWindow dim size sg_size cur_base sg_start)
    (hr0 : sg_start ≤ rank) (hr1 : rank < sg_start + sg_size)
    (hn0 : INT_MIN ≤ nreqs) (hn1 : nreqs + dim ≤ INT_MAX)
    (hs : 0 < s) (hsub : Int.tmod (rank - cur_base + sg_size) sg_size = (s : Int))
    (hlt : (s : Int) < sg_size) (hd : s < 2 ^ dim.toNat) :
    ∃ m : Nat, 2 ^ m ≤ s ∧ s < 2 ^ (m + 1) ∧ m < dim.toNat ∧
      log_sg_bcast_intra pml_ok err0 rank dim size sg_size cur_base sg_start nreqs =
        { err := MPI_SUCCESS,
          nreqs := nreqs + (log_children rank size sg_size cur_base sg_start
                    (log_end_peer size sg_size cur_base sg_start) s (dim.toNat - 1 - m) (m + 1)).length,
          calls := PmlCall.recv
              (if ((s - 2 ^ m : Nat) : Int) > log_end_peer size sg_size cur_base sg_start then
                Int.tmod (((s - 2 ^ m : Nat) : Int) + cur_base - sg_start) sg_size + sg_start
              else ((s - 2 ^ m : Nat) : Int) + cur_base) ::
            (log_children rank size sg_size cur_base sg_start
              (log_end_peer size sg_size cur_base sg_start) s (dim.toNat - 1 - m) (m + 1)).map
              PmlCall.isend } := by
  obtain ⟨m, hm, h1, h2, h3⟩ := hibit_scan_spec s hs dim.toNat hd
  refine ⟨m, h1, h2, h3, ?_⟩
  obtain ⟨_, _, hd30⟩ := logWindow_size dim size sg_size cur_base sg_start w
  have hd0 := w.dim_ge
  unfold log_sg_bcast_intra
  rw [log_window_some dim size sg_size cur_base sg_start rank w hr0 hr1]
  simp only [hsub]
  have h0 : opal_hibit (s : Int) dim = (m : Int) := hm
  have hpos : (s : Int) > 0 := by exact_mod_cast hs
  rw [h0, int_sub_some dim 1 (by unfold INT_MIN; omega) (by unfold INT_MAX; omega)]
  simp only []
  rw [if_pos hpos]
  rw [log_parent_some dim size sg_size cur_base sg_start s m w h1 h2 (by omega) hlt]
  simp only []
  have hok : ∀ c, ¬ (pml_ok [] c ≠ MPI_SUCCESS) := by intro c; simp [pml_ok]
  rw [if_neg (hok _)]
  rw [log_sends_some pml_ok rank (dim - 1) size sg_size cur_base sg_start _ _ m (by omega)]
  have hn : (dim - 1 - ((m + 1 : Nat) : Int) + 1).toNat = dim.toNat - 1 - m := by omega
  rw [hn]
  have := log_send_loop_ok dim rank size sg_size cur_base sg_start
    (log_end_peer size sg_size cur_base sg_start) s w (dim.toNat - 1 - m) (m + 1)
    { err := pml_ok [] (PmlCall.recv
              (if ((s - 2 ^ m : Nat) : Int) > log_end_peer size sg_size cur_base sg_start then
                Int.tmod (((s - 2 ^ m : Nat) : Int) + cur_base - sg_start) sg_size + sg_start
              else ((s - 2 ^ m : Nat) : Int) + cur_base)),
      nreqs := nreqs,
      calls := [PmlCall.recv
              (if ((s - 2 ^ m : Nat) : Int) > log_end_peer size sg_size cur_base sg_start then
                Int.tmod (((s - 2 ^ m : Nat) : Int) + cur_base - sg_start) sg_size + sg_start
              else ((s - 2 ^ m : Nat) : Int) + cur_base)] } h2 (by omega) hn0
    (by simp only []; omega)
  rw [this]
  simp [pml_ok]

theorem log_end_peer_eq (size sg_size cur_base sg_start : Int)
    (h0 : sg_start ≤ cur_base) (h1 : cur_base < sg_start + sg_size) (h2 : cur_base < size) :
    log_end_peer size sg_size cur_base sg_start =
      (if sg_start + sg_size - 1 ≥ size then size - 1 else sg_start + sg_size - 1) - cur_base := by
  unfold log_end_peer
  apply tmod_small
  · split <;> omega
  · split <;> omega

theorem sub_rank_eq (sg_size cur_base sg_start r : Int)
    (h0 : sg_start ≤ cur_base) (h1 : cur_base < sg_start + sg_size)
    (hr0 : sg_start ≤ r) (hr1 : r < sg_start + sg_size) :
    Int.tmod (r - cur_base + sg_size) sg_size =
      if cur_base ≤ r then r - cur_base else r - cur_base + sg_size := by
  split
  · have : r - cur_base + sg_size = (r - cur_base) + sg_size := by ring
    rw [tmod_wrap _ _ (by omega) (by omega) (by omega)]
    omega
  · rw [tmod_small _ _ (by omega) (by omega)]

theorem unsub_recv_eq (size sg_size cur_base sg_start p : Int)
    (h0 : sg_start ≤ cur_base) (h1 : cur_base < sg_start + sg_size) (h2 : cur_base < size)
    (hp0 : 0 ≤ p) (hp1 : p < sg_size) :
    (if p > log_end_peer size sg_size cur_base sg_start then
        Int.tmod (p + cur_base - sg_start) sg_size + sg_start
      else p + cur_base) = log_unsub sg_size cur_base sg_start p := by
  rw [log_end_peer_eq size sg_size cur_base sg_start h0 h1 h2]
  unfold log_unsub
  by_cases hw : p + cur_base < sg_start + sg_size
  · rw [if_pos hw, tmod_small _ _ (by omega) (by omega)]
    split <;> omega
  · rw [if_neg hw, tmod_wrap _ _ (by omega) (by omega) (by omega)]
    rw [if_pos (by split <;> omega)]
    omega

theorem unsub_send_eq (size sg_size cur_base sg_start p : Int)
    (h0 : sg_start ≤ cur_base) (h1 : cur_base < sg_start + sg_size) (h2 : cur_base < size)
    (hp0 : 0 ≤ p) (hp1 : p < sg_size) :
    (if p ≥ log_end_peer size sg_size cur_base sg_start then
        Int.tmod (p + cur_base - sg_start) sg_size + sg_start
      else p + cur_base) = log_unsub sg_size cur_base sg_start p := by
  rw [log_end_peer_eq size sg_size cur_base sg_start h0 h1 h2]
  unfold log_unsub
  by_cases hw : p + cur_base < sg_start + sg_size
  · rw [if_pos hw, tmod_small _ _ (by omega) (by omega)]
    split <;> omega
  · rw [if_neg hw, tmod_wrap _ _ (by omega) (by omega) (by omega)]
    rw [if_pos (by split <;> omega)]
    omega

theorem recvPeers_map_isend (l : List Int) : recvPeers (l.map PmlCall.isend) = [] := by
  induction l with
  | nil => rfl
  | cons a l ih => simpa [recvPeers] using ih

theorem sendPeers_map_isend (l : List Int) : sendPeers (l.map PmlCall.isend) = l := by
  induction l with
  | nil => rfl
  | cons a l ih => simpa [sendPeers] using ih

theorem log_sub_cast (sg_size cur_base sg_start r : Int)
    (h0 : sg_start ≤ cur_base) (h1 : cur_base < sg_start + sg_size)
    (hr0 : sg_start ≤ r) (hr1 : r < sg_start + sg_size) :
    Int.tmod (r - cur_base + sg_size) sg_size = ((log_sub sg_size cur_base r : Nat) : Int) := by
  rw [sub_rank_eq sg_size cur_base sg_start r h0 h1 hr0 hr1]
  unfold log_sub
  split <;> omega

theorem log_sub_lt (sg_size cur_base sg_start r : Int)
    (h0 : sg_start ≤ cur_base) (h1 : cur_base < sg_start + sg_size)
    (hr0 : sg_start ≤ r) (hr1 : r < sg_start + sg_size) :
    ((log_sub sg_size cur_base r : Nat) : Int) < sg_size := by
  unfold log_sub
  split <;> omega

theorem log_unsub_sub (sg_size cur_base sg_start r : Int)
    (h0 : sg_start ≤ cur_base) (h1 : cur_base < sg_start + sg_size)
    (hr0 : sg_start ≤ r) (hr1 : r < sg_start + sg_size) :
    log_unsub sg_size cur_base sg_start ((log_sub sg_size cur_base r : Nat) : Int) = r := by
  unfold log_unsub log_sub
  split <;> split <;> omega

theorem log_sub_unsub (sg_size cur_base sg_start : Int) (p : Nat)
    (_h0 : sg_start ≤ cur_base) (_h1 : cur_base < sg_start + sg_size)
    (hp : (p : Int) < sg_size) :
    log_sub sg_size cur_base (log_unsub sg_size cur_base sg_start (p : Int)) = p := by
  unfold log_unsub log_sub
  split <;> split <;> omega

theorem log_unsub_mem (sg_size cur_base sg_start : Int) (p : Nat)
    (_h0 : sg_start ≤ cur_base) (h1 : cur_base < sg_start + sg_size)
    (hp : (p : Int) < sg_size) :
    sg_start ≤ log_unsub sg_size cur_base sg_start (p : Int) ∧
      log_unsub sg_size cur_base sg_start (p : Int) < sg_start + sg_size := by
  unfold log_unsub
  split <;> omega

theorem log_sub_eq_zero (sg_size cur_base sg_start r : Int)
    (_h0 : sg_start ≤ cur_base) (h1 : cur_base < sg_start + sg_size)
    (hr0 : sg_start ≤ r) (_hr1 : r < sg_start + sg_size) :
    log_sub sg_size cur_base r = 0 ↔ r = cur_base := by
  unfold log_sub
  split <;> omega

theorem log_child_char (dim size sg_size cur_base sg_start r : Int)
    (w : LogWindow dim size sg_size cur_base sg_start)
    (hr0 : sg_start ≤ r) (hr1 : r < sg_start + sg_size) (j : Nat) (b : Int) :
    log_child r size sg_size cur_base sg_start (log_end_peer size sg_size cur_base sg_start)
        (log_sub sg_size cur_base r) j = some b ↔
      ((log_sub sg_size cur_base r + 2 ^ j : Nat) : Int) < sg_size ∧
        b = log_unsub sg_size cur_base sg_start ((log_sub sg_size cur_base r + 2 ^ j : Nat) : Int) ∧
        b < size := by
  have hU := log_unsub_sub sg_size cur_base sg_start r w.base_ge w.base_lt hr0 hr1
  have hpos : 0 < 2 ^ j := Nat.pos_pow_of_pos j (by norm_num)
  unfold log_child
  simp only []
  generalize 2 ^ j = P at hpos ⊢
  generalize log_sub sg_size cur_base r = s at hU ⊢
  by_cases hc : ((s + P : Nat) : Int) ≥ sg_size
  · simp only [if_pos hc]
    constructor
    · intro h; exact absurd h (by simp)
    · rintro ⟨h, _⟩; omega
  · simp only [if_neg hc]
    rw [unsub_send_eq size sg_size cur_base sg_start _ w.base_ge w.base_lt w.base_live
      (by omega) (by omega)]
    have hne1 : log_unsub sg_size cur_base sg_start ((s + P : Nat) : Int) ≠ r := by
      rw [← hU]; unfold log_unsub; split <;> split <;> omega
    have hne2 : log_unsub sg_size cur_base sg_start ((s + P : Nat) : Int) ≠ cur_base := by
      unfold log_unsub; have := w.base_ge; split <;> omega
    by_cases hsz : log_unsub sg_size cur_base sg_start ((s + P : Nat) : Int) < size
    · rw [if_pos ⟨hsz, hne1, hne2⟩]
      constructor
      · intro h
        have : log_unsub sg_size cur_base sg_start ((s + P : Nat) : Int) = b := by simpa using h
        exact ⟨by omega, this.symm, by omega⟩
      · rintro ⟨_, h, _⟩; rw [h]
    · rw [if_neg (fun h => hsz h.1)]
      constructor
      · intro h; exact absurd h (by simp)
      · rintro ⟨_, h, h2⟩; rw [h] at h2; exact absurd h2 hsz

theorem log_sub_lt_pow (dim size sg_size cur_base sg_start r : Int)
    (w : LogWindow dim size sg_size cur_base sg_start)
    (hr0 : sg_start ≤ r) (hr1 : r < sg_start + sg_size) :
    log_sub sg_size cur_base r < 2 ^ dim.toNat := by
  have h1 := log_sub_lt sg_size cur_base sg_start r w.base_ge w.base_lt hr0 hr1
  have h2 := w.dim_ok
  exact_mod_cast lt_of_lt_of_le h1 h2

theorem log_recv_root (dim size sg_size cur_base sg_start : Int)
    (w : LogWindow dim size sg_size cur_base sg_start) :
    log_recv_from cur_base dim size sg_size cur_base sg_start = [] := by
  have hsub : Int.tmod (cur_base - cur_base + sg_size) sg_size = 0 := by
    have := w.base_ge
    have := w.base_lt
    rw [sub_self, zero_add]
    exact Int.tmod_self
  unfold log_recv_from
  rw [log_bcast_ok_root 0 cur_base dim size sg_size cur_base sg_start 0 w w.base_ge w.base_lt
    (by decide) (by have := w.dim_le; unfold INT_MAX; omega) hsub]
  exact recvPeers_map_isend _

theorem log_recv_inner (dim size sg_size cur_base sg_start r : Int)
    (w : LogWindow dim size sg_size cur_base sg_start)
    (hr0 : sg_start ≤ r) (hr1 : r < sg_start + sg_size) (hne : r ≠ cur_base) :
    ∃ m : Nat, 2 ^ m ≤ log_sub sg_size cur_base r ∧ log_sub sg_size cur_base r < 2 ^ (m + 1) ∧
      m < dim.toNat ∧
      log_recv_from r dim size sg_size cur_base sg_start =
        [log_unsub sg_size cur_base sg_start ((log_sub sg_size cur_base r - 2 ^ m : Nat) : Int)] := by
  have hsub := log_sub_cast sg_size cur_base sg_start r w.base_ge w.base_lt hr0 hr1
  have hlt := log_sub_lt sg_size cur_base sg_start r w.base_ge w.base_lt hr0 hr1
  have hpos : 0 < log_sub sg_size cur_base r := by
    rcases Nat.eq_zero_or_pos (log_sub sg_size cur_base r) with h | h
    · exact absurd ((log_sub_eq_zero sg_size cur_base sg_start r w.base_ge w.base_lt hr0 hr1).1 h) hne
    · exact h
  obtain ⟨m, h1, h2, h3, h4⟩ := log_bcast_ok_inner 0 r dim size sg_size cur_base sg_start 0
    (log_sub sg_size cur_base r) w hr0 hr1 (by decide) (by have := w.dim_le; unfold INT_MAX; omega) hpos hsub hlt
    (log_sub_lt_pow dim size sg_size cur_base sg_start r w hr0 hr1)
  refine ⟨m, h1, h2, h3, ?_⟩
  unfold log_recv_from
  rw [h4]
  simp only [recvPeers, recvPeers_map_isend]
  rw [unsub_recv_eq size sg_size cur_base sg_start _ w.base_ge w.base_lt w.base_live
    (by omega) (by omega)]

theorem log_send_char (dim size sg_size cur_base sg_start r : Int)
    (w : LogWindow dim size sg_size cur_base sg_start)
    (hr0 : sg_start ≤ r) (hr1 : r < sg_start + sg_size) (b : Int) :
    b ∈ log_send_to r dim size sg_size cur_base sg_start ↔
      ∃ j : Nat, log_sub sg_size cur_base r < 2 ^ j ∧ j < dim.toNat ∧
        ((log_sub sg_size cur_base r + 2 ^ j : Nat) : Int) < sg_size ∧
        b = log_unsub sg_size cur_base sg_start ((log_sub sg_size cur_base r + 2 ^ j : Nat) : Int) ∧
        b < size := by
  have hsub := log_sub_cast sg_size cur_base sg_start r w.base_ge w.base_lt hr0 hr1
  rcases Nat.eq_zero_or_pos (log_sub sg_size cur_base r) with h | hpos
  · have hsub0 : Int.tmod (r - cur_base + sg_size) sg_size = 0 := by rw [hsub, h]; rfl
    unfold log_send_to
    rw [log_bcast_ok_root 0 r dim size sg_size cur_base sg_start 0 w hr0 hr1
      (by decide) (by have := w.dim_le; unfold INT_MAX; omega) hsub0, sendPeers_map_isend]
    have hc := fun j => log_child_char dim size sg_size cur_base sg_start r w hr0 hr1 j b
    rw [h] at hc
    rw [mem_log_children, h]
    constructor
    · rintro ⟨j, _, h2, h3⟩
      exact ⟨j, Nat.pos_pow_of_pos j (by norm_num), by omega, (hc j).1 h3⟩
    · rintro ⟨j, _, h2, h3⟩
      exact ⟨j, Nat.zero_le j, by omega, (hc j).2 h3⟩
  · obtain ⟨m, h1, h2, h3, h4⟩ := log_bcast_ok_inner 0 r dim size sg_size cur_base sg_start 0
      (log_sub sg_size cur_base r) w hr0 hr1 (by decide) (by have := w.dim_le; unfold INT_MAX; omega) hpos hsub
      (log_sub_lt sg_size cur_base sg_start r w.base_ge w.base_lt hr0 hr1)
      (log_sub_lt_pow dim size sg_size cur_base sg_start r w hr0 hr1)
    unfold log_send_to
    rw [h4]
    simp only [sendPeers, sendPeers_map_isend]
    rw [mem_log_children]
    have hc := fun j => log_child_char dim size sg_size cur_base sg_start r w hr0 hr1 j b
    constructor
    · rintro ⟨j, hj1, hj2, hj3⟩
      refine ⟨j, ?_, by omega, (hc j).1 hj3⟩
      exact lt_of_lt_of_le h2 (Nat.pow_le_pow_right (by norm_num) hj1)
    · rintro ⟨j, hj1, hj2, hj3⟩
      refine ⟨j, ?_, by omega, (hc j).2 hj3⟩
      have : m < j := (Nat.pow_lt_pow_iff_right (by norm_num : 1 < 2)).1 (lt_of_le_of_lt h1 hj1)
      omega

theorem log_children_nodup (dim size sg_size cur_base sg_start r : Int)
    (w : LogWindow dim size sg_size cur_base sg_start)
    (hr0 : sg_start ≤ r) (hr1 : r < sg_start + sg_size) :
    ∀ n i : Nat, (log_children r size sg_size cur_base sg_start
      (log_end_peer size sg_size cur_base sg_start) (log_sub sg_size cur_base r) n i).Nodup := by
  intro n
  induction n with
  | zero => intro i; simp [log_children]
  | succ n ih =>
    intro i
    rw [log_children, List.nodup_append]
    refine ⟨?_, ih (i + 1), ?_⟩
    · cases log_child r size sg_size cur_base sg_start
        (log_end_peer size sg_size cur_base sg_start) (log_sub sg_size cur_base r) i <;> simp
    · intro a ha hb
      rw [Option.mem_toList, Option.mem_def] at ha
      rw [mem_log_children] at hb
      obtain ⟨j, hj1, _, hj3⟩ := hb
      obtain ⟨a1, a2, _⟩ := (log_child_char dim size sg_size cur_base sg_start r w hr0 hr1 i a).1 ha
      obtain ⟨b1, b2, _⟩ := (log_child_char dim size sg_size cur_base sg_start r w hr0 hr1 j a).1 hj3
      have hij : 2 ^ i < 2 ^ j := Nat.pow_lt_pow_right (by norm_num) (by omega)
      have e := a2.symm.trans b2
      have := w.base_ge
      have := w.base_lt
      generalize 2 ^ i = P at *
      generalize 2 ^ j = Q at *
      unfold log_unsub at e
      split at e <;> split at e <;> omega

theorem log_send_nodup (dim size sg_size cur_base sg_start r : Int)
    (w : LogWindow dim size sg_size cur_base sg_start)
    (hr0 : sg_start ≤ r) (hr1 : r < sg_start + sg_size) :
    (log_send_to r dim size sg_size cur_base sg_start).Nodup := by
  have hsub := log_sub_cast sg_size cur_base sg_start r w.base_ge w.base_lt hr0 hr1
  rcases Nat.eq_zero_or_pos (log_sub sg_size cur_base r) with h | hpos
  · have hsub0 : Int.tmod (r - cur_base + sg_size) sg_size = 0 := by rw [hsub, h]; rfl
    unfold log_send_to
    rw [log_bcast_ok_root 0 r dim size sg_size cur_base sg_start 0 w hr0 hr1
      (by decide) (by have := w.dim_le; unfold INT_MAX; omega) hsub0, sendPeers_map_isend]
    have := log_children_nodup dim size sg_size cur_base sg_start r w hr0 hr1 dim.toNat 0
    rwa [h] at this
  · obtain ⟨m, h1, h2, h3, h4⟩ := log_bcast_ok_inner 0 r dim size sg_size cur_base sg_start 0
      (log_sub sg_size cur_base r) w hr0 hr1 (by decide) (by have := w.dim_le; unfold INT_MAX; omega) hpos hsub
      (log_sub_lt sg_size cur_base sg_start r w.base_ge w.base_lt hr0 hr1)
      (log_sub_lt_pow dim size sg_size cur_base sg_start r w hr0 hr1)
    unfold log_send_to
    rw [h4]
    simp only [sendPeers, sendPeers_map_isend]
    exact log_children_nodup dim size sg_size cur_base sg_start r w hr0 hr1 _ _

theorem log_parent_live (dim size sg_size cur_base sg_start r : Int)
    (w : LogWindow dim size sg_size cur_base sg_start)
    (hc : cur_base = sg_start ∨ sg_start + sg_size ≤ size)
    (hr0 : sg_start ≤ r) (hr1 : r < sg_start + sg_size) (hr2 : r < size) (hne : r ≠ cur_base) :
    ∃ p, (sg_start ≤ p ∧ p < sg_start + sg_size ∧ p < size) ∧ p ≠ r ∧
      log_recv_from r dim size sg_size cur_base sg_start = [p] ∧
      log_sub sg_size cur_base p < log_sub sg_size cur_base r := by
  obtain ⟨m, h1, h2, _, h4⟩ := log_recv_inner dim size sg_size cur_base sg_start r w hr0 hr1 hne
  have hlt := log_sub_lt sg_size cur_base sg_start r w.base_ge w.base_lt hr0 hr1
  have hU := log_unsub_sub sg_size cur_base sg_start r w.base_ge w.base_lt hr0 hr1
  have hpos : 0 < 2 ^ m := Nat.pos_pow_of_pos m (by norm_num)
  have hplt : ((log_sub sg_size cur_base r - 2 ^ m : Nat) : Int) < sg_size := by omega
  have hmem := log_unsub_mem sg_size cur_base sg_start _ w.base_ge w.base_lt hplt
  have hsub := log_sub_unsub sg_size cur_base sg_start _ w.base_ge w.base_lt hplt
  refine ⟨_, ⟨hmem.1, hmem.2, ?_⟩, ?_, h4, ?_⟩
  · rcases hc with hc | hc
    · have hb := w.base_ge
      generalize 2 ^ m = P at *
      generalize log_sub sg_size cur_base r = s at *
      unfold log_unsub at hU ⊢
      split at hU <;> split <;> omega
    · omega
  · generalize 2 ^ m = P at *
    generalize log_sub sg_size cur_base r = s at *
    rw [← hU]
    have hb := w.base_ge
    unfold log_unsub
    split <;> split <;> omega
  · rw [hsub]; omega

theorem log_send_iff_recv (dim size sg_size cur_base sg_start a b : Int)
    (w : LogWindow dim size sg_size cur_base sg_start)
    (ha0 : sg_start ≤ a) (ha1 : a < sg_start + sg_size)
    (hb0 : sg_start ≤ b) (hb1 : b < sg_start + sg_size) (hb2 : b < size) :
    b ∈ log_send_to a dim size sg_size cur_base sg_start ↔
      log_recv_from b dim size sg_size cur_base sg_start = [a] := by
  have hUa := log_unsub_sub sg_size cur_base sg_start a w.base_ge w.base_lt ha0 ha1
  have hUb := log_unsub_sub sg_size cur_base sg_start b w.base_ge w.base_lt hb0 hb1
  have hlta := log_sub_lt sg_size cur_base sg_start a w.base_ge w.base_lt ha0 ha1
  have hltb := log_sub_lt sg_size cur_base sg_start b w.base_ge w.base_lt hb0 hb1
  rw [log_send_char dim size sg_size cur_base sg_start a w ha0 ha1 b]
  constructor
  · rintro ⟨j, h1, _, h3, h4, _⟩
    have ht : log_sub sg_size cur_base b = log_sub sg_size cur_base a + 2 ^ j := by
      rw [h4]; exact log_sub_unsub sg_size cur_base sg_start _ w.base_ge w.base_lt h3
    have hpos : 0 < 2 ^ j := Nat.pos_pow_of_pos j (by norm_num)
    have hne : b ≠ cur_base := by
      intro h
      have := (log_sub_eq_zero sg_size cur_base sg_start b w.base_ge w.base_lt hb0 hb1).2 h
      omega
    obtain ⟨m, m1, m2, _, m4⟩ := log_recv_inner dim size sg_size cur_base sg_start b w hb0 hb1 hne
    have hmj : m = j := by
      apply msb_unique (log_sub sg_size cur_base b) m j m1 m2
      · omega
      · rw [pow_succ]; omega
    subst hmj
    rw [m4, ht, Nat.add_sub_cancel, hUa]
  · intro h
    have hne : b ≠ cur_base := by
      intro hb
      rw [hb, log_recv_root dim size sg_size cur_base sg_start w] at h
      exact absurd h (by simp)
    obtain ⟨m, m1, m2, m3, m4⟩ := log_recv_inner dim size sg_size cur_base sg_start b w hb0 hb1 hne
    rw [m4] at h
    have ha : log_unsub sg_size cur_base sg_start
        ((log_sub sg_size cur_base b - 2 ^ m : Nat) : Int) = a := by simpa using h
    have hplt : ((log_sub sg_size cur_base b - 2 ^ m : Nat) : Int) < sg_size := by omega
    have hs : log_sub sg_size cur_base a = log_sub sg_size cur_base b - 2 ^ m := by
      rw [← ha]; exact log_sub_unsub sg_size cur_base sg_start _ w.base_ge w.base_lt hplt
    have hst : log_sub sg_size cur_base a + 2 ^ m = log_sub sg_size cur_base b := by omega
    refine ⟨m, ?_, m3, ?_, ?_, hb2⟩
    · rw [pow_succ] at m2; omega
    · rw [hst]; exact hltb
    · rw [hst, hUb]

theorem log_send_live (dim size sg_size cur_base sg_start a b : Int)
    (w : LogWindow dim size sg_size cur_base sg_start)
    (ha0 : sg_start ≤ a) (ha1 : a < sg_start + sg_size)
    (hb : b ∈ log_send_to a dim size sg_size cur_base sg_start) :
    (sg_start ≤ b ∧ b < sg_start + sg_size ∧ b < size) ∧ b ≠ a ∧ b ≠ cur_base := by
  have hUa := log_unsub_sub sg_size cur_base sg_start a w.base_ge w.base_lt ha0 ha1
  obtain ⟨j, _, _, h3, h4, h5⟩ :=
    (log_send_char dim size sg_size cur_base sg_start a w ha0 ha1 b).1 hb
  have hmem := log_unsub_mem sg_size cur_base sg_start _ w.base_ge w.base_lt h3
  have hpos : 0 < 2 ^ j := Nat.pos_pow_of_pos j (by norm_num)
  have hb0 := w.base_ge
  refine ⟨⟨by rw [h4]; exact hmem.1, by rw [h4]; exact hmem.2, h5⟩, ?_, ?_⟩
  · intro heq
    have e := (h4.symm.trans heq).trans hUa.symm
    generalize 2 ^ j = P at *
    generalize log_sub sg_size cur_base a = s at *
    unfold log_unsub at e
    split at e <;> split at e <;> omega
  · intro heq
    have e := h4.symm.trans heq
    generalize 2 ^ j = P at *
    generalize log_sub sg_size cur_base a = s at *
    unfold log_unsub at e
    split at e <;> omega

theorem log_climb_reaches (dim size sg_size cur_base sg_start : Int)
    (w : LogWindow dim size sg_size cur_base sg_start)
    (hc : cur_base = sg_start ∨ sg_start + sg_size ≤ size) :
    ∀ (n : Nat) (r : Int), sg_start ≤ r → r < sg_start + sg_size → r < size →
      log_sub sg_size cur_base r = n →
      ∃ k, log_climb dim size sg_size cur_base sg_start k r = cur_base := by
  intro n
  induction n using Nat.strong_induction_on with
  | _ n ih =>
    intro r hr0 hr1 hr2 hn
    by_cases hne : r = cur_base
    · exact ⟨0, hne⟩
    · obtain ⟨p, ⟨p0, p1, p2⟩, _, hrecv, hlt⟩ :=
        log_parent_live dim size sg_size cur_base sg_start r w hc hr0 hr1 hr2 hne
      obtain ⟨k, hk⟩ := ih (log_sub sg_size cur_base p) (by omega) p p0 p1 p2 rfl
      refine ⟨k + 1, ?_⟩
      rw [log_climb, hrecv]
      exact hk

theorem live_window_iff (size sg_size sg_start r : Int) :
    live_window size sg_size sg_start r ↔ sg_start ≤ r ∧ r < sg_start + sg_size ∧ r < size := by
  unfold live_window
  rw [le_min_iff]
  omega

theorem logWindow_of (dim : Nat) (size sg_size cur_base sg_start : Int)
    (hd : sg_size ≤ 2 ^ dim) (h0 : sg_start ≤ cur_base) (h1 : cur_base < sg_start + sg_size)
    (h2 : cur_base < size) (hdim : dim ≤ 30) (hs : INT_MIN ≤ sg_start)
    (he : sg_start + sg_size ≤ INT_MAX) (hp : cur_base + sg_size - 1 ≤ INT_MAX) :
    LogWindow (dim : Int) size sg_size cur_base sg_start where
  base_ge := h0
  base_lt := h1
  base_live := h2
  dim_ok := by
    rw [Int.toNat_ofNat]
    push_cast
    exact hd
  dim_ge := Int.ofNat_nonneg _
  dim_le := by exact_mod_cast hdim
  start_ge := hs
  end_le := he
  peer_le := hp

theorem log_defined (dim size sg_size cur_base sg_start r : Int)
    (w : LogWindow dim size sg_size cur_base sg_start)
    (hr0 : sg_start ≤ r) (hr1 : r < sg_start + sg_size) :
    (log_sg_bcast_intra pml_ok 0 r dim size sg_size cur_base sg_start 0).undefined = false := by
  have hsub := log_sub_cast sg_size cur_base sg_start r w.base_ge w.base_lt hr0 hr1
  rcases Nat.eq_zero_or_pos (log_sub sg_size cur_base r) with h | hpos
  · have hsub0 : Int.tmod (r - cur_base + sg_size) sg_size = 0 := by rw [hsub, h]; rfl
    rw [log_bcast_ok_root 0 r dim size sg_size cur_base sg_start 0 w hr0 hr1
      (by decide) (by have := w.dim_le; unfold INT_MAX; omega) hsub0]
  · obtain ⟨m, _, _, _, h4⟩ := log_bcast_ok_inner 0 r dim size sg_size cur_base sg_start 0
      (log_sub sg_size cur_base r) w hr0 hr1 (by decide) (by have := w.dim_le; unfold INT_MAX; omega) hpos hsub
      (log_sub_lt sg_size cur_base sg_start r w.base_ge w.base_lt hr0 hr1)
      (log_sub_lt_pow dim size sg_size cur_base sg_start r w hr0 hr1)
    rw [h4]

/-- C1, amended: in the tree variant with the root at the window start
(`cur_base = sg_start`), for every group size, window start
`0 ≤ sg_start < size`, window size at least 1 and `dim` with
`2 ^ dim ≥ sg_size`, provided that `dim ≤ 30` and
`sg_start + sg_size ≤ INT_MAX` (so that `mask <<= 1` and
`sg_start + sg_size - 1` have values), the run of `log_sg_bcast_intra` of every
live member under a succeeding transport is defined, and the schedule is a
spanning tree of the live window rooted at `sg_start`: the root receives from
nobody; every other live member receives from exactly one rank, which is a
live member; a live member `a` sends to a live member `b` exactly when the
receive source of `b` is `a`; every send target of a live member is a live
member, and no target is listed twice; and following receive sources from any
live member reaches the root. -/
theorem log_tree_root_at_window_start (dim : Nat) (size sg_size sg_start : Int)
    (h0 : 0 ≤ sg_start) (h1 : sg_start < size) (h2 : 1 ≤ sg_size) (hd : sg_size ≤ 2 ^ dim)
    (hdim : dim ≤ 30) (hend : sg_start + sg_size ≤ INT_MAX) :
    (∀ r, live_window size sg_size sg_start r →
      (log_sg_bcast_intra pml_ok 0 r dim size sg_size sg_start sg_start 0).undefined = false) ∧
    log_recv_from sg_start dim size sg_size sg_start sg_start = [] ∧
    (∀ r, live_window size sg_size sg_start r → r ≠ sg_start →
      ∃ p, live_window size sg_size sg_start p ∧
        log_recv_from r dim size sg_size sg_start sg_start = [p]) ∧
    (∀ a b, live_window size sg_size sg_start a → live_window size sg_size sg_start b →
      (b ∈ log_send_to a dim size sg_size sg_start sg_start ↔
        log_recv_from b dim size sg_size sg_start sg_start = [a])) ∧
    (∀ a, live_window size sg_size sg_start a →
      (∀ b ∈ log_send_to a dim size sg_size sg_start sg_start,
        live_window size sg_size sg_start b) ∧
      (log_send_to a dim size sg_size sg_start sg_start).Nodup) ∧
    (∀ r, live_window size sg_size sg_start r →
      ∃ k, log_climb dim size sg_size sg_start sg_start k r = sg_start) := by
  have w := logWindow_of dim size sg_size sg_start sg_start hd (le_refl _) (by omega) h1 hdim
    (le_trans (by decide) h0) hend (by omega)
  refine ⟨?_, log_recv_root _ _ _ _ _ w, ?_, ?_, ?_, ?_⟩
  · intro r hr
    obtain ⟨r0, r1, _⟩ := (live_window_iff _ _ _ _).1 hr
    exact log_defined _ _ _ _ _ r w r0 r1
  · intro r hr hne
    obtain ⟨r0, r1, r2⟩ := (live_window_iff _ _ _ _).1 hr
    obtain ⟨p, hp, _, hrecv, _⟩ :=
      log_parent_live _ _ _ _ _ r w (Or.inl rfl) r0 r1 r2 hne
    exact ⟨p, (live_window_iff _ _ _ _).2 hp, hrecv⟩
  · intro a b ha hb
    obtain ⟨a0, a1, _⟩ := (live_window_iff _ _ _ _).1 ha
    obtain ⟨b0, b1, b2⟩ := (live_window_iff _ _ _ _).1 hb
    exact log_send_iff_recv _ _ _ _ _ a b w a0 a1 b0 b1 b2
  · intro a ha
    obtain ⟨a0, a1, _⟩ := (live_window_iff _ _ _ _).1 ha
    refine ⟨?_, log_send_nodup _ _ _ _ _ a w a0 a1⟩
    intro b hb
    exact (live_window_iff _ _ _ _).2 (log_send_live _ _ _ _ _ a b w a0 a1 hb).1
  · intro r hr
    obtain ⟨r0, r1, r2⟩ := (live_window_iff _ _ _ _).1 hr
    exact log_climb_reaches _ _ _ _ _ w (Or.inl rfl) _ r r0 r1 r2 rfl

/-- Witness of C1: a group of 6 ranks, the window of size 8 starting at rank 2
(clipped to the ranks 2..5), `dim = 3`. -/
theorem log_tree_root_at_window_start_witness :
    ((0 : Int) ≤ 2 ∧ (2 : Int) < 6 ∧ (1 : Int) ≤ 8 ∧ (8 : Int) ≤ 2 ^ 3 ∧ 3 ≤ 30 ∧
      (2 : Int) + 8 ≤ INT_MAX) ∧
    ((∀ r, live_window 6 8 2 r →
      (log_sg_bcast_intra pml_ok 0 r (3 : Nat) 6 8 2 2 0).undefined = false) ∧
    log_recv_from 2 (3 : Nat) 6 8 2 2 = [] ∧
    (∀ r, live_window 6 8 2 r → r ≠ 2 →
      ∃ p, live_window 6 8 2 p ∧ log_recv_from r (3 : Nat) 6 8 2 2 = [p]) ∧
    (∀ a b, live_window 6 8 2 a → live_window 6 8 2 b →
      (b ∈ log_send_to a (3 : Nat) 6 8 2 2 ↔ log_recv_from b (3 : Nat) 6 8 2 2 = [a])) ∧
    (∀ a, live_window 6 8 2 a →
      (∀ b ∈ log_send_to a (3 : Nat) 6 8 2 2, live_window 6 8 2 b) ∧
      (log_send_to a (3 : Nat) 6 8 2 2).Nodup) ∧
    (∀ r, live_window 6 8 2 r → ∃ k, log_climb (3 : Nat) 6 8 2 2 k r = 2)) :=
  ⟨by decide, log_tree_root_at_window_start 3 6 8 2 (by decide) (by decide) (by decide)
    (by decide) (by decide) (by decide)⟩

/-- C1 fails as stated, where an `int` expression of `log_sg_bcast_intra` has
no value. With `dim = 31` (group of 6 ranks, window of size 8 at rank 2,
`8 ≤ 2 ^ 31`) the root's send loop ends with `mask <<= 1` on `mask = 1 << 30`,
which overflows `int`: the run of the root is undefined. With
`sg_start + sg_size = INT_MAX + 1` (group of `INT_MAX` ranks, window of size 3
at rank `INT_MAX - 2`, `dim = 2`) the first statement
`end_sg = sg_start + sg_size - 1` overflows: the run of the live member
`INT_MAX - 1` is undefined before it makes any call, so it has no receive
source. -/
theorem log_tree_root_int_overflow :
    (((0 : Int) ≤ 2 ∧ (2 : Int) < 6 ∧ (1 : Int) ≤ 8 ∧ (8 : Int) ≤ 2 ^ 31) ∧
      live_window 6 8 2 2 ∧
      (log_sg_bcast_intra pml_ok 0 2 31 6 8 2 2 0).undefined = true) ∧
    (((0 : Int) ≤ 2147483645 ∧ (2147483645 : Int) < 2147483647 ∧ (1 : Int) ≤ 3 ∧
        (3 : Int) ≤ 2 ^ 2) ∧
      live_window 2147483647 3 2147483645 2147483646 ∧ (2147483646 : Int) ≠ 2147483645 ∧
      (log_sg_bcast_intra pml_ok 0 2147483646 2 2147483647 3 2147483645 2147483645 0).undefined
        = true ∧
      log_recv_from 2147483646 2 2147483647 3 2147483645 2147483645 = []) := by
  decide

/-- C2, amended: in the tree variant on an unclipped window
(`sg_start + sg_size ≤ size`) with the root `cur_base` anywhere in the window
and `2 ^ dim ≥ sg_size`, provided that `dim ≤ 30`, the arguments are `int`s
(`INT_MIN ≤ sg_start`, `size ≤ INT_MAX`) and
`cur_base + sg_size - 1 ≤ INT_MAX` (so that `mask <<= 1` and every
`peer + cur_base` have values), the run of `log_sg_bcast_intra` of every
member under a succeeding transport is defined, and the schedule is a
spanning tree of the window rooted at `cur_base`:
the root receives from nobody; each other member receives from exactly one
rank, a member other than itself; `a` sends to `b` exactly when `b` receives
from `a`; every send target is a member, is not the root and is not the
sender, and no target is listed twice; following receive sources from any
member reaches the root. For `size = 17`, `sg_start = 12`, `sg_size = 5`,
`dim = 3`, from every root in `12..16` every member reaches the root within
three steps. -/
theorem log_tree_unclipped_any_root (dim : Nat) (size sg_size cur_base sg_start : Int)
    (hd : sg_size ≤ 2 ^ dim) (hu : sg_start + sg_size ≤ size)
    (hb0 : sg_start ≤ cur_base) (hb1 : cur_base < sg_start + sg_size)
    (hdim : dim ≤ 30) (hs0 : INT_MIN ≤ sg_start) (hsz : size ≤ INT_MAX)
    (hpeer : cur_base + sg_size - 1 ≤ INT_MAX) :
    ((∀ r, in_window sg_size sg_start r →
      (log_sg_bcast_intra pml_ok 0 r dim size sg_size cur_base sg_start 0).undefined = false) ∧
    log_recv_from cur_base dim size sg_size cur_base sg_start = [] ∧
    (∀ r, in_window sg_size sg_start r → r ≠ cur_base →
      ∃ p, in_window sg_size sg_start p ∧ p ≠ r ∧
        log_recv_from r dim size sg_size cur_base sg_start = [p]) ∧
    (∀ a b, in_window sg_size sg_start a → in_window sg_size sg_start b →
      (b ∈ log_send_to a dim size sg_size cur_base sg_start ↔
        log_recv_from b dim size sg_size cur_base sg_start = [a])) ∧
    (∀ a, in_window sg_size sg_start a →
      (∀ b ∈ log_send_to a dim size sg_size cur_base sg_start,
        in_window sg_size sg_start b ∧ b ≠ cur_base ∧ b ≠ a) ∧
      (log_send_to a dim size sg_size cur_base sg_start).Nodup) ∧
    (∀ r, in_window sg_size sg_start r →
      ∃ k, log_climb dim size sg_size cur_base sg_start k r = cur_base)) ∧
    (∀ root ∈ [(12 : Int), 13, 14, 15, 16], ∀ r ∈ [(12 : Int), 13, 14, 15, 16],
      log_climb 3 17 5 root 12 3 r = root) := by
  have w := logWindow_of dim size sg_size cur_base sg_start hd hb0 hb1 (by omega) hdim hs0
    (le_trans hu hsz) hpeer
  refine ⟨⟨?_, log_recv_root _ _ _ _ _ w, ?_, ?_, ?_, ?_⟩, by decide⟩
  · intro r hr
    exact log_defined _ _ _ _ _ r w hr.1 hr.2
  · intro r hr hne
    obtain ⟨p, ⟨p0, p1, _⟩, pne, hrecv, _⟩ :=
      log_parent_live _ _ _ _ _ r w (Or.inr hu) hr.1 hr.2 (by have := hr.2; omega) hne
    exact ⟨p, ⟨p0, p1⟩, pne, hrecv⟩
  · intro a b ha hb
    exact log_send_iff_recv _ _ _ _ _ a b w ha.1 ha.2 hb.1 hb.2 (by have := hb.2; omega)
  · intro a ha
    refine ⟨?_, log_send_nodup _ _ _ _ _ a w ha.1 ha.2⟩
    intro b hb
    obtain ⟨⟨b0, b1, _⟩, b3, b4⟩ := log_send_live _ _ _ _ _ a b w ha.1 ha.2 hb
    exact ⟨⟨b0, b1⟩, b4, b3⟩
  · intro r hr
    exact log_climb_reaches _ _ _ _ _ w (Or.inr hu) _ r hr.1 hr.2 (by have := hr.2; omega) rfl

/-- Witness of C2: the group of 17 ranks, the window of size 5 starting at rank
12, `dim = 3`, root 14. -/
theorem log_tree_unclipped_any_root_witness :
    ((5 : Int) ≤ 2 ^ 3 ∧ (12 : Int) + 5 ≤ 17 ∧ (12 : Int) ≤ 14 ∧ (14 : Int) < 12 + 5 ∧
      3 ≤ 30 ∧ INT_MIN ≤ 12 ∧ 17 ≤ INT_MAX ∧ (14 : Int) + 5 - 1 ≤ INT_MAX) ∧
    (((∀ r, in_window 5 12 r →
      (log_sg_bcast_intra pml_ok 0 r (3 : Nat) 17 5 14 12 0).undefined = false) ∧
    log_recv_from 14 (3 : Nat) 17 5 14 12 = [] ∧
    (∀ r, in_window 5 12 r → r ≠ 14 →
      ∃ p, in_window 5 12 p ∧ p ≠ r ∧ log_recv_from r (3 : Nat) 17 5 14 12 = [p]) ∧
    (∀ a b, in_window 5 12 a → in_window 5 12 b →
      (b ∈ log_send_to a (3 : Nat) 17 5 14 12 ↔ log_recv_from b (3 : Nat) 17 5 14 12 = [a])) ∧
    (∀ a, in_window 5 12 a →
      (∀ b ∈ log_send_to a (3 : Nat) 17 5 14 12, in_window 5 12 b ∧ b ≠ 14 ∧ b ≠ a) ∧
      (log_send_to a (3 : Nat) 17 5 14 12).Nodup) ∧
    (∀ r, in_window 5 12 r → ∃ k, log_climb (3 : Nat) 17 5 14 12 k r = 14)) ∧
    (∀ root ∈ [(12 : Int), 13, 14, 15, 16], ∀ r ∈ [(12 : Int), 13, 14, 15, 16],
      log_climb 3 17 5 root 12 3 r = root)) :=
  ⟨by decide, log_tree_unclipped_any_root 3 17 5 14 12 (by decide) (by decide) (by decide)
    (by decide) (by decide) (by decide) (by decide) (by decide)⟩

/-- C2 fails as stated, where an `int` expression of `log_sg_bcast_intra` has
no value. For `size = 17`, `sg_start = 12`, `sg_size = 5`, root 14 and
`dim = 31` (`5 ≤ 2 ^ 31`) the root's send loop ends with `mask <<= 1` on
`mask = 1 << 30`, which overflows `int`: the run of the root is undefined. For
`size = INT_MAX`, the window of size 4 at rank `INT_MAX - 4`, root
`INT_MAX - 1` and `dim = 2`, the root sends to rank `INT_MAX - 4` and then
evaluates `peer + cur_base` for `peer = 2`, which overflows: its run is
undefined, and it has made no send to the member `INT_MAX - 3`, whose receive
source it is. -/
theorem log_tree_unclipped_int_overflow :
    (((5 : Int) ≤ 2 ^ 31 ∧ (12 : Int) + 5 ≤ 17 ∧ (12 : Int) ≤ 14 ∧ (14 : Int) < 12 + 5) ∧
      in_window 5 12 14 ∧
      (log_sg_bcast_intra pml_ok 0 14 31 17 5 14 12 0).undefined = true) ∧
    (((4 : Int) ≤ 2 ^ 2 ∧ (2147483643 : Int) + 4 ≤ 2147483647 ∧
        (2147483643 : Int) ≤ 2147483646 ∧ (2147483646 : Int) < 2147483643 + 4) ∧
      in_window 4 2147483643 2147483646 ∧ in_window 4 2147483643 2147483644 ∧
      (log_sg_bcast_intra pml_ok 0 2147483646 2 2147483647 4 2147483646 2147483643 0).undefined
        = true ∧
      log_send_to 2147483646 2 2147483647 4 2147483646 2147483643 = [2147483643] ∧
      log_recv_from 2147483644 2 2147483647 4 2147483646 2147483643 = [2147483646]) := by
  decide

/-- C3 fails on the code: in the group of 17 ranks, for the window of size 8
starting at rank 12 (clipped to the live ranks 12..16), `dim = 3` and the live
root 14, the live caller 13 has sub-rank 7 and parent sub-rank 3, which
`log_sg_bcast_intra` remaps to rank 17: its only transport call is a receive
from rank 17, which is not a rank of the live window (nor of the group), and
no live member sends to rank 13. No `int` expression overflows in the runs of
the live members. -/
theorem log_clipped_recv_outside_live_window :
    ((12 : Int) + 8 > 17 ∧ (8 : Int) ≤ 2 ^ 3 ∧ live_window 17 8 12 14 ∧ live_window 17 8 12 13) ∧
    (log_sg_bcast_intra pml_ok 0 13 3 17 8 14 12 0).calls = [PmlCall.recv 17] ∧
    ¬ live_window 17 8 12 17 ∧ ¬ ((17 : Int) < 17) ∧
    (∀ a ∈ [(12 : Int), 13, 14, 15, 16], 13 ∉ log_send_to a 3 17 8 14 12) ∧
    (∀ a ∈ [(12 : Int), 13, 14, 15, 16],
      (log_sg_bcast_intra pml_ok 0 a 3 17 8 14 12 0).undefined = false) := by
  decide

theorem total_dsize_exact (dsize : Nat) (count : Int) (hc : 0 ≤ count)
    (hfit : (dsize : Int) * count < 2 ^ 64) : ((total_dsize dsize count : Nat) : Int) = dsize * count := by
  unfold total_dsize SIZE_WIDTH
  obtain ⟨c, rfl⟩ := Int.eq_ofNat_of_zero_le hc
  have hfit2 : dsize * c < 2 ^ 64 := by exact_mod_cast hfit
  rcases Nat.eq_zero_or_pos dsize with h0 | hpos
  · subst h0; simp
  · have hc2 : c < 2 ^ 64 := by
      calc c ≤ dsize * c := Nat.le_mul_of_pos_left c hpos
        _ < 2 ^ 64 := hfit2
    have h1 : ((c : Int) % (2 ^ 64 : Int)).toNat = c := by
      have : (c : Int) % (2 ^ 64 : Int) = c := Int.emod_eq_of_lt (by omega) (by exact_mod_cast hc2)
      rw [this]; simp
    rw [h1, Nat.mod_eq_of_lt hfit2]
    push_cast
    rfl

theorem sg_bcast_intra_eq (pml : Pml) (dsize : Nat) (count : Int)
    (err0 rank dim size sg_size cur_base sg_start nreqs : Int) :
    sg_bcast_intra pml err0 dsize count rank dim size sg_size cur_base sg_start nreqs =
      if (dsize * (count % 2 ^ 64).toNat) % 2 ^ 64 ≤ 8192 then
        log_sg_bcast_intra pml err0 rank dim size sg_size cur_base sg_start nreqs
      else lin_sg_bcast_intra pml err0 rank dim size sg_size cur_base sg_start nreqs := rfl

/-- C4, as amended: for every `count ≥ 0` and element size whose product
`count * elementSize` is below `2 ^ 64` (the `size_t` product
`dsize * (unsigned long) count` does not wrap), `sg_bcast_intra` runs the tree
variant exactly when `count * elementSize ≤ 8192` and the linear variant
exactly when it is greater, and returns the result of the variant it ran; a
payload of 8192 bytes selects the tree variant and one of 8193 bytes the
linear variant. -/
theorem sg_bcast_select_threshold (dsize : Nat) (count : Int) (hc : 0 ≤ count)
    (hfit : (dsize : Int) * count < 2 ^ 64) :
    (∀ (α : Type) (tree linear : α),
      sg_bcast_select dsize count tree linear =
        if (dsize : Int) * count ≤ 8192 then tree else linear) ∧
    (∀ (pml : Pml) (err0 rank dim size sg_size cur_base sg_start nreqs : Int),
      sg_bcast_intra pml err0 dsize count rank dim size sg_size cur_base sg_start nreqs =
        if (dsize : Int) * count ≤ 8192 then
          log_sg_bcast_intra pml err0 rank dim size sg_size cur_base sg_start nreqs
        else lin_sg_bcast_intra pml err0 rank dim size sg_size cur_base sg_start nreqs) ∧
    (∀ (α : Type) (tree linear : α),
      sg_bcast_select 1 8192 tree linear = tree ∧ sg_bcast_select 1 8193 tree linear = linear ∧
      sg_bcast_select 8 1024 tree linear = tree ∧ sg_bcast_select 8193 1 tree linear = linear) := by
  have h := total_dsize_exact dsize count hc hfit
  have key : ∀ (α : Type) (tree linear : α),
      sg_bcast_select dsize count tree linear =
        if (dsize : Int) * count ≤ 8192 then tree else linear := by
    intro α t l
    unfold sg_bcast_select
    by_cases hle : total_dsize dsize count ≤ 8192
    · rw [if_pos hle, if_pos]
      rw [← h]; exact_mod_cast hle
    · rw [if_neg hle, if_neg]
      rw [← h]; exact_mod_cast hle
  refine ⟨key, ?_, fun α t l => ⟨rfl, rfl, rfl, rfl⟩⟩
  intro pml err0 rank dim size sg_size cur_base sg_start nreqs
  exact key _ _ _

/-- Witness of C4 as amended: 2048 elements of 4 bytes, a payload of exactly
8192 bytes. -/
theorem sg_bcast_select_threshold_witness :
    ((0 : Int) ≤ 2048 ∧ ((4 : Nat) : Int) * 2048 < 2 ^ 64) ∧
    ((∀ (α : Type) (tree linear : α),
      sg_bcast_select 4 2048 tree linear =
        if ((4 : Nat) : Int) * 2048 ≤ 8192 then tree else linear) ∧
    (∀ (pml : Pml) (err0 rank dim size sg_size cur_base sg_start nreqs : Int),
      sg_bcast_intra pml err0 4 2048 rank dim size sg_size cur_base sg_start nreqs =
        if ((4 : Nat) : Int) * 2048 ≤ 8192 then
          log_sg_bcast_intra pml err0 rank dim size sg_size cur_base sg_start nreqs
        else lin_sg_bcast_intra pml err0 rank dim size sg_size cur_base sg_start nreqs) ∧
    (∀ (α : Type) (tree linear : α),
      sg_bcast_select 1 8192 tree linear = tree ∧ sg_bcast_select 1 8193 tree linear = linear ∧
      sg_bcast_select 8 1024 tree linear = tree ∧ sg_bcast_select 8193 1 tree linear = linear)) :=
  ⟨by decide, sg_bcast_select_threshold 4 2048 (by decide) (by decide)⟩

/-- C4 fails as stated: for the element size `2 ^ 63` and `count = 2` the
payload `count * elementSize = 2 ^ 64` is greater than 8192, but the `size_t`
product wraps to 0 and `sg_bcast_intra` runs the tree variant. -/
theorem sg_bcast_select_wraps :
    (0 : Int) ≤ 2 ∧ ¬ ((2 : Int) * 2 ^ 63 ≤ 8192) ∧ total_dsize (2 ^ 63) 2 = 0 ∧
    sg_bcast_select (2 ^ 63) 2 true false = true ∧
    (∀ (pml : Pml) (err0 rank dim size sg_size cur_base sg_start nreqs : Int),
      sg_bcast_intra pml err0 (2 ^ 63) 2 rank dim size sg_size cur_base sg_start nreqs =
        log_sg_bcast_intra pml err0 rank dim size sg_size cur_base sg_start nreqs) := by
  refine ⟨by decide, by decide, by decide, by decide, ?_⟩
  intro pml err0 rank dim size sg_size cur_base sg_start nreqs
  have h : total_dsize (2 ^ 63) 2 ≤ 8192 := by decide
  unfold sg_bcast_intra sg_bcast_select
  rw [if_pos h]

theorem lin_send_loop_ok (pml : Pml) (hok : ∀ h c, pml h c = MPI_SUCCESS) (cur_base : Int) :
    ∀ (n : Nat) (peer : Int) (st : BcastOut),
      INT_MIN ≤ peer → (n = 0 ∨ peer + n ≤ INT_MAX) → INT_MIN ≤ st.nreqs →
      st.nreqs + (lin_targets cur_base n peer).length ≤ INT_MAX →
      lin_send_loop pml cur_base n peer st =
        { err := if lin_targets cur_base n peer = [] then st.err else MPI_SUCCESS,
          nreqs := st.nreqs + (lin_targets cur_base n peer).length,
          calls := st.calls ++ (lin_targets cur_base n peer).map PmlCall.isend,
          undefined := st.undefined } := by
  intro n
  induction n with
  | zero => intro peer st _ _ _ _; simp [lin_send_loop, lin_targets]
  | succ n ih =>
    intro peer st hp0 hp1 hn0 hn1
    have hp2 : peer + 1 ≤ INT_MAX := by
      rcases hp1 with h | h
      · omega
      · push_cast at h; omega
    have hp3 : n = 0 ∨ peer + 1 + n ≤ INT_MAX := by
      rcases hp1 with h | h
      · omega
      · push_cast at h; right; omega
    have e1 := int_add_some peer 1 (by unfold INT_MIN at *; omega) hp2
    rw [lin_send_loop]
    by_cases hp : peer = cur_base
    · have hl : lin_targets cur_base (n + 1) peer = lin_targets cur_base n (peer + 1) := by
        simp [lin_targets, hp]
      rw [hl] at hn1 ⊢
      rw [if_pos hp, e1]
      simp only []
      rw [ih (peer + 1) st (by unfold INT_MIN at *; omega) hp3 hn0 hn1]
    · have hl : lin_targets cur_base (n + 1) peer = peer :: lin_targets cur_base n (peer + 1) := by
        simp [lin_targets, hp]
      rw [hl] at hn1 ⊢
      simp only [List.length_cons, Nat.cast_add, Nat.cast_one] at hn1
      rw [if_neg hp, int_add_some st.nreqs 1 (by unfold INT_MIN at *; omega) (by omega)]
      simp only [hok, ne_eq, not_true_eq_false, if_false, e1]
      rw [ih (peer + 1) _ (by unfold INT_MIN at *; omega) hp3 (by simp only []; unfold INT_MIN at *; omega)
        (by simp only []; omega)]
      simp
      omega

theorem lin_targets_eq (cur_base : Int) :
    ∀ (n : Nat) (peer : Int),
      lin_targets cur_base n peer =
        ((List.range n).map (fun i : Nat => peer + (i : Int))).filter (fun p => p ≠ cur_base) := by
  intro n
  induction n with
  | zero => intro peer; rfl
  | succ n ih =>
    intro peer
    rw [lin_targets, ih, List.range_succ_eq_map]
    simp only [List.map_cons, List.map_map, Nat.cast_zero, add_zero]
    have hmap : (List.range n).map ((fun i : Nat => peer + (i : Int)) ∘ Nat.succ) =
        (List.range n).map (fun i : Nat => peer + 1 + (i : Int)) := by
      apply List.map_congr_left
      intro i _
      simp only [Function.comp, Nat.succ_eq_add_one, Nat.cast_add, Nat.cast_one]
      ring
    rw [hmap]
    by_cases hp : peer = cur_base
    · simp [hp, List.filter]
    · simp [hp, List.filter]

theorem lin_sg_end_count (size sg_size sg_start : Int) :
    ((if sg_start + sg_size - 1 ≥ size then size - 1 else sg_start + sg_size - 1) - sg_start + 1).toNat
      = live_count size sg_size sg_start := by
  unfold live_count
  congr 1
  split
  · rw [min_eq_right (by omega)]
  · rw [min_eq_left (by omega)]

theorem lin_sg_end_some (size sg_size sg_start : Int) (hz : INT_MIN < size)
    (he0 : INT_MIN < sg_start + sg_size) (he1 : sg_start + sg_size ≤ INT_MAX) :
    lin_sg_end size sg_size sg_start =
      some (if sg_start + sg_size - 1 ≥ size then size - 1 else sg_start + sg_size - 1) := by
  unfold INT_MIN at hz he0
  unfold INT_MAX at he1
  have e1 := int_add_some sg_start sg_size (by unfold INT_MIN; omega) (by unfold INT_MAX; omega)
  have e2 := int_sub_some (sg_start + sg_size) 1 (by unfold INT_MIN; omega)
    (by unfold INT_MAX; omega)
  by_cases hc : sg_start + sg_size - 1 ≥ size
  · have e3 := int_sub_some size 1 (by unfold INT_MIN; omega) (by unfold INT_MAX; omega)
    simp only [lin_sg_end, e1, e2, e3, if_pos hc, Option.bind_eq_bind, Option.some_bind]
  · simp only [lin_sg_end, e1, e2, if_neg hc, Option.bind_eq_bind, Option.some_bind]

/-- C5, amended: in `lin_sg_bcast_intra`, when every transport call succeeds
and the `int` expressions of the function have values - the arguments are
`int`s with `INT_MIN < size`, and `sg_start + sg_size - 1` does not overflow
(`INT_MIN < sg_start + sg_size ≤ INT_MAX`) - the run is defined and: the
caller with `rank = cur_base`, when `*nreqs` plus the number of sends does not
exceed `INT_MAX`, makes exactly the calls `isend` to the ranks of
the live window `sg_start .. min (sg_start+sg_size-1) (size-1)` other than
`cur_base`, one each, in increasing rank order, makes no receive, and
increases `*nreqs` by the number of those sends; a caller with
`rank ≠ cur_base` makes exactly one call, a receive from `cur_base`, and
leaves `*nreqs` unchanged. -/
theorem lin_schedule (pml : Pml) (hok : ∀ h c, pml h c = MPI_SUCCESS)
    (err0 rank dim size sg_size cur_base sg_start nreqs : Int)
    (hs0 : INT_MIN ≤ sg_start) (hz : INT_MIN < size)
    (he0 : INT_MIN < sg_start + sg_size) (he1 : sg_start + sg_size ≤ INT_MAX)
    (hn0 : INT_MIN ≤ nreqs) :
    (rank = cur_base →
      nreqs + ((((List.range (live_count size sg_size sg_start)).map
            (fun i : Nat => sg_start + (i : Int))).filter (fun p => p ≠ cur_base)).length : Nat)
        ≤ INT_MAX →
      (lin_sg_bcast_intra pml err0 rank dim size sg_size cur_base sg_start nreqs).undefined
        = false ∧
      (lin_sg_bcast_intra pml err0 rank dim size sg_size cur_base sg_start nreqs).calls =
        (((List.range (live_count size sg_size sg_start)).map
            (fun i : Nat => sg_start + (i : Int))).filter (fun p => p ≠ cur_base)).map
          PmlCall.isend ∧
      (lin_sg_bcast_intra pml err0 rank dim size sg_size cur_base sg_start nreqs).nreqs =
        nreqs + ((((List.range (live_count size sg_size sg_start)).map
            (fun i : Nat => sg_start + (i : Int))).filter (fun p => p ≠ cur_base)).length : Nat)) ∧
    (rank ≠ cur_base →
      (lin_sg_bcast_intra pml err0 rank dim size sg_size cur_base sg_start nreqs).undefined
        = false ∧
      (lin_sg_bcast_intra pml err0 rank dim size sg_size cur_base sg_start nreqs).calls =
        [PmlCall.recv cur_base] ∧
      (lin_sg_bcast_intra pml err0 rank dim size sg_size cur_base sg_start nreqs).nreqs = nreqs) := by
  have hend := lin_sg_end_some size sg_size sg_start hz he0 he1
  constructor
  · intro hr hn1
    rw [← lin_targets_eq, ← lin_sg_end_count] at hn1 ⊢
    have hp1 : ((if sg_start + sg_size - 1 ≥ size then size - 1 else sg_start + sg_size - 1) -
          sg_start + 1).toNat = 0 ∨
        sg_start + (((if sg_start + sg_size - 1 ≥ size then size - 1
          else sg_start + sg_size - 1) - sg_start + 1).toNat : Nat) ≤ INT_MAX := by
      unfold INT_MAX at he1 ⊢
      split <;> omega
    have hloop := lin_send_loop_ok pml hok cur_base _ sg_start
      { err := err0, nreqs := nreqs, calls := [] } hs0 hp1 hn0 hn1
    unfold lin_sg_bcast_intra
    simp only [hend, if_pos hr]
    rw [hloop]
    simp
  · intro hr
    unfold lin_sg_bcast_intra
    simp only [hend, if_neg hr]
    simp

/-- Witness of C5: the succeeding transport, the window of size 8 starting at
rank 12 of a group of 17 ranks (live ranks 12..16) with the root 14; the root
sends to 12, 13, 15, 16, and the rank 13 receives from 14. -/
theorem lin_schedule_witness :
    ((∀ h c, pml_ok h c = MPI_SUCCESS) ∧ INT_MIN ≤ 12 ∧ INT_MIN < 17 ∧
      INT_MIN < (12 : Int) + 8 ∧ (12 : Int) + 8 ≤ INT_MAX ∧ INT_MIN ≤ 0) ∧
    ((lin_sg_bcast_intra pml_ok 0 14 3 17 8 14 12 0).undefined = false ∧
      (lin_sg_bcast_intra pml_ok 0 14 3 17 8 14 12 0).calls =
        (((List.range (live_count 17 8 12)).map
            (fun i : Nat => (12 : Int) + (i : Int))).filter (fun p => p ≠ 14)).map
          PmlCall.isend ∧
      (lin_sg_bcast_intra pml_ok 0 14 3 17 8 14 12 0).nreqs =
        0 + ((((List.range (live_count 17 8 12)).map
            (fun i : Nat => (12 : Int) + (i : Int))).filter (fun p => p ≠ 14)).length : Nat)) ∧
    ((lin_sg_bcast_intra pml_ok 0 13 3 17 8 14 12 0).undefined = false ∧
      (lin_sg_bcast_intra pml_ok 0 13 3 17 8 14 12 0).calls = [PmlCall.recv 14] ∧
      (lin_sg_bcast_intra pml_ok 0 13 3 17 8 14 12 0).nreqs = 0) :=
  ⟨⟨fun _ _ => rfl, by decide, by decide, by decide, by decide, by decide⟩,
    (lin_schedule pml_ok (fun _ _ => rfl) 0 14 3 17 8 14 12 0 (by decide) (by decide) (by decide)
      (by decide) (by decide)).1 rfl (by decide),
    (lin_schedule pml_ok (fun _ _ => rfl) 0 13 3 17 8 14 12 0 (by decide) (by decide) (by decide)
      (by decide) (by decide)).2 (by decide)⟩

/-- C5 fails as stated, where an `int` expression of `lin_sg_bcast_intra` has
no value. For the root 12 of the window of size `INT_MAX` starting at rank 12
of a group of 17 ranks the live window is `12 .. 16`, but the first statement
`sg_end = sg_start + sg_size - 1` overflows `int`: the run is undefined, and no
send to the ranks 13, 14, 15, 16 has been made. For the root 0 of the window
of size 2 of a group of 2 ranks entered with `*nreqs = INT_MAX`, the statement
`*nreqs = *nreqs + 1` overflows before the send to rank 1. -/
theorem lin_schedule_int_overflow :
    ((∀ h c, pml_ok h c = MPI_SUCCESS) ∧
      (((List.range (live_count 17 2147483647 12)).map
            (fun i : Nat => (12 : Int) + (i : Int))).filter (fun p => p ≠ 12)) = [13, 14, 15, 16] ∧
      (lin_sg_bcast_intra pml_ok 0 12 3 17 2147483647 12 12 0).undefined = true ∧
      (lin_sg_bcast_intra pml_ok 0 12 3 17 2147483647 12 12 0).calls = []) ∧
    ((((List.range (live_count 2 2 0)).map
            (fun i : Nat => (0 : Int) + (i : Int))).filter (fun p => p ≠ 0)) = [1] ∧
      (lin_sg_bcast_intra pml_ok 0 0 1 2 2 0 0 2147483647).undefined = true ∧
      (lin_sg_bcast_intra pml_ok 0 0 1 2 2 0 0 2147483647).calls = []) := by
  refine ⟨⟨fun _ _ => rfl, by decide, by decide, by decide⟩, by decide, by decide, by decide⟩

theorem cids_le_iff (a b : Int) : cids_le a b ↔ a ≤ b := by
  unfold cids_le compare_cids
  split <;> (try split) <;> omega

theorem sum_map_indicator (f : Nat → Nat) (a : Nat) :
    ∀ D : List Nat, D.Nodup →
      (D.map (fun d => if d = a then f d else 0)).sum = if a ∈ D then f a else 0 := by
  intro D
  induction D with
  | nil => intro _; simp
  | cons x xs ih =>
    intro hnd
    rw [List.nodup_cons] at hnd
    rw [List.map_cons, List.sum_cons, ih hnd.2]
    by_cases hx : x = a
    · subst hx
      simp [hnd.1]
    · have hx2 : ¬ a = x := fun h => hx h.symm
      simp [hx, hx2]

theorem perm_dedup_runs (l : List Nat) :
    l.Perm (l.dedup.flatMap (fun d => List.replicate (l.count d) d)) := by
  rw [List.perm_iff_count]
  intro a
  rw [List.flatMap, List.count_flatten, List.map_map]
  have h : (List.count a ∘ fun d => List.replicate (l.count d) d) =
      fun d => if d = a then l.count d else 0 := by
    funext d
    simp only [Function.comp, List.count_replicate]
    by_cases hd : d = a
    · simp [hd]
    · simp [hd]
  rw [h, sum_map_indicator (fun d => l.count d) a l.dedup (List.nodup_dedup l)]
  by_cases ha : a ∈ l
  · rw [if_pos (List.mem_dedup.2 ha)]
  · rw [if_neg (fun h => ha (List.mem_dedup.1 h)), List.count_eq_zero_of_not_mem ha]

theorem gathered_perm_runs (node : List Nat) :
    (gathered_sizes node).Perm
      ((node.dedup.map (fun x => ((node.count x : Nat) : Int))).flatMap size_run) := by
  have h := (perm_dedup_runs node).map (fun x => ((node.count x : Nat) : Int))
  unfold gathered_sizes
  refine h.trans ?_
  rw [List.map_flatMap, List.flatMap_map]
  apply List.Perm.of_eq
  congr 1
  funext d
  simp [size_run]

theorem sorted_runs : ∀ ms : List Int, List.Sorted cids_le ms →
    List.Sorted cids_le (ms.flatMap size_run) := by
  intro ms
  induction ms with
  | nil => intro _; simp [List.flatMap]
  | cons m ms ih =>
    intro h
    rw [List.sorted_cons] at h
    rw [List.flatMap_cons]
    unfold List.Sorted
    rw [List.pairwise_append]
    refine ⟨?_, ih h.2, ?_⟩
    · unfold size_run
      rw [List.pairwise_replicate]
      right
      exact (cids_le_iff m m).2 (le_refl m)
    · intro a ha b hb
      have ha2 : a = m := by
        unfold size_run at ha
        exact (List.mem_replicate.1 ha).2
      rw [List.mem_flatMap] at hb
      obtain ⟨m2, hm2, hb2⟩ := hb
      have hb3 : b = m2 := by
        unfold size_run at hb2
        exact (List.mem_replicate.1 hb2).2
      rw [ha2, hb3]
      exact h.1 m2 hm2

theorem count_nodes_loop_runs : ∀ (ms : List Int), (∀ m ∈ ms, 1 ≤ m) →
    ∀ (pre : List Int) (fuel : Nat) (num : Int), ms.length ≤ fuel →
      count_nodes_loop (pre ++ ms.flatMap size_run)
          ((pre.length : Int) + ((ms.flatMap size_run).length : Int)) fuel (pre.length : Int) num =
        ScanResult.done (num + (ms.length : Int)) := by
  intro ms
  induction ms with
  | nil =>
    intro _ pre fuel num _
    cases fuel <;> simp [count_nodes_loop, List.flatMap]
  | cons m ms ih =>
    intro hpos pre fuel num hf
    have hm : 1 ≤ m := hpos m (List.mem_cons_self _ _)
    obtain ⟨k, rfl⟩ : ∃ k : Nat, m = ((k + 1 : Nat) : Int) := ⟨(m - 1).toNat, by omega⟩
    cases fuel with
    | zero => simp at hf
    | succ fuel =>
      have hrun : size_run ((k + 1 : Nat) : Int) =
          ((k + 1 : Nat) : Int) :: List.replicate k ((k + 1 : Nat) : Int) := by
        unfold size_run
        rw [Int.toNat_ofNat, List.replicate_succ]
      have hlen : (size_run ((k + 1 : Nat) : Int)).length = k + 1 := by
        unfold size_run
        rw [Int.toNat_ofNat, List.length_replicate]
      rw [count_nodes_loop, List.flatMap_cons, List.length_append, hlen]
      have hlt : (pre.length : Int) <
          (pre.length : Int) + ((k + 1 + (ms.flatMap size_run).length : Nat) : Int) := by omega
      rw [if_pos hlt, if_neg (by omega), Int.toNat_ofNat]
      have hget : (pre ++ (size_run ((k + 1 : Nat) : Int) ++ ms.flatMap size_run)).get? pre.length =
          some ((k + 1 : Nat) : Int) := by
        rw [hrun, List.get?_eq_getElem?, List.getElem?_append_right (le_refl _)]
        simp
      rw [hget]
      simp only []
      have ih2 := ih (fun x hx => hpos x (List.mem_cons_of_mem _ hx))
        (pre ++ size_run ((k + 1 : Nat) : Int)) fuel (num + 1) (by simpa using hf)
      rw [List.append_assoc, List.length_append, hlen] at ih2
      have e1 : (pre.length : Int) + ((k + 1 + (ms.flatMap size_run).length : Nat) : Int) =
          ((pre.length + (k + 1) : Nat) : Int) + ((ms.flatMap size_run).length : Int) := by
        push_cast; ring
      have e2 : (pre.length : Int) + ((k + 1 : Nat) : Int) = ((pre.length + (k + 1) : Nat) : Int) := by
        push_cast; ring
      rw [e1, e2, ih2]
      congr 1
      simp only [List.length_cons]
      push_cast
      ring

theorem qsort_gathered_eq_runs (node : List Nat) :
    qsort_cids (gathered_sizes node) =
      (List.insertionSort cids_le
        (node.dedup.map (fun x => ((node.count x : Nat) : Int)))).flatMap size_run := by
  unfold qsort_cids
  apply List.eq_of_perm_of_sorted (r := cids_le)
  · refine (List.perm_insertionSort cids_le _).trans ((gathered_perm_runs node).trans ?_)
    exact List.Perm.flatMap_right size_run (List.perm_insertionSort cids_le _).symm
  · exact List.sorted_insertionSort cids_le _
  · exact sorted_runs _ (List.sorted_insertionSort cids_le _)

theorem count_nodes_scan_placement (node : List Nat) :
    count_nodes_loop (qsort_cids (gathered_sizes node)) (node.length : Int)
      ((node.length : Int)).toNat 0 0 = ScanResult.done (node_count node : Int) := by
  have hq := qsort_gathered_eq_runs node
  have hlen : (qsort_cids (gathered_sizes node)).length = node.length := by
    unfold qsort_cids gathered_sizes
    rw [(List.perm_insertionSort cids_le _).length_eq, List.length_map]
  have hslen : (List.insertionSort cids_le
      (node.dedup.map (fun x => ((node.count x : Nat) : Int)))).length = node_count node := by
    rw [(List.perm_insertionSort cids_le _).length_eq, List.length_map]
    rfl
  have hpos : ∀ m ∈ List.insertionSort cids_le
      (node.dedup.map (fun x => ((node.count x : Nat) : Int))), 1 ≤ m := by
    intro m hm
    rw [(List.perm_insertionSort cids_le _).mem_iff, List.mem_map] at hm
    obtain ⟨x, hx, rfl⟩ := hm
    have : 0 < node.count x := List.count_pos_iff.2 (List.mem_dedup.1 hx)
    omega
  have hle : node_count node ≤ node.length := (List.dedup_sublist node).length_le
  have h := count_nodes_loop_runs _ hpos [] ((node.length : Int)).toNat 0
    (by rw [hslen, Int.toNat_ofNat]; exact hle)
  rw [← hq] at h
  simp only [List.nil_append, List.length_nil, Nat.cast_zero, zero_add] at h
  rw [hlen, hslen] at h
  exact h

theorem node_count_single (node : List Nat) (x : Nat) (hx : x ∈ node)
    (h : node.count x = node.length) : node_count node = 1 := by
  have hall : ∀ b ∈ node, x = b := List.count_eq_length.1 h
  have hrep : node = List.replicate node.length x :=
    List.eq_replicate_iff.2 ⟨rfl, fun b hb => (hall b hb).symm⟩
  have hne : node.length ≠ 0 := by
    intro h0
    rw [List.length_eq_zero] at h0
    rw [h0] at hx
    exact absurd hx (List.not_mem_nil x)
  unfold node_count
  rw [hrep, List.replicate_dedup hne]
  rfl

/-- C7: for every placement of the ranks on nodes (`node[i]` is the node of
rank `i`, `N = node.length`, `k` the number of distinct nodes), with the
gathered array holding at index `i` the number of ranks on the node of rank
`i`: sorting it with `compare_cids` and scanning it as
`mca_coll_acoll_comm_split_init` does ends within `N` iterations without a
read outside the array and with `num_nodes = k`; the whole derivation of
`num_nodes`, as run by a rank on any node `x`, yields `k` too; and any
rearrangement of the gathered array sorts to the same array, so the value
depends only on the multiset of gathered sizes. -/
theorem num_nodes_eq_node_count (node : List Nat) :
    count_nodes_loop (qsort_cids (gathered_sizes node)) (node.length : Int)
      ((node.length : Int)).toNat 0 0 = ScanResult.done (node_count node : Int) ∧
    (∀ x ∈ node,
      derive_num_nodes (node.length : Int) ((node.count x : Nat) : Int) (gathered_sizes node) =
        ScanResult.done (node_count node : Int)) ∧
    (∀ g : List Int, g.Perm (gathered_sizes node) →
      qsort_cids g = qsort_cids (gathered_sizes node) ∧
      ∀ local_size : Int, derive_num_nodes (node.length : Int) local_size g =
        derive_num_nodes (node.length : Int) local_size (gathered_sizes node)) := by
  refine ⟨count_nodes_scan_placement node, ?_, ?_⟩
  · intro x hx
    unfold derive_num_nodes
    by_cases hs : (node.length : Int) = ((node.count x : Nat) : Int)
    · rw [if_pos hs]
      have : node.count x = node.length := by exact_mod_cast hs.symm
      rw [node_count_single node x hx this]
      rfl
    · rw [if_neg hs]
      exact count_nodes_scan_placement node
  · intro g hg
    have hq : qsort_cids g = qsort_cids (gathered_sizes node) := by
      unfold qsort_cids
      apply List.eq_of_perm_of_sorted (r := cids_le)
      · exact (List.perm_insertionSort cids_le _).trans
          (hg.trans (List.perm_insertionSort cids_le _).symm)
      · exact List.sorted_insertionSort cids_le _
      · exact List.sorted_insertionSort cids_le _
    refine ⟨hq, ?_⟩
    intro local_size
    unfold derive_num_nodes
    rw [hq]

theorem rootIndep_refl (s : Subcomms) : RootIndep s s :=
  ⟨rfl, rfl, rfl, rfl, rfl, rfl, rfl, rfl, rfl, rfl, rfl⟩

theorem rootIndep_trans {a b c : Subcomms} (h1 : RootIndep a b) (h2 : RootIndep b c) :
    RootIndep a c := by
  obtain ⟨a1, a2, a3, a4, a5, a6, a7, a8, a9, a10, a11⟩ := h1
  obtain ⟨b1, b2, b3, b4, b5, b6, b7, b8, b9, b10, b11⟩ := h2
  exact ⟨b1.trans a1, b2.trans a2, b3.trans a3, b4.trans a4, b5.trans a5, b6.trans a6,
    b7.trans a7, b8.trans a8, b9.trans a9, b10.trans a10, b11.trans a11⟩

theorem rebuilds_refl (P : CommOp → Prop) (b : Build) : Rebuilds P b b :=
  ⟨rootIndep_refl _, [], by simp, by simp⟩

theorem rebuilds_trans {P : CommOp → Prop} {a b c : Build} (h1 : Rebuilds P a b)
    (h2 : Rebuilds P b c) : Rebuilds P a c := by
  obtain ⟨f1, l1, e1, p1⟩ := h1
  obtain ⟨f2, l2, e2, p2⟩ := h2
  refine ⟨rootIndep_trans f1 f2, l1 ++ l2, by rw [e2, e1, List.append_assoc], ?_⟩
  intro op hop
  rcases List.mem_append.1 hop with h | h
  · exact p1 op h
  · exact p2 op h

theorem rebuilds_of_eq (P : CommOp → Prop) (b b' : Build) (hs : b'.subc = b.subc)
    (ho : b'.ops = b.ops) : Rebuilds P b b' := by
  refine ⟨?_, [], by simp [ho], by simp⟩
  rw [hs]
  exact rootIndep_refl _

theorem set_slot_rootIndep (s : Subcomms) (slot : Slot) (c : Comm)
    (h : slot ≠ Slot.local_r_comm) : RootIndep s (s.set_slot slot c) := by
  cases slot with
  | leader_comm => exact rootIndep_refl _
  | socket_ldr_comm => exact rootIndep_refl _
  | base_comm bl l => exact ⟨rfl, rfl, rfl, rfl, rfl, rfl, rfl, rfl, rfl, rfl, rfl⟩
  | numa_comm_ldrs => exact rootIndep_refl _
  | local_r_comm => exact absurd rfl h

theorem do_split_rebuilds (P : CommOp → Prop) (env : HierEnv) (slot : Slot) (parent : List Int)
    (color key : Int) (b : Build) (h : slot ≠ Slot.local_r_comm)
    (hP : P (CommOp.split slot parent color key)) :
    Rebuilds P b (do_split env slot parent color key b) := by
  refine ⟨set_slot_rootIndep _ _ _ h, [CommOp.split slot parent color key], rfl, ?_⟩
  intro op hop
  rw [List.mem_singleton] at hop
  rw [hop]; exact hP

theorem do_free_rebuilds (P : CommOp → Prop) (slot : Slot) (b : Build)
    (h : slot ≠ Slot.local_r_comm) (hP : P (CommOp.free slot)) :
    Rebuilds P b (do_free slot b) := by
  refine ⟨set_slot_rootIndep _ _ _ h, [CommOp.free slot], rfl, ?_⟩
  intro op hop
  rw [List.mem_singleton] at hop
  rw [hop]; exact hP

theorem ret_rebuilds (P : CommOp → Prop) (b : Build) : Rebuilds P b b.ret :=
  rebuilds_of_eq P _ _ rfl rfl

theorem rebuilds_of_frame (P : CommOp → Prop) (b b' : Build) (hf : RootIndep b.subc b'.subc)
    (ho : b'.ops = b.ops) : Rebuilds P b b' :=
  ⟨hf, [], by simp [ho], by simp⟩

theorem store_socket_root_rebuilds (P : CommOp → Prop) (r : RanksLocal) (b : Build) :
    Rebuilds P b (store_socket_root r b) :=
  rebuilds_of_frame P _ _ ⟨rfl, rfl, rfl, rfl, rfl, rfl, rfl, rfl, rfl, rfl, rfl⟩ rfl

theorem store_subgrp_root_rebuilds (P : CommOp → Prop) (r : RanksLocal) (b : Build) :
    Rebuilds P b (store_subgrp_root r b) :=
  rebuilds_of_frame P _ _ ⟨rfl, rfl, rfl, rfl, rfl, rfl, rfl, rfl, rfl, rfl, rfl⟩ rfl

theorem store_numa_root_rebuilds (P : CommOp → Prop) (r : RanksLocal) (b : Build) :
    Rebuilds P b (store_numa_root r b) :=
  rebuilds_of_frame P _ _ ⟨rfl, rfl, rfl, rfl, rfl, rfl, rfl, rfl, rfl, rfl, rfl⟩ rfl

theorem store_socket_ldr_root_rebuilds (P : CommOp → Prop) (r : RanksLocal) (b : Build) :
    Rebuilds P b (store_socket_ldr_root r b) :=
  rebuilds_of_frame P _ _ ⟨rfl, rfl, rfl, rfl, rfl, rfl, rfl, rfl, rfl, rfl, rfl⟩ rfl

theorem store_outer_grp_root_rebuilds (P : CommOp → Prop) (r : RanksLocal) (b : Build) :
    Rebuilds P b (store_outer_grp_root r b) :=
  rebuilds_of_frame P _ _ ⟨rfl, rfl, rfl, rfl, rfl, rfl, rfl, rfl, rfl, rfl, rfl⟩ rfl

theorem store_socket_rank_rebuilds (P : CommOp → Prop) (root : Int) (l : List Int) (b : Build) :
    Rebuilds P b (store_socket_rank root l b) :=
  rebuilds_of_frame P _ _ ⟨rfl, rfl, rfl, rfl, rfl, rfl, rfl, rfl, rfl, rfl, rfl⟩ rfl

theorem store_base_rank_l3_rebuilds (P : CommOp → Prop) (root : Int) (l : List Int) (b : Build) :
    Rebuilds P b (store_base_rank_l3 root l b) :=
  rebuilds_of_frame P _ _ ⟨rfl, rfl, rfl, rfl, rfl, rfl, rfl, rfl, rfl, rfl, rfl⟩ rfl

theorem store_base_rank_numa_rebuilds (P : CommOp → Prop) (root : Int) (l : List Int) (b : Build) :
    Rebuilds P b (store_base_rank_numa root l b) :=
  rebuilds_of_frame P _ _ ⟨rfl, rfl, rfl, rfl, rfl, rfl, rfl, rfl, rfl, rfl, rfl⟩ rfl

theorem multi_find_node_root_rebuilds (P : CommOp → Prop) (env : HierEnv) (size root : Int)
    (b : Build) : Rebuilds P b (multi_find_node_root env size root b) :=
  rebuilds_of_frame P _ _ ⟨rfl, rfl, rfl, rfl, rfl, rfl, rfl, rfl, rfl, rfl, rfl⟩ rfl

theorem split_init_override_rebuilds (P : CommOp → Prop) (b : Build) :
    Rebuilds P b (split_init_override b) :=
  rebuilds_of_frame P _ _ ⟨rfl, rfl, rfl, rfl, rfl, rfl, rfl, rfl, rfl, rfl, rfl⟩ rfl

theorem create_base_comm_step_rebuilds (P : CommOp → Prop)
    (hP : ∀ slot p c k, slot ≠ Slot.local_r_comm → P (CommOp.split slot p c k))
    (env : HierEnv) (pc : PerLayer Comm) (color rank : Int) (root : PerLayer Int)
    (bl : BaseLayer) (i : Layer) (b : Build) :
    Rebuilds P b (create_base_comm_step env pc color rank root bl i b) := by
  have hs : Slot.base_comm bl i ≠ Slot.local_r_comm := by intro h; cases h
  have h1 := do_split_rebuilds P env (Slot.base_comm bl i) (pc.get i).ranks color rank b hs
    (hP _ _ _ _ hs)
  unfold create_base_comm_step
  simp only []
  split
  · exact rebuilds_trans h1 (ret_rebuilds P _)
  · exact rebuilds_trans h1
      (rebuilds_of_frame P _ _ ⟨rfl, rfl, rfl, rfl, rfl, rfl, rfl, rfl, rfl, rfl, rfl⟩ rfl)

theorem create_base_comm_rebuilds (P : CommOp → Prop)
    (hP : ∀ slot p c k, slot ≠ Slot.local_r_comm → P (CommOp.split slot p c k))
    (env : HierEnv) (pc : PerLayer Comm) (color rank : Int) (root : PerLayer Int)
    (bl : BaseLayer) (b : Build) :
    Rebuilds P b (mca_coll_acoll_create_base_comm env pc color rank root bl b) := by
  have h1 := create_base_comm_step_rebuilds P hP env pc color rank root bl Layer.node b
  unfold mca_coll_acoll_create_base_comm
  simp only []
  split
  · exact rebuilds_trans h1 (rebuilds_of_eq P _ _ rfl rfl)
  · exact rebuilds_trans h1
      (rebuilds_trans (create_base_comm_step_rebuilds P hP env pc color rank root bl Layer.socket _)
        (rebuilds_of_eq P _ _ rfl rfl))

theorem split_init_base_groups_rebuilds (P : CommOp → Prop)
    (hP : ∀ slot p c k, slot ≠ Slot.local_r_comm → P (CommOp.split slot p c k))
    (env : HierEnv) (root key rank : Int) (grp : List Int) (numa_ldrs : Bool) (b : Build) :
    Rebuilds P b (split_init_base_groups env root key rank grp numa_ldrs b) := by
  have hn : Slot.numa_comm_ldrs ≠ Slot.local_r_comm := by intro h; cases h
  unfold split_init_base_groups
  lift_lets
  intro r b1 color pc b2 numa_rank color1 b3 r2 b4 color2
  have h1 : Rebuilds P b b1 :=
    rebuilds_trans (store_subgrp_root_rebuilds P r b) (store_base_rank_l3_rebuilds P root r.ranks _)
  have h2 : Rebuilds P b1 b2 := create_base_comm_rebuilds P hP env pc color key _ _ b1
  have h3 : Rebuilds P b2 b3 := by
    show Rebuilds P b2 (if numa_ldrs = true then
      do_split env Slot.numa_comm_ldrs b2.subc.local_comm.ranks color1 rank b2 else b2)
    split
    · exact do_split_rebuilds P env _ _ _ _ _ hn (hP _ _ _ _ hn)
    · exact rebuilds_refl P b2
  have h4 : Rebuilds P b3 b4 :=
    rebuilds_trans (store_numa_root_rebuilds P r2 b3) (store_base_rank_numa_rebuilds P root r2.ranks _)
  exact rebuilds_trans h1 (rebuilds_trans h2 (rebuilds_trans h3 (rebuilds_trans h4
    (create_base_comm_rebuilds P hP env pc color2 key _ _ b4))))

theorem split_init_socket_leaders_rebuilds (P : CommOp → Prop)
    (hP : ∀ slot p c k, slot ≠ Slot.local_r_comm → P (CommOp.split slot p c k))
    (env : HierEnv) (root key rank : Int) (grp : List Int) (numa_ldrs : Bool) (b : Build) :
    Rebuilds P b (split_init_socket_leaders env root key rank grp numa_ldrs b) := by
  have hn : Slot.socket_ldr_comm ≠ Slot.local_r_comm := by intro h; cases h
  unfold split_init_socket_leaders
  lift_lets
  intro r b1 color b2 r2
  have h1 : Rebuilds P b b1 :=
    rebuilds_trans (store_socket_root_rebuilds P r b) (store_socket_rank_rebuilds P root r.ranks _)
  have h2 : Rebuilds P b1 b2 := do_split_rebuilds P env _ _ _ _ _ hn (hP _ _ _ _ hn)
  split
  · exact rebuilds_trans h1 (rebuilds_trans h2 (ret_rebuilds P _))
  · exact rebuilds_trans h1 (rebuilds_trans h2
      (rebuilds_trans (store_socket_ldr_root_rebuilds P r2 b2)
        (split_init_base_groups_rebuilds P hP env _ _ _ _ _ _)))

theorem split_init_multi_node_rebuilds (P : CommOp → Prop)
    (hP : ∀ slot p c k, slot ≠ Slot.local_r_comm → P (CommOp.split slot p c k))
    (env : HierEnv) (size rank root : Int) (b : Build) :
    Rebuilds P b (split_init_multi_node env size rank root b) := by
  have hn : Slot.leader_comm ≠ Slot.local_r_comm := by intro h; cases h
  unfold split_init_multi_node
  lift_lets
  intro local_rank b1 color b2 r b3 local_root
  have h1 : Rebuilds P b b1 := multi_find_node_root_rebuilds P env size root b
  have h2 : Rebuilds P b1 b2 := do_split_rebuilds P env _ _ _ _ _ hn (hP _ _ _ _ hn)
  split
  · exact rebuilds_trans h1 (rebuilds_trans h2 (ret_rebuilds P _))
  · exact rebuilds_trans h1 (rebuilds_trans h2
      (rebuilds_trans (store_outer_grp_root_rebuilds P r b2)
        (split_init_socket_leaders_rebuilds P hP env _ _ _ _ _ _)))

theorem split_init_single_node_rebuilds (P : CommOp → Prop)
    (hP : ∀ slot p c k, slot ≠ Slot.local_r_comm → P (CommOp.split slot p c k))
    (env : HierEnv) (size rank root : Int) (b : Build) :
    Rebuilds P b (split_init_single_node env size rank root b) := by
  have h1 : Rebuilds P b (single_init_local_root root b) :=
    rebuilds_of_frame P _ _ ⟨rfl, rfl, rfl, rfl, rfl, rfl, rfl, rfl, rfl, rfl, rfl⟩ rfl
  exact rebuilds_trans h1 (split_init_socket_leaders_rebuilds P hP env _ _ _ _ _ _)

theorem reset_base_root_rebuilds (P : CommOp → Prop) (i : Layer) (b : Build) :
    Rebuilds P b (reset_base_root i b) :=
  rebuilds_of_frame P _ _ ⟨rfl, rfl, rfl, rfl, rfl, rfl, rfl, rfl, rfl, rfl, rfl⟩ rfl

theorem reset_root_scalars_rebuilds (P : CommOp → Prop) (b : Build) :
    Rebuilds P b (reset_root_scalars b) :=
  rebuilds_of_frame P _ _ ⟨rfl, rfl, rfl, rfl, rfl, rfl, rfl, rfl, rfl, rfl, rfl⟩ rfl

theorem split_init_common_layer_rebuilds (P : CommOp → Prop) (hP : ∀ slot, P (CommOp.free slot))
    (i : Layer) (b : Build) : Rebuilds P b (split_init_common_layer i b) := by
  have h1 : Slot.base_comm BaseLayer.l3cache i ≠ Slot.local_r_comm := by intro h; cases h
  have h2 : Slot.base_comm BaseLayer.numa i ≠ Slot.local_r_comm := by intro h; cases h
  unfold split_init_common_layer
  split
  · exact rebuilds_trans (do_free_rebuilds P _ b h1 (hP _))
      (rebuilds_trans (do_free_rebuilds P _ _ h2 (hP _)) (reset_base_root_rebuilds P i _))
  · exact reset_base_root_rebuilds P i b

theorem free_leader_groups_rebuilds (P : CommOp → Prop) (hP : ∀ slot, P (CommOp.free slot))
    (b : Build) : Rebuilds P b (free_leader_groups b) := by
  have h1 : Slot.leader_comm ≠ Slot.local_r_comm := by intro h; cases h
  have h2 : Slot.socket_ldr_comm ≠ Slot.local_r_comm := by intro h; cases h
  unfold free_leader_groups
  split
  · split
    · exact rebuilds_trans (do_free_rebuilds P _ b h1 (hP _)) (do_free_rebuilds P _ _ h2 (hP _))
    · exact do_free_rebuilds P _ b h2 (hP _)
  · exact rebuilds_refl P b

theorem split_init_common_rebuilds (P : CommOp → Prop) (hP : ∀ slot, P (CommOp.free slot))
    (b : Build) : Rebuilds P b (split_init_common b) := by
  unfold split_init_common
  exact rebuilds_trans (reset_root_scalars_rebuilds P b)
    (rebuilds_trans (free_leader_groups_rebuilds P hP _)
      (rebuilds_trans (split_init_common_layer_rebuilds P hP Layer.node _)
        (split_init_common_layer_rebuilds P hP Layer.socket _)))

theorem rebuild_op_split (slot : Slot) (p : List Int) (c k : Int) (h : slot ≠ Slot.local_r_comm) :
    rebuild_op (CommOp.split slot p c k) := h

theorem rebuild_op_free (slot : Slot) : rebuild_op (CommOp.free slot) := trivial

theorem finish_body_rebuilds (P : CommOp → Prop) (root : Int) (coll_org : CollTable) (b : Build)
    (h1 : b.subc.initialized = 1) (h2 : b.subc.prev_init_root = root) :
    Rebuilds P b (finish_body root coll_org b) := by
  unfold finish_body count_root_change
  simp only [h2, ne_eq, not_true_eq_false, if_false]
  exact rebuilds_of_frame P _ _ ⟨h1.symm, rfl, rfl, rfl, h2.symm, rfl, rfl, rfl, rfl, rfl, rfl⟩ rfl

theorem body_rebuilds (env : HierEnv) (size rank cid root : Int) (b0 : Build)
    (h1 : b0.subc.initialized = 1) (h2 : b0.subc.prev_init_root = root) :
    Rebuilds rebuild_op b0 (comm_split_init_body env size rank cid root b0) := by
  unfold comm_split_init_body
  lift_lets
  intro coll_org b1 b2 b3 coll_loc coll_soc b4 b5 b6 b7
  have e1 : Rebuilds rebuild_op b0 b1 :=
    rebuilds_of_frame _ _ _ ⟨rfl, rfl, rfl, rfl, rfl, rfl, rfl, rfl, rfl, rfl, rfl⟩ rfl
  have i1 : b1.subc.initialized = 1 := h1
  have e2 : b2 = b1 := by
    show (if b1.subc.initialized = 0 then split_init_locality env size b1 else b1) = b1
    rw [if_neg (by rw [i1]; decide)]
  have e3 : Rebuilds rebuild_op b2 b3 := split_init_common_rebuilds _ rebuild_op_free b2
  have e4 : Rebuilds rebuild_op b3 b4 := split_init_override_rebuilds _ b3
  have e5 : Rebuilds rebuild_op b4 b5 := by
    show Rebuilds rebuild_op b4 (if b4.subc.num_nodes > 1 then
      split_init_multi_node env size rank root b4 else split_init_single_node env size rank root b4)
    split
    · exact split_init_multi_node_rebuilds _ rebuild_op_split env size rank root b4
    · exact split_init_single_node_rebuilds _ rebuild_op_split env size rank root b4
  have e6 : Rebuilds rebuild_op b5 b6 :=
    rebuilds_of_frame _ _ _ ⟨rfl, rfl, rfl, rfl, rfl, rfl, rfl, rfl, rfl, rfl, rfl⟩ rfl
  have e05 : Rebuilds rebuild_op b0 b5 := by
    rw [e2] at e3
    exact rebuilds_trans e1 (rebuilds_trans e3 (rebuilds_trans e4 e5))
  have e06 : Rebuilds rebuild_op b0 b6 := rebuilds_trans e05 e6
  have i6 : b6.subc.initialized = 1 := e06.1.1.trans h1
  have e7 : b7 = b6 := by
    show (if b6.subc.initialized = 0 then split_init_rank_contiguous env size rank b6 else b6) = b6
    rw [if_neg (by rw [i6]; decide)]
  split
  · rw [e2]; exact rebuilds_trans e1 (rebuilds_refl _ _)
  · split
    · exact e05
    · split
      · rw [e7]; exact e06
      · rw [e7]
        have p6 : b6.subc.prev_init_root = root := e06.1.2.2.2.2.1.trans h2
        exact rebuilds_trans e06 (finish_body_rebuilds _ root coll_org b6 i6 p6)

theorem rebuilds_ops {P : CommOp → Prop} {b b' : Build} (h : Rebuilds P b b') :
    ∃ l, b'.ops = b.ops ++ l := by
  obtain ⟨_, l, e, _⟩ := h
  exact ⟨l, e⟩

theorem split_init_socket_leaders_first_op (env : HierEnv) (root key rank : Int) (grp : List Int)
    (numa_ldrs : Bool) (b : Build) :
    ∃ color l, (split_init_socket_leaders env root key rank grp numa_ldrs b).ops =
      b.ops ++ CommOp.split Slot.socket_ldr_comm grp color key :: l := by
  unfold split_init_socket_leaders
  lift_lets
  intro r b1 color b2 r2
  have hb2 : b2.ops = b.ops ++ [CommOp.split Slot.socket_ldr_comm grp color key] := rfl
  refine ⟨color, ?_⟩
  split
  · exact ⟨[], hb2⟩
  · obtain ⟨l, hl⟩ := rebuilds_ops
      (split_init_base_groups_rebuilds (fun _ => True) (fun _ _ _ _ _ => trivial) env root key rank
        grp numa_ldrs (store_socket_ldr_root r2 b2))
    refine ⟨l, ?_⟩
    rw [hl]
    show b2.ops ++ l = _
    rw [hb2, List.append_assoc]
    rfl

theorem split_init_multi_node_first_op (env : HierEnv) (size rank root : Int) (b : Build) :
    ∃ l, (split_init_multi_node env size rank root b).ops =
      b.ops ++ CommOp.split Slot.leader_comm (comm_ranks size)
        (leader_color (multi_find_node_root env size root b).subc.is_root_node
          (ompi_comm_rank b.subc.local_comm rank) rank root) rank :: l := by
  unfold split_init_multi_node
  lift_lets
  intro local_rank b1 color b2 r b3 local_root
  have hb2 : b2.ops = b.ops ++ [CommOp.split Slot.leader_comm (comm_ranks size) color rank] := rfl
  split
  · exact ⟨[], hb2⟩
  · obtain ⟨l, hl⟩ := rebuilds_ops
      (split_init_socket_leaders_rebuilds (fun _ => True) (fun _ _ _ _ _ => trivial) env local_root
        local_rank rank b3.subc.local_comm.ranks false b3)
    refine ⟨l, ?_⟩
    rw [hl]
    show b2.ops ++ l = _
    rw [hb2, List.append_assoc]
    rfl

theorem free_leader_groups_mem (b : Build) (h : b.subc.initialized ≠ 0) :
    CommOp.free Slot.socket_ldr_comm ∈ (free_leader_groups b).ops := by
  unfold free_leader_groups
  rw [if_pos h]
  split <;> simp [do_free]

theorem rebuilds_mem {P : CommOp → Prop} {b b' : Build} (h : Rebuilds P b b') (op : CommOp)
    (hop : op ∈ b.ops) : op ∈ b'.ops := by
  obtain ⟨l, e⟩ := rebuilds_ops h
  rw [e]
  exact List.mem_append_left _ hop

theorem mem_members_by (loc : List Nat) (q : Nat) (z : Int) :
    z ∈ members_by loc q ↔ ∃ p : Nat, p < loc.length ∧ loc.getD p 0 = loc.getD q 0 ∧ z = (p : Int) := by
  unfold members_by
  simp only [List.mem_map, List.mem_filter, List.mem_range, decide_eq_true_eq]
  constructor
  · rintro ⟨p, ⟨h1, h2⟩, rfl⟩
    exact ⟨p, h1, h2, rfl⟩
  · rintro ⟨p, h1, h2, rfl⟩
    exact ⟨p, ⟨h1, h2⟩, rfl⟩

theorem indexOf_comm_ranks (n p : Nat) (hp : p < n) :
    List.indexOf (p : Int) (comm_ranks (n : Int)) = p := by
  unfold comm_ranks
  rw [Int.toNat_ofNat]
  have hnd : ((List.range n).map (fun i : Nat => (i : Int))).Nodup :=
    List.Nodup.map (fun a b h => by exact_mod_cast h) (List.nodup_range n)
  have hlen : p < ((List.range n).map (fun i : Nat => (i : Int))).length := by simpa using hp
  have hget : ((List.range n).map (fun i : Nat => (i : Int)))[p] = (p : Int) := by simp
  have := List.indexOf_getElem hnd p hlen
  rw [hget] at this
  exact this

theorem mem_comm_ranks (n p : Nat) (hp : p < n) : (p : Int) ∈ comm_ranks (n : Int) := by
  unfold comm_ranks
  rw [Int.toNat_ofNat]
  exact List.mem_map.2 ⟨p, List.mem_range.2 hp, rfl⟩

theorem translate_ranks_comm (n : Nat) :
    ∀ l : List Int, (∀ z ∈ l, ∃ p : Nat, p < n ∧ z = (p : Int)) →
      translate_ranks l (comm_ranks (n : Int)) = l := by
  intro l
  induction l with
  | nil => intro _; rfl
  | cons a l ih =>
    intro h
    obtain ⟨p, hp, rfl⟩ := h a (List.mem_cons_self _ _)
    have ih2 := ih (fun z hz => h z (List.mem_cons_of_mem _ hz))
    unfold translate_ranks at ih2 ⊢
    rw [List.map_cons, ih2, if_pos (mem_comm_ranks n p hp), indexOf_comm_ranks n p hp]

theorem find_root_fst (root : Int) :
    ∀ (l : List Int) (i : Int) (acc : Int × Int),
      (find_root root l i acc).1 = if root ∈ l then 1 else acc.1 := by
  intro l
  induction l with
  | nil => intro i acc; simp [find_root]
  | cons a l ih =>
    intro i acc
    rw [find_root]
    by_cases ha : a = root
    · rw [if_pos ha, if_pos (by rw [ha]; exact List.mem_cons_self _ _)]
    · rw [if_neg ha, ih]
      have : root ∈ a :: l ↔ root ∈ l := by
        rw [List.mem_cons]
        constructor
        · rintro (h | h)
          · exact absurd h.symm ha
          · exact h
        · exact Or.inr
      simp only [this]

theorem placement_is_root_node_eq (node : List Nat) (root q : Nat) (hroot : root < node.length) :
    placement_is_root_node node root q =
      if node.getD root 0 = node.getD q 0 then 1 else 0 := by
  unfold placement_is_root_node
  rw [translate_ranks_comm node.length _ (fun z hz => by
    obtain ⟨p, h1, _, h3⟩ := (mem_members_by node q z).1 hz
    exact ⟨p, h1, h3⟩), find_root_fst]
  by_cases h : node.getD root 0 = node.getD q 0
  · rw [if_pos h, if_pos ((mem_members_by node q _).2 ⟨root, hroot, h, rfl⟩)]
  · rw [if_neg h, if_neg]
    intro hm
    obtain ⟨p, _, h2, h3⟩ := (mem_members_by node q _).1 hm
    have : root = p := by exact_mod_cast h3
    rw [this] at h
    exact h h2

theorem head?_filter_eq_find? (p : Nat → Bool) :
    ∀ l : List Nat, (l.filter p).head? = l.find? p := by
  intro l
  induction l with
  | nil => rfl
  | cons a l ih =>
    rw [List.filter_cons, List.find?_cons]
    cases hpa : p a
    · simp [ih]
    · simp

theorem indexOf_eq_zero_iff_head (a : Int) :
    ∀ l : List Int, a ∈ l → (List.indexOf a l = 0 ↔ l.head? = some a) := by
  intro l
  cases l with
  | nil => intro h; exact absurd h (List.not_mem_nil a)
  | cons b t =>
    intro _
    rw [List.indexOf_cons]
    by_cases hb : b = a
    · simp [hb]
    · have : (b == a) = false := by simpa using hb
      simp [this, hb]

theorem placement_local_rank_zero (node : List Nat) (q : Nat) (hq : q < node.length) :
    placement_local_rank node q = 0 ↔ ∀ p < q, node.getD p 0 ≠ node.getD q 0 := by
  have hmem : (q : Int) ∈ members_by node q := (mem_members_by node q _).2 ⟨q, hq, rfl, rfl⟩
  unfold placement_local_rank ompi_comm_rank
  simp only [if_pos hmem]
  have h0 : ((List.indexOf (q : Int) (members_by node q) : Nat) : Int) = 0 ↔
      List.indexOf (q : Int) (members_by node q) = 0 := by omega
  rw [h0, indexOf_eq_zero_iff_head _ _ hmem]
  unfold members_by
  rw [List.head?_map, head?_filter_eq_find?]
  constructor
  · intro h
    rw [Option.map_eq_some'] at h
    obtain ⟨a, ha, haq⟩ := h
    have haq2 : a = q := by exact_mod_cast haq
    rw [haq2, List.find?_range_eq_some] at ha
    intro p hp
    have := ha.2.2 p hp
    simpa using this
  · intro h
    rw [Option.map_eq_some']
    refine ⟨q, ?_, rfl⟩
    rw [List.find?_range_eq_some]
    refine ⟨by simp, List.mem_range.2 hq, ?_⟩
    intro j hj
    simpa using h j hj

theorem placement_leader_color_zero (node : List Nat) (root q : Nat) (hroot : root < node.length) :
    placement_leader_color node root q = 0 ↔
      (q = root ∨ (node.getD q 0 ≠ node.getD root 0 ∧ placement_local_rank node q = 0)) := by
  unfold placement_leader_color leader_color
  rw [placement_is_root_node_eq node root q hroot]
  simp only []
  by_cases hqr : q = root
  · have hqr2 : (q : Int) = (root : Int) := by exact_mod_cast hqr
    rw [if_pos hqr2]
    exact ⟨fun _ => Or.inl hqr, fun _ => rfl⟩
  · have hqr2 : ¬ ((q : Int) = (root : Int)) := by exact_mod_cast hqr
    rw [if_neg hqr2]
    by_cases hn : node.getD root 0 = node.getD q 0
    · rw [if_pos hn, if_neg (fun h => absurd h.1 (by decide))]
      constructor
      · intro h; exact absurd h (by decide)
      · rintro (h | ⟨h, _⟩)
        · exact absurd h hqr
        · exact absurd hn.symm h
    · rw [if_neg hn]
      by_cases hl : placement_local_rank node q = 0
      · rw [if_pos ⟨rfl, hl⟩]
        exact ⟨fun _ => Or.inr ⟨fun h => hn h.symm, hl⟩, fun _ => rfl⟩
      · rw [if_neg (fun h => hl h.2)]
        constructor
        · intro h; exact absurd h (by decide)
        · rintro (h | ⟨_, h⟩)
          · exact absurd h hqr
          · exact absurd h hl

theorem placement_leader_color_values (node : List Nat) (root q : Nat) :
    placement_leader_color node root q = 0 ∨ placement_leader_color node root q = 1 := by
  unfold placement_leader_color leader_color
  simp only []
  split
  · exact Or.inl rfl
  · split
    · exact Or.inl rfl
    · exact Or.inr rfl

theorem exists_first_on_node (node : List Nat) (p : Nat) :
    ∃ q, q ≤ p ∧ node.getD q 0 = node.getD p 0 ∧ ∀ j < q, node.getD j 0 ≠ node.getD q 0 := by
  have hex : ∃ q, node.getD q 0 = node.getD p 0 := ⟨p, rfl⟩
  classical
  refine ⟨Nat.find hex, Nat.find_min' hex rfl, Nat.find_spec hex, ?_⟩
  intro j hj hje
  exact Nat.find_min hex hj (hje.trans (Nat.find_spec hex))

theorem leader_unique_on_node (node : List Nat) (root : Nat) (hroot : root < node.length)
    (p : Nat) (hp : p < node.length) :
    ∃ q, (q < node.length ∧ node.getD q 0 = node.getD p 0 ∧ placement_leader_color node root q = 0) ∧
      ∀ q', (q' < node.length ∧ node.getD q' 0 = node.getD p 0 ∧
        placement_leader_color node root q' = 0) → q' = q := by
  by_cases hn : node.getD p 0 = node.getD root 0
  · refine ⟨root, ⟨hroot, hn.symm, (placement_leader_color_zero node root root hroot).2 (Or.inl rfl)⟩, ?_⟩
    rintro q' ⟨_, h2, h3⟩
    rcases (placement_leader_color_zero node root q' hroot).1 h3 with h | ⟨h, _⟩
    · exact h
    · exact absurd (h2.trans hn) h
  · obtain ⟨q, hq1, hq2, hq3⟩ := exists_first_on_node node p
    have hq : q < node.length := lt_of_le_of_lt hq1 hp
    refine ⟨q, ⟨hq, hq2, ?_⟩, ?_⟩
    · apply (placement_leader_color_zero node root q hroot).2
      right
      exact ⟨by rw [hq2]; exact hn, (placement_local_rank_zero node q hq).2 hq3⟩
    · rintro q' ⟨h1, h2, h3⟩
      rcases (placement_leader_color_zero node root q' hroot).1 h3 with h | ⟨_, h⟩
      · rw [h] at h2
        exact absurd h2.symm hn
      · have hf := (placement_local_rank_zero node q' h1).1 h
        rcases Nat.lt_trichotomy q' q with hlt | heq | hgt
        · exact absurd (h2.trans hq2.symm) (hq3 q' hlt)
        · exact heq
        · exact absurd (hq2.trans h2.symm) (hf q hgt)

theorem leaders_card (node : List Nat) (root : Nat) (hroot : root < node.length) :
    ((Finset.range node.length).filter
      (fun q => placement_leader_color node root q = 0)).card = node_count node := by
  have hinj : Set.InjOn (fun q => node.getD q 0)
      ((Finset.range node.length).filter
        (fun q => placement_leader_color node root q = 0) : Finset Nat) := by
    intro a ha b hb hab
    rw [Finset.mem_coe, Finset.mem_filter, Finset.mem_range] at ha hb
    obtain ⟨q, _, huniq⟩ := leader_unique_on_node node root hroot a ha.1
    have h1 := huniq a ⟨ha.1, rfl, ha.2⟩
    have h2 := huniq b ⟨hb.1, hab.symm, hb.2⟩
    rw [h1, h2]
  have himg : ((Finset.range node.length).filter
      (fun q => placement_leader_color node root q = 0)).image (fun q => node.getD q 0) =
      node.toFinset := by
    ext x
    rw [Finset.mem_image, List.mem_toFinset]
    constructor
    · rintro ⟨q, hq, rfl⟩
      rw [Finset.mem_filter, Finset.mem_range] at hq
      rw [List.getD_eq_getElem _ _ hq.1]
      exact List.getElem_mem _
    · intro hx
      obtain ⟨p, hp, rfl⟩ := List.mem_iff_getElem.1 hx
      obtain ⟨q, ⟨h1, h2, h3⟩, _⟩ := leader_unique_on_node node root hroot p hp
      refine ⟨q, ?_, ?_⟩
      · rw [Finset.mem_filter, Finset.mem_range]
        exact ⟨h1, h3⟩
      · rw [h2, List.getD_eq_getElem _ _ hp]
  rw [← Finset.card_image_of_injOn hinj, himg, List.card_toFinset]
  rfl

/-- C8: in the multi-node branch of `mca_coll_acoll_comm_split_init` on a
fresh hierarchy (`is_root_node` is 0 on entry), for every placement `node` of
the ranks on nodes and every root in `[0, N)`: the first group operation of
the rank `q`, whose node group holds the ranks of its node, is the split of
`comm` for `leader_comm` with key `q` and the colour
`placement_leader_color node root q`; this colour is 0 or 1, and it is 0
exactly when `q` is the root, or the node of `q` does not contain the root
and the node-local rank of `q` is 0; hence every node has exactly one rank of
colour 0, the ranks of colour 0 number `node_count node`, and on the node of
the root the rank of colour 0 is the root. -/
theorem leader_election (node : List Nat) (root : Nat) (hroot : root < node.length) :
    (∀ (env : HierEnv) (q : Nat) (b : Build), q < node.length → b.subc.is_root_node = 0 →
      b.subc.local_comm.ranks = members_by node q →
      ∃ l, (split_init_multi_node env (node.length : Int) (q : Int) (root : Int) b).ops =
        b.ops ++ CommOp.split Slot.leader_comm (comm_ranks (node.length : Int))
          (placement_leader_color node root q) (q : Int) :: l) ∧
    (∀ q, q < node.length →
      (placement_leader_color node root q = 0 ∨ placement_leader_color node root q = 1) ∧
      (placement_leader_color node root q = 0 ↔
        (q = root ∨ (node.getD q 0 ≠ node.getD root 0 ∧ placement_local_rank node q = 0)))) ∧
    (∀ p, p < node.length →
      ∃ q, (q < node.length ∧ node.getD q 0 = node.getD p 0 ∧
          placement_leader_color node root q = 0) ∧
        ∀ q', (q' < node.length ∧ node.getD q' 0 = node.getD p 0 ∧
          placement_leader_color node root q' = 0) → q' = q) ∧
    ((Finset.range node.length).filter
      (fun q => placement_leader_color node root q = 0)).card = node_count node ∧
    (∀ q, q < node.length → node.getD q 0 = node.getD root 0 →
      (placement_leader_color node root q = 0 ↔ q = root)) := by
  refine ⟨?_, ?_, leader_unique_on_node node root hroot, leaders_card node root hroot, ?_⟩
  · intro env q b _ hfresh hlocal
    obtain ⟨l, hl⟩ := split_init_multi_node_first_op env (node.length : Int) (q : Int) (root : Int) b
    refine ⟨l, ?_⟩
    rw [hl]
    have h1 : (multi_find_node_root env (node.length : Int) (root : Int) b).subc.is_root_node =
        placement_is_root_node node root q := by
      show (find_root (root : Int) (translate_ranks b.subc.local_comm.ranks
        (comm_ranks (node.length : Int))) 0 (b.subc.is_root_node, 0)).1 = _
      rw [hfresh, hlocal]
      rfl
    have h2 : ompi_comm_rank b.subc.local_comm (q : Int) = placement_local_rank node q := by
      unfold placement_local_rank ompi_comm_rank
      rw [hlocal]
    rw [h1, h2]
    rfl
  · intro q _
    exact ⟨placement_leader_color_values node root q, placement_leader_color_zero node root q hroot⟩
  · intro q _ hn
    rw [placement_leader_color_zero node root q hroot]
    constructor
    · rintro (h | ⟨h, _⟩)
      · exact h
      · exact absurd hn h
    · exact Or.inl

/-- Witness of C8: four ranks on two nodes (ranks 0, 1 on node 0 and ranks 2, 3
on node 1) and the root 3. -/
theorem leader_election_witness :
    (3 < [0, 0, 1, 1].length) ∧
    ((Finset.range [0, 0, 1, 1].length).filter
      (fun q => placement_leader_color [0, 0, 1, 1] 3 q = 0)).card = node_count [0, 0, 1, 1] ∧
    (∀ q, q < [0, 0, 1, 1].length → [0, 0, 1, 1].getD q 0 = [0, 0, 1, 1].getD 3 0 →
      (placement_leader_color [0, 0, 1, 1] 3 q = 0 ↔ q = 3)) ∧
    placement_leader_color [0, 0, 1, 1] 3 0 = 0 ∧ placement_leader_color [0, 0, 1, 1] 3 1 = 1 ∧
    placement_leader_color [0, 0, 1, 1] 3 2 = 1 ∧ placement_leader_color [0, 0, 1, 1] 3 3 = 0 :=
  ⟨by decide, (leader_election [0, 0, 1, 1] 3 (by decide)).2.2.2.1,
    (leader_election [0, 0, 1, 1] 3 (by decide)).2.2.2.2, by decide, by decide, by decide,
    by decide⟩

/-- C9 fails on the code: rank 0 of four ranks on two nodes (ranks 0, 1 on
one node, ranks 2, 3 on the other) builds with the root 0 and then with the
root 2. Both builds return `MPI_SUCCESS`. The first build sets `is_root_node`
to 1, and the second build never clears it: after the second build
`is_root_node` is still 1 although the root 2 is on the other node, the
colour rank 0 passes to the split for the leaders is 1, and `outer_grp_root`
is -1; a fresh build with the root 2 gives `is_root_node = 0`, the colour 0
and `outer_grp_root = 1`. The fields `local_root`, `socket_rank` and
`base_rank` agree. -/
theorem rebuild_keeps_stale_is_root_node :
    two_node_first_build.err = MPI_SUCCESS ∧ (two_node_first_build.subc 0).is_root_node = 1 ∧
    (mca_coll_acoll_comm_split_init two_node_env 100 0 4 0 0 2 two_node_first_build.subc
      two_node_first_build.c_coll).err = MPI_SUCCESS ∧
    (mca_coll_acoll_comm_split_init two_node_env 100 0 4 0 0 2 (fun _ => blank_subc)
      other_coll_table).err = MPI_SUCCESS ∧
    ((mca_coll_acoll_comm_split_init two_node_env 100 0 4 0 0 2 two_node_first_build.subc
      two_node_first_build.c_coll).subc 0).is_root_node = 1 ∧
    ((mca_coll_acoll_comm_split_init two_node_env 100 0 4 0 0 2 (fun _ => blank_subc)
      other_coll_table).subc 0).is_root_node = 0 ∧
    leader_split_colors (mca_coll_acoll_comm_split_init two_node_env 100 0 4 0 0 2
      two_node_first_build.subc two_node_first_build.c_coll).ops = [1] ∧
    leader_split_colors (mca_coll_acoll_comm_split_init two_node_env 100 0 4 0 0 2
      (fun _ => blank_subc) other_coll_table).ops = [0] ∧
    ((mca_coll_acoll_comm_split_init two_node_env 100 0 4 0 0 2 two_node_first_build.subc
      two_node_first_build.c_coll).subc 0).outer_grp_root = -1 ∧
    ((mca_coll_acoll_comm_split_init two_node_env 100 0 4 0 0 2 (fun _ => blank_subc)
      other_coll_table).subc 0).outer_grp_root = 1 ∧
    ((mca_coll_acoll_comm_split_init two_node_env 100 0 4 0 0 2 two_node_first_build.subc
      two_node_first_build.c_coll).subc 0).local_root =
      ((mca_coll_acoll_comm_split_init two_node_env 100 0 4 0 0 2 (fun _ => blank_subc)
        other_coll_table).subc 0).local_root ∧
    ((mca_coll_acoll_comm_split_init two_node_env 100 0 4 0 0 2 two_node_first_build.subc
      two_node_first_build.c_coll).subc 0).socket_rank =
      ((mca_coll_acoll_comm_split_init two_node_env 100 0 4 0 0 2 (fun _ => blank_subc)
        other_coll_table).subc 0).socket_rank ∧
    ((mca_coll_acoll_comm_split_init two_node_env 100 0 4 0 0 2 two_node_first_build.subc
      two_node_first_build.c_coll).subc 0).base_rank =
      ((mca_coll_acoll_comm_split_init two_node_env 100 0 4 0 0 2 (fun _ => blank_subc)
        other_coll_table).subc 0).base_rank := by
  decide

theorem finish_body_ops (root : Int) (coll_org : CollTable) (b : Build) :
    (finish_body root coll_org b).ops = b.ops := by
  unfold finish_body count_root_change
  simp only []
  split <;> rfl

theorem split_init_common_mem (b : Build) (h : b.subc.initialized ≠ 0) :
    CommOp.free Slot.socket_ldr_comm ∈ (split_init_common b).ops := by
  unfold split_init_common
  have h1 : CommOp.free Slot.socket_ldr_comm ∈ (free_leader_groups (reset_root_scalars b)).ops :=
    free_leader_groups_mem _ h
  exact rebuilds_mem (split_init_common_layer_rebuilds (fun _ => True) (fun _ => trivial) _ _) _
    (rebuilds_mem (split_init_common_layer_rebuilds (fun _ => True) (fun _ => trivial) _ _) _ h1)

theorem body_second_call_ops (env : HierEnv) (size rank cid root : Int) (b0 : Build)
    (h1 : b0.subc.initialized = 1) (hret : b0.returned = false) :
    CommOp.free Slot.socket_ldr_comm ∈ (comm_split_init_body env size rank cid root b0).ops ∧
    ∃ slot p c k, CommOp.split slot p c k ∈ (comm_split_init_body env size rank cid root b0).ops := by
  unfold comm_split_init_body
  lift_lets
  intro coll_org b1 b2 b3 coll_loc coll_soc b4 b5 b6 b7
  have i1 : b1.subc.initialized = 1 := h1
  have e2 : b2 = b1 := by
    show (if b1.subc.initialized = 0 then split_init_locality env size b1 else b1) = b1
    rw [if_neg (by rw [i1]; decide)]
  have r2 : b2.returned = false := by rw [e2]; exact hret
  have i2 : b2.subc.initialized ≠ 0 := by rw [e2, i1]; decide
  have m3 : CommOp.free Slot.socket_ldr_comm ∈ b3.ops := split_init_common_mem b2 i2
  have m4 : CommOp.free Slot.socket_ldr_comm ∈ b4.ops := m3
  have e5 : Rebuilds (fun _ => True) b4 b5 := by
    show Rebuilds (fun _ => True) b4 (if b4.subc.num_nodes > 1 then
      split_init_multi_node env size rank root b4 else split_init_single_node env size rank root b4)
    split
    · exact split_init_multi_node_rebuilds _ (fun _ _ _ _ _ => trivial) env size rank root b4
    · exact split_init_single_node_rebuilds _ (fun _ _ _ _ _ => trivial) env size rank root b4
  have m5 : CommOp.free Slot.socket_ldr_comm ∈ b5.ops := rebuilds_mem e5 _ m4
  have s5 : ∃ slot p c k, CommOp.split slot p c k ∈ b5.ops := by
    show ∃ slot p c k, CommOp.split slot p c k ∈ (if b4.subc.num_nodes > 1 then
      split_init_multi_node env size rank root b4
      else split_init_single_node env size rank root b4).ops
    split
    · obtain ⟨l, hl⟩ := split_init_multi_node_first_op env size rank root b4
      refine ⟨Slot.leader_comm, comm_ranks size,
        leader_color (multi_find_node_root env size root b4).subc.is_root_node
          (ompi_comm_rank b4.subc.local_comm rank) rank root, rank, ?_⟩
      rw [hl]
      exact List.mem_append_right _ (List.mem_cons_self _ _)
    · obtain ⟨c, l, hl⟩ := split_init_socket_leaders_first_op env root rank rank (comm_ranks size)
        true (single_init_local_root root b4)
      refine ⟨Slot.socket_ldr_comm, comm_ranks size, c, rank, ?_⟩
      unfold split_init_single_node
      rw [hl]
      exact List.mem_append_right _ (List.mem_cons_self _ _)
  have i6 : b6.subc.initialized = 1 := by
    have f5 : RootIndep b1.subc b5.subc := by
      have e3 : Rebuilds (fun _ => True) b2 b3 := split_init_common_rebuilds _ (fun _ => trivial) b2
      have e4 : Rebuilds (fun _ => True) b3 b4 := split_init_override_rebuilds _ b3
      rw [e2] at e3
      exact (rebuilds_trans e3 (rebuilds_trans e4 e5)).1
    exact f5.1.trans i1
  have e7 : b7 = b6 := by
    show (if b6.subc.initialized = 0 then split_init_rank_contiguous env size rank b6 else b6) = b6
    rw [if_neg (by rw [i6]; decide)]
  split
  · rename_i hr
    rw [r2] at hr
    exact absurd hr (by decide)
  · split
    · exact ⟨m5, s5⟩
    · split
      · rw [e7]; exact ⟨m5, s5⟩
      · rw [finish_body_ops, e7]; exact ⟨m5, s5⟩

theorem freed_slots_append (l1 l2 : List CommOp) :
    freed_slots (l1 ++ l2) = freed_slots l1 ++ freed_slots l2 := by
  induction l1 with
  | nil => rfl
  | cons op l ih => cases op <;> simp [freed_slots, ih]

theorem split_slots_append (l1 l2 : List CommOp) :
    split_slots (l1 ++ l2) = split_slots l1 ++ split_slots l2 := by
  induction l1 with
  | nil => rfl
  | cons op l ih => cases op <;> simp [split_slots, ih]

theorem freed_slots_of_no_free (l : List CommOp) (h : ∀ op ∈ l, ∀ s, op ≠ CommOp.free s) :
    freed_slots l = [] := by
  induction l with
  | nil => rfl
  | cons op l ih =>
    have ht := ih (fun o ho => h o (List.mem_cons_of_mem _ ho))
    cases op with
    | free s => exact absurd rfl (h _ (List.mem_cons_self _ _) s)
    | split_type t => simpa [freed_slots] using ht
    | allgather f n => simpa [freed_slots] using ht
    | split slot p c k => simpa [freed_slots] using ht

theorem extends_refl (b : Build) : Extends [] [] b b := ⟨[], by simp, rfl, rfl⟩

theorem extends_of_ops_eq (b b' : Build) (h : b'.ops = b.ops) : Extends [] [] b b' :=
  ⟨[], by simp [h], rfl, rfl⟩

theorem extends_trans {f1 s1 f2 s2 : List Slot} {a b c : Build} (h1 : Extends f1 s1 a b)
    (h2 : Extends f2 s2 b c) : Extends (f1 ++ f2) (s1 ++ s2) a c := by
  obtain ⟨l1, e1, a1, a2⟩ := h1
  obtain ⟨l2, e2, b1, b2⟩ := h2
  refine ⟨l1 ++ l2, by rw [e2, e1, List.append_assoc], ?_, ?_⟩
  · rw [freed_slots_append, a1, b1]
  · rw [split_slots_append, a2, b2]

theorem do_split_extends (env : HierEnv) (slot : Slot) (parent : List Int) (color key : Int)
    (b : Build) : Extends [] [slot] b (do_split env slot parent color key b) :=
  ⟨[CommOp.split slot parent color key], rfl, rfl, rfl⟩

theorem do_free_extends (slot : Slot) (b : Build) : Extends [slot] [] b (do_free slot b) :=
  ⟨[CommOp.free slot], rfl, rfl, rfl⟩

theorem create_base_comm_step_extends (env : HierEnv) (hs : splits_succeed env)
    (pc : PerLayer Comm) (color rank : Int) (root : PerLayer Int) (bl : BaseLayer) (i : Layer)
    (b : Build) :
    Extends [] [Slot.base_comm bl i] b (create_base_comm_step env pc color rank root bl i b) ∧
    (create_base_comm_step env pc color rank root bl i b).returned = b.returned := by
  have he : (do_split env (Slot.base_comm bl i) (pc.get i).ranks color rank b).err = MPI_SUCCESS :=
    hs _ _ _ _
  have h1 := do_split_extends env (Slot.base_comm bl i) (pc.get i).ranks color rank b
  have hne : ¬ (do_split env (Slot.base_comm bl i) (pc.get i).ranks color rank b).err ≠
      MPI_SUCCESS := fun h => h he
  unfold create_base_comm_step
  simp only []
  rw [if_neg hne]
  exact ⟨by simpa using extends_trans h1 (extends_of_ops_eq _ _ rfl), rfl⟩

theorem create_base_comm_returned (env : HierEnv) (pc : PerLayer Comm) (color rank : Int)
    (root : PerLayer Int) (bl : BaseLayer) (b : Build) :
    (mca_coll_acoll_create_base_comm env pc color rank root bl b).returned = false := by
  unfold mca_coll_acoll_create_base_comm
  simp only []
  split <;> rfl

theorem create_base_comm_extends (env : HierEnv) (hs : splits_succeed env)
    (pc : PerLayer Comm) (color rank : Int) (root : PerLayer Int) (bl : BaseLayer) (b : Build)
    (hr : b.returned = false) :
    Extends [] [Slot.base_comm bl Layer.node, Slot.base_comm bl Layer.socket] b
      (mca_coll_acoll_create_base_comm env pc color rank root bl b) := by
  obtain ⟨h1, r1⟩ := create_base_comm_step_extends env hs pc color rank root bl Layer.node b
  obtain ⟨h2, _⟩ := create_base_comm_step_extends env hs pc color rank root bl Layer.socket
    (create_base_comm_step env pc color rank root bl Layer.node b)
  have hnr : ¬ (create_base_comm_step env pc color rank root bl Layer.node b).returned = true := by
    rw [r1, hr]; decide
  unfold mca_coll_acoll_create_base_comm
  simp only []
  rw [if_neg hnr]
  simpa using extends_trans h1 (extends_trans h2 (extends_of_ops_eq _ _ rfl))

theorem split_init_base_groups_extends (env : HierEnv) (hs : splits_succeed env)
    (root key rank : Int) (grp : List Int) (numa_ldrs : Bool) (b : Build)
    (hr : b.returned = false) :
    Extends []
      ([Slot.base_comm BaseLayer.l3cache Layer.node, Slot.base_comm BaseLayer.l3cache Layer.socket]
        ++ (if numa_ldrs then [Slot.numa_comm_ldrs] else []) ++
        [Slot.base_comm BaseLayer.numa Layer.node, Slot.base_comm BaseLayer.numa Layer.socket])
      b (split_init_base_groups env root key rank grp numa_ldrs b) ∧
    (split_init_base_groups env root key rank grp numa_ldrs b).returned = false := by
  unfold split_init_base_groups
  lift_lets
  intro r b1 color pc b2 numa_rank color1 b3 r2 b4 color2
  have h1 : Extends [] [] b b1 := extends_of_ops_eq _ _ rfl
  have q1 : b1.returned = false := hr
  have h2 : Extends [] [Slot.base_comm BaseLayer.l3cache Layer.node,
      Slot.base_comm BaseLayer.l3cache Layer.socket] b1 b2 :=
    create_base_comm_extends env hs pc color key _ _ b1 q1
  have q2 : b2.returned = false := create_base_comm_returned env pc color key _ _ b1
  have h3 : Extends [] (if numa_ldrs then [Slot.numa_comm_ldrs] else []) b2 b3 ∧
      b3.returned = false := by
    show Extends [] (if numa_ldrs then [Slot.numa_comm_ldrs] else []) b2 (if numa_ldrs = true then
      do_split env Slot.numa_comm_ldrs b2.subc.local_comm.ranks color1 rank b2 else b2) ∧
      (if numa_ldrs = true then
        do_split env Slot.numa_comm_ldrs b2.subc.local_comm.ranks color1 rank b2 else b2).returned
        = false
    cases numa_ldrs with
    | true => exact ⟨do_split_extends env _ _ _ _ b2, q2⟩
    | false => exact ⟨extends_refl b2, q2⟩
  have h4 : Extends [] [] b3 b4 := extends_of_ops_eq _ _ rfl
  have q4 : b4.returned = false := h3.2
  have h5 := create_base_comm_extends env hs pc color2 key b4.subc.local_root BaseLayer.numa b4 q4
  refine ⟨?_, create_base_comm_returned env pc color2 key _ _ b4⟩
  simpa using extends_trans h1 (extends_trans h2 (extends_trans h3.1 (extends_trans h4 h5)))

theorem split_init_socket_leaders_extends (env : HierEnv) (hs : splits_succeed env)
    (root key rank : Int) (grp : List Int) (numa_ldrs : Bool) (b : Build)
    (hr : b.returned = false) :
    Extends []
      ([Slot.socket_ldr_comm,
        Slot.base_comm BaseLayer.l3cache Layer.node, Slot.base_comm BaseLayer.l3cache Layer.socket]
        ++ (if numa_ldrs then [Slot.numa_comm_ldrs] else []) ++
        [Slot.base_comm BaseLayer.numa Layer.node, Slot.base_comm BaseLayer.numa Layer.socket])
      b (split_init_socket_leaders env root key rank grp numa_ldrs b) := by
  unfold split_init_socket_leaders
  lift_lets
  intro r b1 color b2 r2
  have h1 : Extends [] [] b b1 := extends_of_ops_eq _ _ rfl
  have h2 : Extends [] [Slot.socket_ldr_comm] b1 b2 := do_split_extends env _ _ _ _ b1
  have he : b2.err = MPI_SUCCESS := hs _ _ _ _
  have rr : (store_socket_ldr_root r2 b2).returned = false := hr
  have hne : ¬ b2.err ≠ MPI_SUCCESS := fun h => h he
  rw [if_neg hne]
  have h3 := (split_init_base_groups_extends env hs root key rank grp numa_ldrs
    (store_socket_ldr_root r2 b2) rr).1
  have h23 : Extends [] [] b2 (store_socket_ldr_root r2 b2) := extends_of_ops_eq _ _ rfl
  simpa using extends_trans h1 (extends_trans h2 (extends_trans h23 h3))

theorem split_init_multi_node_extends (env : HierEnv) (hs : splits_succeed env)
    (size rank root : Int) (b : Build) (hr : b.returned = false) :
    Extends []
      [Slot.leader_comm, Slot.socket_ldr_comm,
        Slot.base_comm BaseLayer.l3cache Layer.node, Slot.base_comm BaseLayer.l3cache Layer.socket,
        Slot.base_comm BaseLayer.numa Layer.node, Slot.base_comm BaseLayer.numa Layer.socket]
      b (split_init_multi_node env size rank root b) := by
  unfold split_init_multi_node
  lift_lets
  intro local_rank b1 color b2 r b3 local_root
  have h1 : Extends [] [] b b1 := extends_of_ops_eq _ _ rfl
  have h2 : Extends [] [Slot.leader_comm] b1 b2 := do_split_extends env _ _ _ _ b1
  have he : b2.err = MPI_SUCCESS := hs _ _ _ _
  have rr : b3.returned = false := hr
  have hne : ¬ b2.err ≠ MPI_SUCCESS := fun h => h he
  rw [if_neg hne]
  have h3 := split_init_socket_leaders_extends env hs local_root local_rank rank
    b3.subc.local_comm.ranks false b3 rr
  have h23 : Extends [] [] b2 b3 := extends_of_ops_eq _ _ rfl
  simpa using extends_trans h1 (extends_trans h2 (extends_trans h23 h3))

theorem split_init_single_node_extends (env : HierEnv) (hs : splits_succeed env)
    (size rank root : Int) (b : Build) (hr : b.returned = false) :
    Extends []
      [Slot.socket_ldr_comm,
        Slot.base_comm BaseLayer.l3cache Layer.node, Slot.base_comm BaseLayer.l3cache Layer.socket,
        Slot.numa_comm_ldrs,
        Slot.base_comm BaseLayer.numa Layer.node, Slot.base_comm BaseLayer.numa Layer.socket]
      b (split_init_single_node env size rank root b) := by
  unfold split_init_single_node
  have h1 : Extends [] [] b (single_init_local_root root b) := extends_of_ops_eq _ _ rfl
  have h2 := split_init_socket_leaders_extends env hs root rank rank (comm_ranks size) true
    (single_init_local_root root b) hr
  simpa using extends_trans h1 h2

theorem split_init_common_extends (b : Build) (h : b.subc.initialized ≠ 0) :
    Extends (root_dependent_frees b.subc.num_nodes) [] b (split_init_common b) := by
  have i1 : (free_leader_groups (reset_root_scalars b)).subc.initialized ≠ 0 := by
    rw [(free_leader_groups_rebuilds (fun _ => True) (fun _ => trivial) _).1.1]
    exact h
  have i2 : (split_init_common_layer Layer.node
      (free_leader_groups (reset_root_scalars b))).subc.initialized ≠ 0 := by
    rw [(split_init_common_layer_rebuilds (fun _ => True) (fun _ => trivial) _ _).1.1]
    exact i1
  have h0 : Extends [] [] b (reset_root_scalars b) := extends_of_ops_eq _ _ rfl
  have h1 : Extends ((if b.subc.num_nodes > 1 then [Slot.leader_comm] else []) ++
      [Slot.socket_ldr_comm]) [] (reset_root_scalars b)
      (free_leader_groups (reset_root_scalars b)) := by
    have hi : (reset_root_scalars b).subc.initialized ≠ 0 := h
    have hn : (reset_root_scalars b).subc.num_nodes = b.subc.num_nodes := rfl
    unfold free_leader_groups
    rw [if_pos hi, hn]
    by_cases hc : b.subc.num_nodes > 1
    · rw [if_pos hc, if_pos hc]
      exact extends_trans (do_free_extends Slot.leader_comm _) (do_free_extends _ _)
    · rw [if_neg hc, if_neg hc]
      exact do_free_extends _ _
  have hl : ∀ (i : Layer) (c : Build), c.subc.initialized ≠ 0 →
      Extends [Slot.base_comm BaseLayer.l3cache i, Slot.base_comm BaseLayer.numa i] []
        c (split_init_common_layer i c) := by
    intro i c hc
    unfold split_init_common_layer
    rw [if_pos hc]
    simpa using extends_trans (do_free_extends (Slot.base_comm BaseLayer.l3cache i) c)
      (extends_trans (do_free_extends (Slot.base_comm BaseLayer.numa i)
          (do_free (Slot.base_comm BaseLayer.l3cache i) c))
        (extends_of_ops_eq
          (do_free (Slot.base_comm BaseLayer.numa i) (do_free (Slot.base_comm BaseLayer.l3cache i) c))
          (reset_base_root i (do_free (Slot.base_comm BaseLayer.numa i)
            (do_free (Slot.base_comm BaseLayer.l3cache i) c))) rfl))
  unfold split_init_common root_dependent_frees
  simpa using extends_trans h0 (extends_trans h1
    (extends_trans (hl Layer.node _ i1) (hl Layer.socket _ i2)))

theorem split_init_common_layer_returned (i : Layer) (b : Build) :
    (split_init_common_layer i b).returned = b.returned := by
  unfold split_init_common_layer
  split <;> rfl

theorem free_leader_groups_returned (b : Build) :
    (free_leader_groups b).returned = b.returned := by
  unfold free_leader_groups
  split
  · split <;> rfl
  · rfl

theorem split_init_common_returned (b : Build) :
    (split_init_common b).returned = b.returned := by
  unfold split_init_common
  rw [split_init_common_layer_returned, split_init_common_layer_returned,
    free_leader_groups_returned]
  rfl

theorem body_second_call_log (env : HierEnv) (size rank cid root : Int) (b0 : Build)
    (h1 : b0.subc.initialized = 1) (hret : b0.returned = false) :
    ∃ lf ls, (comm_split_init_body env size rank cid root b0).ops = b0.ops ++ lf ++ ls ∧
      freed_slots lf = root_dependent_frees b0.subc.num_nodes ∧ split_slots lf = [] ∧
      freed_slots ls = [] ∧
      (splits_succeed env → split_slots ls = root_dependent_splits b0.subc.num_nodes) := by
  unfold comm_split_init_body
  lift_lets
  intro coll_org b1 b2 b3 coll_loc coll_soc b4 b5 b6 b7
  have i1 : b1.subc.initialized = 1 := h1
  have e2 : b2 = b1 := by
    show (if b1.subc.initialized = 0 then split_init_locality env size b1 else b1) = b1
    rw [if_neg (by rw [i1]; decide)]
  have r2 : b2.returned = false := by rw [e2]; exact hret
  have i2 : b2.subc.initialized ≠ 0 := by rw [e2, i1]; decide
  have n2 : b2.subc.num_nodes = b0.subc.num_nodes := by rw [e2]; rfl
  have o2 : b2.ops = b0.ops := by rw [e2]; rfl
  obtain ⟨lf, hlf, f1, f2⟩ := split_init_common_extends b2 i2
  rw [o2] at hlf
  rw [n2] at f1
  have o4 : b4.ops = b0.ops ++ lf := hlf
  have e3 : Rebuilds (fun _ => True) b2 b3 := split_init_common_rebuilds _ (fun _ => trivial) b2
  have e4 : Rebuilds (fun _ => True) b3 b4 := split_init_override_rebuilds _ b3
  have n4 : b4.subc.num_nodes = b0.subc.num_nodes := (e4.1.2.1.trans e3.1.2.1).trans n2
  have r4 : b4.returned = false := by
    have a1 : b3.returned = b2.returned := split_init_common_returned b2
    exact a1.trans r2
  have e5 : Rebuilds (fun op => ∀ s, op ≠ CommOp.free s) b4 b5 := by
    show Rebuilds _ b4 (if b4.subc.num_nodes > 1 then
      split_init_multi_node env size rank root b4 else split_init_single_node env size rank root b4)
    split
    · exact split_init_multi_node_rebuilds _ (fun _ _ _ _ _ s h => by cases h) env size rank
        root b4
    · exact split_init_single_node_rebuilds _ (fun _ _ _ _ _ s h => by cases h) env size rank
        root b4
  obtain ⟨_, ls, hls, pls⟩ := e5
  have s5 : splits_succeed env → split_slots ls = root_dependent_splits b0.subc.num_nodes := by
    intro hs
    have x5 : Extends [] (root_dependent_splits b0.subc.num_nodes) b4 b5 := by
      show Extends _ _ b4 (if b4.subc.num_nodes > 1 then
        split_init_multi_node env size rank root b4
        else split_init_single_node env size rank root b4)
      unfold root_dependent_splits
      rw [← n4]
      by_cases hc : b4.subc.num_nodes > 1
      · rw [if_pos hc, if_pos hc, if_pos hc]
        exact split_init_multi_node_extends env hs size rank root b4 r4
      · rw [if_neg hc, if_neg hc, if_neg hc]
        exact split_init_single_node_extends env hs size rank root b4 r4
    obtain ⟨l, hl, _, hl2⟩ := x5
    have : l = ls := List.append_cancel_left (hl.symm.trans hls)
    rw [← this]
    exact hl2
  have o5 : b5.ops = b0.ops ++ lf ++ ls := by rw [hls, o4]
  have i6 : b6.subc.initialized = 1 := by
    have f5 : RootIndep b1.subc b5.subc := by
      have e5t : Rebuilds (fun _ => True) b4 b5 := by
        show Rebuilds (fun _ => True) b4 (if b4.subc.num_nodes > 1 then
          split_init_multi_node env size rank root b4
          else split_init_single_node env size rank root b4)
        split
        · exact split_init_multi_node_rebuilds _ (fun _ _ _ _ _ => trivial) env size rank root b4
        · exact split_init_single_node_rebuilds _ (fun _ _ _ _ _ => trivial) env size rank root b4
      rw [e2] at e3
      exact (rebuilds_trans e3 (rebuilds_trans e4 e5t)).1
    exact f5.1.trans i1
  have e7 : b7 = b6 := by
    show (if b6.subc.initialized = 0 then split_init_rank_contiguous env size rank b6 else b6) = b6
    rw [if_neg (by rw [i6]; decide)]
  have hfin : ∀ c : Build, c.ops = b5.ops →
      ∃ lf ls, c.ops = b0.ops ++ lf ++ ls ∧
        freed_slots lf = root_dependent_frees b0.subc.num_nodes ∧ split_slots lf = [] ∧
        freed_slots ls = [] ∧
        (splits_succeed env → split_slots ls = root_dependent_splits b0.subc.num_nodes) :=
    fun c hc => ⟨lf, ls, by rw [hc, o5], f1, f2, freed_slots_of_no_free ls pls, s5⟩
  split
  · rename_i hr
    rw [r2] at hr
    exact absurd hr (by decide)
  · split
    · exact hfin _ rfl
    · split
      · rw [e7]; exact hfin _ rfl
      · exact hfin _ (by rw [finish_body_ops, e7]; rfl)

theorem two_node_env_splits_succeed : splits_succeed two_node_env := by
  intro slot _ _ _
  cases slot <;> rfl

/-- C10, as amended: a call of `mca_coll_acoll_comm_split_init` for a group
(`cid` below the bound) whose hierarchy is initialized and whose recorded
previous root is the root of the call - as after a first, completed call with
the same root - performs no `ompi_comm_split_type`, no allgather and no split
for `local_r_comm`, and leaves `initialized = 1`, `num_nodes`, `subgrp_size`,
`derived_node_size`, `prev_init_root`, `num_root_change`, the members of the
node and socket groups, the L3-cache, NUMA and rank-contiguous groups and the
records of all other groups unchanged. But it is not a no-op: whatever the
system answers, it frees exactly the root-dependent groups - the group of
leaders when `num_nodes > 1`, the group of socket leaders and the four base
groups, in this order - and makes at least one `ompi_comm_split`; and when
every `ompi_comm_split` succeeds its splits write exactly, in order,
`leader_comm` (when `num_nodes > 1`), `socket_ldr_comm`, the two L3-cache base
groups, `numa_comm_ldrs` (when `num_nodes ≤ 1`) and the two NUMA base groups,
so that every group it freed is created again. -/
theorem second_build_same_root (env : HierEnv) (max_cid err0 size rank cid root : Int)
    (subc : Int → Subcomms) (c_coll : CollTable) (hcid : cid < max_cid)
    (hinit : (subc cid).initialized = 1) (hprev : (subc cid).prev_init_root = root) :
    ((∀ t, CommOp.split_type t ∉
        (mca_coll_acoll_comm_split_init env max_cid err0 size rank cid root subc c_coll).ops) ∧
      (∀ f n, CommOp.allgather f n ∉
        (mca_coll_acoll_comm_split_init env max_cid err0 size rank cid root subc c_coll).ops) ∧
      (∀ p c k, CommOp.split Slot.local_r_comm p c k ∉
        (mca_coll_acoll_comm_split_init env max_cid err0 size rank cid root subc c_coll).ops)) ∧
    (((mca_coll_acoll_comm_split_init env max_cid err0 size rank cid root subc c_coll).subc
        cid).initialized = 1 ∧
      ((mca_coll_acoll_comm_split_init env max_cid err0 size rank cid root subc c_coll).subc
        cid).prev_init_root = root ∧
      RootIndep (subc cid)
        ((mca_coll_acoll_comm_split_init env max_cid err0 size rank cid root subc c_coll).subc cid) ∧
      (∀ c, c ≠ cid →
        (mca_coll_acoll_comm_split_init env max_cid err0 size rank cid root subc c_coll).subc c =
          subc c)) ∧
    (freed_slots
        (mca_coll_acoll_comm_split_init env max_cid err0 size rank cid root subc c_coll).ops =
        root_dependent_frees (subc cid).num_nodes ∧
      (∃ slot p c k, CommOp.split slot p c k ∈
        (mca_coll_acoll_comm_split_init env max_cid err0 size rank cid root subc c_coll).ops) ∧
      (splits_succeed env →
        split_slots
          (mca_coll_acoll_comm_split_init env max_cid err0 size rank cid root subc c_coll).ops =
          root_dependent_splits (subc cid).num_nodes)) := by
  have hnot : ¬ cid ≥ max_cid := by omega
  obtain ⟨lf, ls, hlog, f1, f2, f3, f4⟩ := body_second_call_log env size rank cid root
    { subc := subc cid, c_coll := c_coll, ops := [], err := err0, returned := false,
      stuck := false } hinit rfl
  simp only [List.nil_append] at hlog
  have hR := body_rebuilds env size rank cid root
    { subc := subc cid, c_coll := c_coll, ops := [], err := err0, returned := false,
      stuck := false } hinit hprev
  have hM := body_second_call_ops env size rank cid root
    { subc := subc cid, c_coll := c_coll, ops := [], err := err0, returned := false,
      stuck := false } hinit rfl
  obtain ⟨hF, l, hl, hP⟩ := hR
  have hops : (mca_coll_acoll_comm_split_init env max_cid err0 size rank cid root subc c_coll).ops
      = (comm_split_init_body env size rank cid root
          { subc := subc cid, c_coll := c_coll, ops := [], err := err0, returned := false,
            stuck := false }).ops := by
    unfold mca_coll_acoll_comm_split_init
    rw [if_neg hnot]
  have hsub : (mca_coll_acoll_comm_split_init env max_cid err0 size rank cid root subc c_coll).subc
      = Function.update subc cid (comm_split_init_body env size rank cid root
          { subc := subc cid, c_coll := c_coll, ops := [], err := err0, returned := false,
            stuck := false }).subc := by
    unfold mca_coll_acoll_comm_split_init
    rw [if_neg hnot]
  rw [hops, hsub, Function.update_same]
  have hl2 : (comm_split_init_body env size rank cid root
      { subc := subc cid, c_coll := c_coll, ops := [], err := err0, returned := false,
        stuck := false }).ops = l := by
    rw [hl]; rfl
  refine ⟨⟨?_, ?_, ?_⟩, ⟨hF.1.trans hinit, hF.2.2.2.2.1.trans hprev, hF, ?_⟩, ?_, hM.2, ?_⟩
  · intro t ht
    rw [hl2] at ht
    exact hP _ ht
  · intro f n ht
    rw [hl2] at ht
    exact hP _ ht
  · intro p c k ht
    rw [hl2] at ht
    exact hP _ ht rfl
  · intro c hc
    exact Function.update_noteq hc _ _
  · rw [hlog, freed_slots_append, f1, f3, List.append_nil]
  · intro hs
    rw [hlog, split_slots_append, f2, f4 hs, List.nil_append]

/-- Witness of C10 as amended: rank 0 of four ranks on two nodes, after its
first build with the root 0, builds again with the root 0, every split
succeeding. -/
theorem second_build_same_root_witness :
    ((0 : Int) < 100 ∧ (two_node_first_build.subc 0).initialized = 1 ∧
      (two_node_first_build.subc 0).prev_init_root = 0 ∧ splits_succeed two_node_env) ∧
    (freed_slots
        (mca_coll_acoll_comm_split_init two_node_env 100 0 4 0 0 0 two_node_first_build.subc
          two_node_first_build.c_coll).ops =
        root_dependent_frees (two_node_first_build.subc 0).num_nodes ∧
      (∃ slot p c k, CommOp.split slot p c k ∈
        (mca_coll_acoll_comm_split_init two_node_env 100 0 4 0 0 0 two_node_first_build.subc
          two_node_first_build.c_coll).ops) ∧
      split_slots
          (mca_coll_acoll_comm_split_init two_node_env 100 0 4 0 0 0 two_node_first_build.subc
            two_node_first_build.c_coll).ops =
        root_dependent_splits (two_node_first_build.subc 0).num_nodes) :=
  ⟨⟨by decide, by decide, by decide, two_node_env_splits_succeed⟩,
    (second_build_same_root two_node_env 100 0 4 0 0 0 two_node_first_build.subc
      two_node_first_build.c_coll (by decide) (by decide) (by decide)).2.2.1,
    (second_build_same_root two_node_env 100 0 4 0 0 0 two_node_first_build.subc
      two_node_first_build.c_coll (by decide) (by decide) (by decide)).2.2.2.1,
    (second_build_same_root two_node_env 100 0 4 0 0 0 two_node_first_build.subc
      two_node_first_build.c_coll (by decide) (by decide) (by decide)).2.2.2.2
      two_node_env_splits_succeed⟩

/-- C10 fails as stated: rank 0 of four ranks on two nodes builds the
hierarchy with the root 0, successfully, and then calls the builder again
with the same root 0. The second call frees the six root-dependent groups
and makes six group splits. -/
theorem second_build_splits_again :
    two_node_first_build.err = MPI_SUCCESS ∧
    (two_node_first_build.subc 0).initialized = 1 ∧
    (two_node_first_build.subc 0).prev_init_root = 0 ∧
    (mca_coll_acoll_comm_split_init two_node_env 100 0 4 0 0 0 two_node_first_build.subc
      two_node_first_build.c_coll).ops =
      [CommOp.free Slot.leader_comm, CommOp.free Slot.socket_ldr_comm,
        CommOp.free (Slot.base_comm BaseLayer.l3cache Layer.node),
        CommOp.free (Slot.base_comm BaseLayer.numa Layer.node),
        CommOp.free (Slot.base_comm BaseLayer.l3cache Layer.socket),
        CommOp.free (Slot.base_comm BaseLayer.numa Layer.socket),
        CommOp.split Slot.leader_comm [0, 1, 2, 3] 0 0,
        CommOp.split Slot.socket_ldr_comm [0, 1] 0 0,
        CommOp.split (Slot.base_comm BaseLayer.l3cache Layer.node) [0, 1] 0 0,
        CommOp.split (Slot.base_comm BaseLayer.l3cache Layer.socket) [0, 1] 0 0,
        CommOp.split (Slot.base_comm BaseLayer.numa Layer.node) [0, 1] 0 0,
        CommOp.split (Slot.base_comm BaseLayer.numa Layer.socket) [0, 1] 0 0] := by
  decide

/-- The second call of the example when the system fails the split for the
group of leaders (code `-1`): the six root-dependent groups are freed, the
one split is attempted, and the call returns `-1` with none of them created
again. -/
theorem second_build_failed_split_leaves_freed :
    (two_node_first_build.subc 0).initialized = 1 ∧
    (two_node_first_build.subc 0).prev_init_root = 0 ∧
    (mca_coll_acoll_comm_split_init (failing_split two_node_env Slot.leader_comm (-1)) 100 0 4 0 0 0
      two_node_first_build.subc two_node_first_build.c_coll).ops =
      [CommOp.free Slot.leader_comm, CommOp.free Slot.socket_ldr_comm,
        CommOp.free (Slot.base_comm BaseLayer.l3cache Layer.node),
        CommOp.free (Slot.base_comm BaseLayer.numa Layer.node),
        CommOp.free (Slot.base_comm BaseLayer.l3cache Layer.socket),
        CommOp.free (Slot.base_comm BaseLayer.numa Layer.socket),
        CommOp.split Slot.leader_comm [0, 1, 2, 3] 0 0] ∧
    (mca_coll_acoll_comm_split_init (failing_split two_node_env Slot.leader_comm (-1)) 100 0 4 0 0 0
      two_node_first_build.subc two_node_first_build.c_coll).err = -1 := by
  decide

theorem call_results_append (pml : Pml) :
    ∀ (xs done : List PmlCall) (c : PmlCall),
      call_results pml done (xs ++ [c]) = call_results pml done xs ++ [pml (done ++ xs) c] := by
  intro xs
  induction xs with
  | nil => intro done c; simp [call_results]
  | cons x xs ih =>
    intro done c
    show pml done x :: call_results pml (done ++ [x]) (xs ++ [c]) =
      pml done x :: call_results pml (done ++ [x]) xs ++ [pml (done ++ x :: xs) c]
    rw [ih]
    simp

theorem all_calls_ok_result (pml : Pml) (err0 : Int) (st : BcastOut)
    (h : all_calls_ok pml err0 st) : result_of_last_call pml err0 st := by
  obtain ⟨h1, h2 | h2⟩ := h
  · exact Or.inl h2
  · right
    obtain ⟨init, c, hc⟩ : ∃ init c, st.calls = init ++ [c] :=
      ⟨st.calls.dropLast, st.calls.getLast h2.1, (List.dropLast_append_getLast h2.1).symm⟩
    rw [hc, call_results_append] at h1
    refine ⟨init, c, hc, ?_, ?_⟩
    · rw [h2.2]
      have := h1 (pml ([] ++ init) c) (List.mem_append_right _ (List.mem_singleton_self _))
      simpa using this.symm
    · intro r hr
      exact h1 r (List.mem_append_left _ hr)

theorem step_calls_ok (pml : Pml) (err0 : Int) (st : BcastOut) (c : PmlCall) (k : Int)
    (h : all_calls_ok pml err0 st) :
    (pml st.calls c ≠ MPI_SUCCESS →
      result_of_last_call pml err0
        { st with err := pml st.calls c, nreqs := k, calls := st.calls ++ [c] }) ∧
    (¬ pml st.calls c ≠ MPI_SUCCESS →
      all_calls_ok pml err0
        { st with err := pml st.calls c, nreqs := k, calls := st.calls ++ [c] }) := by
  constructor
  · intro _
    exact Or.inr ⟨st.calls, c, rfl, rfl, h.1⟩
  · intro hok
    have hok2 : pml st.calls c = MPI_SUCCESS := by
      by_contra hne
      exact hok hne
    refine ⟨?_, Or.inr ⟨by simp, hok2⟩⟩
    intro r hr
    simp only [call_results_append, List.nil_append, List.mem_append, List.mem_singleton] at hr
    rcases hr with hr | hr
    · exact h.1 r hr
    · rw [hr, hok2]

theorem result_of_undefined (pml : Pml) (err0 : Int) (st : BcastOut)
    (h : all_calls_ok pml err0 st) :
    result_of_last_call pml err0 { st with undefined := true } :=
  all_calls_ok_result pml err0 { st with undefined := true } h

theorem log_send_body_result (pml : Pml) (err0 : Int)
    (rank size sg_size cur_base sg_start sub_rank end_peer mask : Int) (st : BcastOut)
    (h : all_calls_ok pml err0 st) :
    ((log_send_body pml rank size sg_size cur_base sg_start sub_rank end_peer mask st).2 = true →
      result_of_last_call pml err0
        (log_send_body pml rank size sg_size cur_base sg_start sub_rank end_peer mask st).1) ∧
    ((log_send_body pml rank size sg_size cur_base sg_start sub_rank end_peer mask st).2 = false →
      all_calls_ok pml err0
        (log_send_body pml rank size sg_size cur_base sg_start sub_rank end_peer mask st).1) := by
  unfold log_send_body
  simp only []
  by_cases h1 : bit_or sub_rank mask ≥ sg_size
  · rw [if_pos h1]
    exact ⟨fun e => absurd e (by simp), fun _ => h⟩
  · rw [if_neg h1]
    cases (if bit_or sub_rank mask ≥ end_peer then
        log_remap (bit_or sub_rank mask) sg_size cur_base sg_start
        else int_add (bit_or sub_rank mask) cur_base) with
    | none =>
      exact ⟨fun _ => result_of_undefined pml err0 st h, fun e => absurd e (by simp)⟩
    | some p =>
      simp only []
      by_cases h2 : p < size ∧ p ≠ rank ∧ p ≠ cur_base
      · rw [if_pos h2]
        cases int_add st.nreqs 1 with
        | none =>
          exact ⟨fun _ => result_of_undefined pml err0 st h, fun e => absurd e (by simp)⟩
        | some k =>
          simp only []
          constructor
          · intro e
            exact (step_calls_ok pml err0 st _ k h).1 (of_decide_eq_true e)
          · intro e
            exact (step_calls_ok pml err0 st _ k h).2 (of_decide_eq_false e)
      · rw [if_neg h2]
        exact ⟨fun e => absurd e (by simp), fun _ => h⟩

theorem log_send_loop_result (pml : Pml) (err0 : Int)
    (rank size sg_size cur_base sg_start sub_rank end_peer : Int) :
    ∀ (n : Nat) (mask : Int) (st : BcastOut), all_calls_ok pml err0 st →
      result_of_last_call pml err0
        (log_send_loop pml rank size sg_size cur_base sg_start sub_rank end_peer n mask st) := by
  intro n
  induction n with
  | zero =>
    intro mask st h
    rw [log_send_loop]
    exact all_calls_ok_result pml err0 st h
  | succ n ih =>
    intro mask st h
    have hb := log_send_body_result pml err0 rank size sg_size cur_base sg_start sub_rank
      end_peer mask st h
    rw [log_send_loop]
    simp only []
    cases hr : (log_send_body pml rank size sg_size cur_base sg_start sub_rank end_peer
        mask st).2 with
    | true =>
      simp only [if_true]
      exact hb.1 hr
    | false =>
      simp only [Bool.false_eq_true, if_false]
      cases int_shl mask 1 with
      | none => exact result_of_undefined pml err0 _ (hb.2 hr)
      | some m => exact ih m _ (hb.2 hr)

theorem lin_send_loop_result (pml : Pml) (err0 : Int) (cur_base : Int) :
    ∀ (n : Nat) (peer : Int) (st : BcastOut), all_calls_ok pml err0 st →
      result_of_last_call pml err0 (lin_send_loop pml cur_base n peer st) := by
  intro n
  induction n with
  | zero =>
    intro peer st h
    rw [lin_send_loop]
    exact all_calls_ok_result pml err0 st h
  | succ n ih =>
    intro peer st h
    rw [lin_send_loop]
    by_cases h1 : peer = cur_base
    · rw [if_pos h1]
      cases int_add peer 1 with
      | none => exact result_of_undefined pml err0 st h
      | some p => exact ih p st h
    · rw [if_neg h1]
      cases int_add st.nreqs 1 with
      | none => exact result_of_undefined pml err0 st h
      | some k =>
        simp only []
        by_cases h3 : pml st.calls (PmlCall.isend peer) ≠ MPI_SUCCESS
        · rw [if_pos h3]
          exact (step_calls_ok pml err0 st _ k h).1 h3
        · rw [if_neg h3]
          cases int_add peer 1 with
          | none => exact result_of_undefined pml err0 _ ((step_calls_ok pml err0 st _ k h).2 h3)
          | some p => exact ih p _ ((step_calls_ok pml err0 st _ k h).2 h3)

theorem all_calls_ok_start (pml : Pml) (err0 nreqs : Int) :
    all_calls_ok pml err0 { err := err0, nreqs := nreqs, calls := [] } :=
  ⟨by simp [call_results], Or.inl ⟨rfl, rfl⟩⟩

theorem all_calls_ok_first (pml : Pml) (err0 nreqs : Int) (c : PmlCall)
    (h : ¬ pml [] c ≠ MPI_SUCCESS) :
    all_calls_ok pml err0 { err := pml [] c, nreqs := nreqs, calls := [c] } := by
  have hok : pml [] c = MPI_SUCCESS := by
    by_contra hne
    exact h hne
  refine ⟨?_, Or.inr ⟨by simp, hok⟩⟩
  intro r hr
  simp only [call_results, List.mem_singleton] at hr
  rw [hr, hok]

theorem log_sends_result (pml : Pml) (err0 : Int)
    (rank dim size sg_size cur_base sg_start sub_rank end_peer msb_pos : Int) (st : BcastOut)
    (h : all_calls_ok pml err0 st) :
    result_of_last_call pml err0
      (log_sends pml rank dim size sg_size cur_base sg_start sub_rank end_peer msb_pos st) := by
  unfold log_sends
  cases int_add msb_pos 1 with
  | none => exact result_of_undefined pml err0 st h
  | some i =>
    simp only []
    cases int_shl 1 i with
    | none => exact result_of_undefined pml err0 st h
    | some mask => exact log_send_loop_result pml err0 _ _ _ _ _ _ _ _ _ _ h

theorem log_result_of_last_call (pml : Pml) (err0 rank dim size sg_size cur_base sg_start nreqs : Int) :
    result_of_last_call pml err0
      (log_sg_bcast_intra pml err0 rank dim size sg_size cur_base sg_start nreqs) := by
  have hs := all_calls_ok_start pml err0 nreqs
  unfold log_sg_bcast_intra
  simp only []
  cases log_window rank size sg_size cur_base sg_start with
  | none => exact result_of_undefined pml err0 _ hs
  | some v =>
    obtain ⟨end_peer, sub_rank⟩ := v
    simp only []
    cases int_sub dim 1 with
    | none => exact result_of_undefined pml err0 _ hs
    | some d =>
      simp only []
      by_cases h1 : sub_rank > 0
      · rw [if_pos h1]
        cases log_parent sg_size cur_base sg_start sub_rank end_peer
            (opal_hibit sub_rank dim) with
        | none => exact result_of_undefined pml err0 _ hs
        | some p =>
          simp only []
          by_cases h3 : pml [] (PmlCall.recv p) ≠ MPI_SUCCESS
          · rw [if_pos h3]
            exact Or.inr ⟨[], _, rfl, rfl, by simp [call_results]⟩
          · rw [if_neg h3]
            exact log_sends_result pml err0 _ _ _ _ _ _ _ _ _ _
              (all_calls_ok_first pml err0 nreqs _ h3)
      · rw [if_neg h1]
        exact log_sends_result pml err0 _ _ _ _ _ _ _ _ _ _ hs

theorem lin_result_of_last_call (pml : Pml) (err0 rank dim size sg_size cur_base sg_start nreqs : Int) :
    result_of_last_call pml err0
      (lin_sg_bcast_intra pml err0 rank dim size sg_size cur_base sg_start nreqs) := by
  have hs := all_calls_ok_start pml err0 nreqs
  unfold lin_sg_bcast_intra
  simp only []
  cases lin_sg_end size sg_size sg_start with
  | none => exact result_of_undefined pml err0 _ hs
  | some sg_end =>
    simp only []
    split
    · exact lin_send_loop_result pml err0 _ _ _ _ hs
    · exact Or.inr ⟨[], _, rfl, rfl, by simp [call_results]⟩

/-- C6 fails on the code: the root of a window of size 1 makes no transport
call, in the tree variant and in the linear variant alike, and both return the
value of the local `err`, which was never assigned: whatever value `err0` the
uninitialised variable holds is returned, and it need not be `MPI_SUCCESS`.
Apart from that the claim holds: for every transport and every input, the
value either variant returns is the result code of the last call it made, and
every call before the last succeeded; so a call that makes a transport call
returns `MPI_SUCCESS` when none fails and otherwise the code of the first
failing call, after which it makes no call. -/
theorem bcast_no_call_returns_uninitialised :
    (∀ err0 : Int,
      log_sg_bcast_intra pml_ok err0 0 0 1 1 0 0 0 = { err := err0, nreqs := 0, calls := [] } ∧
      lin_sg_bcast_intra pml_ok err0 0 0 1 1 0 0 0 = { err := err0, nreqs := 0, calls := [] }) ∧
    (log_sg_bcast_intra pml_ok 7 0 0 1 1 0 0 0).err ≠ MPI_SUCCESS ∧
    (lin_sg_bcast_intra pml_ok 7 0 0 1 1 0 0 0).err ≠ MPI_SUCCESS ∧
    (∀ (pml : Pml) (err0 rank dim size sg_size cur_base sg_start nreqs : Int),
      result_of_last_call pml err0
        (log_sg_bcast_intra pml err0 rank dim size sg_size cur_base sg_start nreqs) ∧
      result_of_last_call pml err0
        (lin_sg_bcast_intra pml err0 rank dim size sg_size cur_base sg_start nreqs)) := by
  refine ⟨fun err0 => ⟨rfl, rfl⟩, by decide, by decide, ?_⟩
  intro pml err0 rank dim size sg_size cur_base sg_start nreqs
  exact ⟨log_result_of_last_call pml err0 rank dim size sg_size cur_base sg_start nreqs,
    lin_result_of_last_call pml err0 rank dim size sg_size cur_base sg_start nreqs⟩

theorem set_slot_is_root_node (s : Subcomms) (slot : Slot) (c : Comm) :
    (s.set_slot slot c).is_root_node = s.is_root_node := by
  cases slot <;> rfl

theorem do_split_is_root_node (env : HierEnv) (slot : Slot) (parent : List Int) (color key : Int)
    (b : Build) : (do_split env slot parent color key b).subc.is_root_node = b.subc.is_root_node :=
  set_slot_is_root_node _ _ _

theorem do_free_is_root_node (slot : Slot) (b : Build) :
    (do_free slot b).subc.is_root_node = b.subc.is_root_node :=
  set_slot_is_root_node _ _ _

theorem create_base_comm_step_is_root_node (env : HierEnv) (pc : PerLayer Comm) (color rank : Int)
    (root : PerLayer Int) (bl : BaseLayer) (i : Layer) (b : Build) :
    (create_base_comm_step env pc color rank root bl i b).subc.is_root_node =
      b.subc.is_root_node := by
  unfold create_base_comm_step
  simp only []
  split
  · exact do_split_is_root_node _ _ _ _ _ _
  · exact do_split_is_root_node _ _ _ _ _ _

theorem create_base_comm_is_root_node (env : HierEnv) (pc : PerLayer Comm) (color rank : Int)
    (root : PerLayer Int) (bl : BaseLayer) (b : Build) :
    (mca_coll_acoll_create_base_comm env pc color rank root bl b).subc.is_root_node =
      b.subc.is_root_node := by
  unfold mca_coll_acoll_create_base_comm
  simp only []
  split
  · exact create_base_comm_step_is_root_node _ _ _ _ _ _ _ _
  · exact (create_base_comm_step_is_root_node _ _ _ _ _ _ _ _).trans
      (create_base_comm_step_is_root_node _ _ _ _ _ _ _ _)

theorem split_init_base_groups_is_root_node (env : HierEnv) (root key rank : Int)
    (grp : List Int) (numa_ldrs : Bool) (b : Build) :
    (split_init_base_groups env root key rank grp numa_ldrs b).subc.is_root_node =
      b.subc.is_root_node := by
  unfold split_init_base_groups
  lift_lets
  intro r b1 color pc b2 numa_rank color1 b3 r2 b4 color2
  have h1 : b1.subc.is_root_node = b.subc.is_root_node := rfl
  have h2 : b2.subc.is_root_node = b1.subc.is_root_node :=
    create_base_comm_is_root_node _ _ _ _ _ _ _
  have h3 : b3.subc.is_root_node = b2.subc.is_root_node := by
    show (if numa_ldrs = true then
      do_split env Slot.numa_comm_ldrs b2.subc.local_comm.ranks color1 rank b2
      else b2).subc.is_root_node = _
    split
    · exact do_split_is_root_node _ _ _ _ _ _
    · rfl
  have h4 : b4.subc.is_root_node = b3.subc.is_root_node := rfl
  rw [create_base_comm_is_root_node, h4, h3, h2, h1]

theorem split_init_socket_leaders_is_root_node (env : HierEnv) (root key rank : Int)
    (grp : List Int) (numa_ldrs : Bool) (b : Build) :
    (split_init_socket_leaders env root key rank grp numa_ldrs b).subc.is_root_node =
      b.subc.is_root_node := by
  unfold split_init_socket_leaders
  lift_lets
  intro r b1 color b2 r2
  have h2 : b2.subc.is_root_node = b.subc.is_root_node := do_split_is_root_node _ _ _ _ _ _
  split
  · exact h2
  · rw [split_init_base_groups_is_root_node]
    exact h2

theorem multi_find_node_root_keeps (env : HierEnv) (size root : Int) (b : Build)
    (h : b.subc.is_root_node = 1) : (multi_find_node_root env size root b).subc.is_root_node = 1 := by
  show (find_root root (translate_ranks b.subc.local_comm.ranks (comm_ranks size)) 0
    (b.subc.is_root_node, 0)).1 = 1
  rw [find_root_fst, h]
  split <;> rfl

theorem split_init_multi_node_keeps (env : HierEnv) (size rank root : Int) (b : Build)
    (h : b.subc.is_root_node = 1) :
    (split_init_multi_node env size rank root b).subc.is_root_node = 1 := by
  unfold split_init_multi_node
  lift_lets
  intro local_rank b1 color b2 r b3 local_root
  have h1 : b1.subc.is_root_node = 1 := multi_find_node_root_keeps env size root b h
  have h2 : b2.subc.is_root_node = 1 := (do_split_is_root_node _ _ _ _ _ _).trans h1
  split
  · exact h2
  · rw [split_init_socket_leaders_is_root_node]
    exact h2

theorem split_init_single_node_is_root_node (env : HierEnv) (size rank root : Int) (b : Build) :
    (split_init_single_node env size rank root b).subc.is_root_node = b.subc.is_root_node := by
  unfold split_init_single_node
  rw [split_init_socket_leaders_is_root_node]
  rfl

theorem split_init_common_layer_is_root_node (i : Layer) (b : Build) :
    (split_init_common_layer i b).subc.is_root_node = b.subc.is_root_node := by
  unfold split_init_common_layer
  split
  · show (do_free (Slot.base_comm BaseLayer.numa i)
      (do_free (Slot.base_comm BaseLayer.l3cache i) b)).subc.is_root_node = _
    rw [do_free_is_root_node, do_free_is_root_node]
  · rfl

theorem free_leader_groups_is_root_node (b : Build) :
    (free_leader_groups b).subc.is_root_node = b.subc.is_root_node := by
  unfold free_leader_groups
  split
  · split
    · rw [do_free_is_root_node, do_free_is_root_node]
    · rw [do_free_is_root_node]
  · rfl

theorem split_init_common_is_root_node (b : Build) :
    (split_init_common b).subc.is_root_node = b.subc.is_root_node := by
  unfold split_init_common
  rw [split_init_common_layer_is_root_node, split_init_common_layer_is_root_node,
    free_leader_groups_is_root_node]
  rfl

theorem do_split_type_is_root_node (env : HierEnv) (t : SplitType) (b : Build) :
    (do_split_type env t b).subc.is_root_node = b.subc.is_root_node := by
  cases t <;> rfl

theorem derive_nodes_is_root_node (env : HierEnv) (size : Int) (b : Build) :
    (derive_nodes env size b).subc.is_root_node = b.subc.is_root_node := by
  unfold derive_nodes
  simp only []
  split
  · rfl
  · split
    · rfl
    · split <;> rfl

theorem split_init_locality_is_root_node (env : HierEnv) (size : Int) (b : Build) :
    (split_init_locality env size b).subc.is_root_node = b.subc.is_root_node := by
  unfold split_init_locality
  lift_lets
  intro b1 b2 b3 b4
  have h1 : b1.subc.is_root_node = b.subc.is_root_node := do_split_type_is_root_node _ _ _
  have h2 : b2.subc.is_root_node = b.subc.is_root_node :=
    (do_split_type_is_root_node _ _ _).trans h1
  have h3 : b3.subc.is_root_node = b.subc.is_root_node :=
    (do_split_type_is_root_node _ _ _).trans h2
  have h4 : b4.subc.is_root_node = b.subc.is_root_node :=
    (do_split_type_is_root_node _ _ _).trans h3
  split
  · exact h1
  · split
    · exact h2
    · split
      · exact h3
      · split
        · exact h4
        · rw [derive_nodes_is_root_node]
          exact h4

theorem split_init_rank_contiguous_is_root_node (env : HierEnv) (size rank : Int) (b : Build) :
    (split_init_rank_contiguous env size rank b).subc.is_root_node = b.subc.is_root_node := by
  have h1 : (split_local_r env size rank b).subc.is_root_node = b.subc.is_root_node :=
    do_split_is_root_node _ _ _ _ _ _
  unfold split_init_rank_contiguous
  split
  · split
    · exact h1
    · exact h1
  · rfl

theorem finish_body_is_root_node (root : Int) (coll_org : CollTable) (b : Build) :
    (finish_body root coll_org b).subc.is_root_node = b.subc.is_root_node := by
  unfold finish_body count_root_change
  simp only []
  split <;> rfl

theorem body_keeps_is_root_node (env : HierEnv) (size rank cid root : Int) (b0 : Build)
    (h : b0.subc.is_root_node = 1) :
    (comm_split_init_body env size rank cid root b0).subc.is_root_node = 1 := by
  unfold comm_split_init_body
  lift_lets
  intro coll_org b1 b2 b3 coll_loc coll_soc b4 b5 b6 b7
  have h1 : b1.subc.is_root_node = 1 := h
  have h2 : b2.subc.is_root_node = 1 := by
    show (if b1.subc.initialized = 0 then split_init_locality env size b1
      else b1).subc.is_root_node = 1
    split
    · rw [split_init_locality_is_root_node]; exact h1
    · exact h1
  have h3 : b3.subc.is_root_node = 1 := (split_init_common_is_root_node b2).trans h2
  have h4 : b4.subc.is_root_node = 1 := h3
  have h5 : b5.subc.is_root_node = 1 := by
    show (if b4.subc.num_nodes > 1 then split_init_multi_node env size rank root b4
      else split_init_single_node env size rank root b4).subc.is_root_node = 1
    split
    · exact split_init_multi_node_keeps env size rank root b4 h4
    · rw [split_init_single_node_is_root_node]; exact h4
  have h6 : b6.subc.is_root_node = 1 := h5
  have h7 : b7.subc.is_root_node = 1 := by
    show (if b6.subc.initialized = 0 then split_init_rank_contiguous env size rank b6
      else b6).subc.is_root_node = 1
    split
    · rw [split_init_rank_contiguous_is_root_node]; exact h6
    · exact h6
  split
  · exact h2
  · split
    · exact h5
    · split
      · exact h7
      · rw [finish_body_is_root_node]; exact h7

theorem is_root_node_never_cleared (env : HierEnv) (max_cid err0 size rank cid root : Int)
    (subc : Int → Subcomms) (c_coll : CollTable) (h : (subc cid).is_root_node = 1) :
    ((mca_coll_acoll_comm_split_init env max_cid err0 size rank cid root subc c_coll).subc
      cid).is_root_node = 1 := by
  unfold mca_coll_acoll_comm_split_init
  split
  · exact h
  · show (Function.update subc cid _ cid).is_root_node = 1
    rw [Function.update_same]
    exact body_keeps_is_root_node env size rank cid root _ h

theorem body_eq_finish (env : HierEnv) (size rank cid root : Int) (b0 : Build) :
    comm_split_init_body env size rank cid root b0 =
      if (body_before_finish env size rank cid root b0).returned then
        body_before_finish env size rank cid root b0
      else finish_body root b0.c_coll (body_before_finish env size rank cid root b0) := by
  unfold comm_split_init_body body_before_finish
  lift_lets
  intro coll_org b1 b2 b3 coll_loc coll_soc b4 b5 b6 b7
  by_cases h2 : b2.returned = true
  · simp only [h2, if_true]
  · simp only [h2, if_false, Bool.false_eq_true]
    by_cases h5 : b5.returned = true
    · simp only [h5, if_true]
    · simp only [h5, if_false, Bool.false_eq_true]

theorem sameCount_refl (s : Subcomms) : SameCount s s := ⟨rfl, rfl⟩

/-- C12: for a group whose identity `cid` is not below `MCA_COLL_ACOLL_MAX_CID`
the call of `mca_coll_acoll_comm_split_init` returns `MPI_SUCCESS`, leaves every entry of
the hierarchy cache and the table of collectives of the group as they were,
and performs no group operation; and what it returns and does is the same
whatever the cache holds, so no entry of the cache is read. -/
theorem cid_beyond_bound_untouched (env : HierEnv) (max_cid err0 size rank cid root : Int)
    (subc : Int → Subcomms) (c_coll : CollTable) (h : cid ≥ max_cid) :
    (mca_coll_acoll_comm_split_init env max_cid err0 size rank cid root subc c_coll).err =
      MPI_SUCCESS ∧
    (mca_coll_acoll_comm_split_init env max_cid err0 size rank cid root subc c_coll).subc = subc ∧
    (mca_coll_acoll_comm_split_init env max_cid err0 size rank cid root subc c_coll).ops = [] ∧
    (mca_coll_acoll_comm_split_init env max_cid err0 size rank cid root subc c_coll).c_coll =
      c_coll ∧
    (mca_coll_acoll_comm_split_init env max_cid err0 size rank cid root subc c_coll).stuck =
      false ∧
    (∀ other : Int → Subcomms,
      (mca_coll_acoll_comm_split_init env max_cid err0 size rank cid root other c_coll).err =
        (mca_coll_acoll_comm_split_init env max_cid err0 size rank cid root subc c_coll).err ∧
      (mca_coll_acoll_comm_split_init env max_cid err0 size rank cid root other c_coll).ops =
        (mca_coll_acoll_comm_split_init env max_cid err0 size rank cid root subc c_coll).ops ∧
      (mca_coll_acoll_comm_split_init env max_cid err0 size rank cid root other c_coll).c_coll =
        (mca_coll_acoll_comm_split_init env max_cid err0 size rank cid root subc c_coll).c_coll) := by
  unfold mca_coll_acoll_comm_split_init
  simp only [if_pos h]
  simp

/-- Witness of C12: the group with the identity 100 when the bound is 100, on
the cache left by the first build of the example. -/
theorem cid_beyond_bound_untouched_witness :
    ((100 : Int) ≥ 100) ∧
    (mca_coll_acoll_comm_split_init two_node_env 100 7 4 0 100 0 two_node_first_build.subc
      other_coll_table).err = MPI_SUCCESS ∧
    (mca_coll_acoll_comm_split_init two_node_env 100 7 4 0 100 0 two_node_first_build.subc
      other_coll_table).subc = two_node_first_build.subc :=
  ⟨by decide,
    (cid_beyond_bound_untouched two_node_env 100 7 4 0 100 0 two_node_first_build.subc
      other_coll_table (by decide)).1,
    (cid_beyond_bound_untouched two_node_env 100 7 4 0 100 0 two_node_first_build.subc
      other_coll_table (by decide)).2.1⟩

/-- C13 fails on the code: rank 0 of four ranks on two nodes builds a fresh
hierarchy with the root 0, and the `ompi_comm_split` of
`mca_coll_acoll_create_base_comm` for the L3-cache base group of the node
layer fails with the code 5 (every other operation succeeds). The loop of
`mca_coll_acoll_create_base_comm` stops, but the builder does not test what
that function returns: it goes on with the two splits for the NUMA base
groups and the split for `local_r_comm`, and returns `MPI_SUCCESS`, not 5. -/
theorem base_split_error_not_surfaced :
    ((failing_split two_node_env (Slot.base_comm BaseLayer.l3cache Layer.node) 5).split
      (Slot.base_comm BaseLayer.l3cache Layer.node) [0, 1] 0 0).1 = 5 ∧
    (mca_coll_acoll_comm_split_init
      (failing_split two_node_env (Slot.base_comm BaseLayer.l3cache Layer.node) 5)
      100 0 4 0 0 0 (fun _ => blank_subc) other_coll_table).ops =
      [CommOp.split_type SplitType.shared, CommOp.split_type SplitType.socket,
        CommOp.split_type SplitType.l3cache, CommOp.split_type SplitType.numa,
        CommOp.allgather CollFn.ompi_coll_base_allgather_intra_ring 2,
        CommOp.split Slot.leader_comm [0, 1, 2, 3] 0 0,
        CommOp.split Slot.socket_ldr_comm [0, 1] 0 0,
        CommOp.split (Slot.base_comm BaseLayer.l3cache Layer.node) [0, 1] 0 0,
        CommOp.split (Slot.base_comm BaseLayer.numa Layer.node) [0, 1] 0 0,
        CommOp.split (Slot.base_comm BaseLayer.numa Layer.socket) [0, 1] 0 0,
        CommOp.split Slot.local_r_comm [0, 1, 2, 3] 0 0] ∧
    (mca_coll_acoll_comm_split_init
      (failing_split two_node_env (Slot.base_comm BaseLayer.l3cache Layer.node) 5)
      100 0 4 0 0 0 (fun _ => blank_subc) other_coll_table).err = MPI_SUCCESS ∧
    (mca_coll_acoll_comm_split_init
      (failing_split two_node_env (Slot.base_comm BaseLayer.l3cache Layer.node) 5)
      100 0 4 0 0 0 (fun _ => blank_subc) other_coll_table).stuck = false := by
  decide

/-- C14 fails on the code: rank 0 of two ranks on one node builds a fresh
hierarchy (`initialized = 0`) with the root 0. When the split for
`numa_comm_ldrs` fails with the code 5, the call returns `MPI_SUCCESS` and
sets `initialized = 1` although a subgroup creation failed. When the last
split of `mca_coll_acoll_create_base_comm` (NUMA base group, socket layer)
fails with the code 5, the call returns the error 5 and has set
`initialized = 1` all the same. -/
theorem initialized_set_after_failed_split :
    blank_subc.initialized = 0 ∧
    ((failing_split one_node_env Slot.numa_comm_ldrs 5).split Slot.numa_comm_ldrs [0, 1] 0 0).1
      = 5 ∧
    (mca_coll_acoll_comm_split_init (failing_split one_node_env Slot.numa_comm_ldrs 5)
      100 0 2 0 0 0 (fun _ => blank_subc) other_coll_table).err = MPI_SUCCESS ∧
    ((mca_coll_acoll_comm_split_init (failing_split one_node_env Slot.numa_comm_ldrs 5)
      100 0 2 0 0 0 (fun _ => blank_subc) other_coll_table).subc 0).initialized = 1 ∧
    CommOp.split Slot.numa_comm_ldrs [0, 1] 0 0 ∈
      (mca_coll_acoll_comm_split_init (failing_split one_node_env Slot.numa_comm_ldrs 5)
        100 0 2 0 0 0 (fun _ => blank_subc) other_coll_table).ops ∧
    (mca_coll_acoll_comm_split_init
      (failing_split one_node_env (Slot.base_comm BaseLayer.numa Layer.socket) 5)
      100 0 2 0 0 0 (fun _ => blank_subc) other_coll_table).err = 5 ∧
    ((mca_coll_acoll_comm_split_init
      (failing_split one_node_env (Slot.base_comm BaseLayer.numa Layer.socket) 5)
      100 0 2 0 0 0 (fun _ => blank_subc) other_coll_table).subc 0).initialized = 1 ∧
    (mca_coll_acoll_comm_split_init
      (failing_split one_node_env (Slot.base_comm BaseLayer.numa Layer.socket) 5)
      100 0 2 0 0 0 (fun _ => blank_subc) other_coll_table).stuck = false := by
  decide

/-- C18 fails on the code: rank 0 of four ranks on two nodes, after its first
build with the root 0, builds again with the root 2, and the split for the
group of leaders fails with the code 5. On entry the tables of collectives of
the group, of the node group and of the socket group hold the original
functions; the call returns 5 through the `return err` after the split, which
skips both "Restore originals" blocks, and all three tables are left with the
baseline functions. -/
theorem error_return_leaves_baseline_collectives :
    (0 : Int) < 100 ∧ two_node_first_build.c_coll = other_coll_table ∧
    (two_node_first_build.subc 0).local_comm.c_coll = other_coll_table ∧
    (two_node_first_build.subc 0).socket_comm.c_coll = other_coll_table ∧
    (mca_coll_acoll_comm_split_init (failing_split two_node_env Slot.leader_comm 5)
      100 0 4 0 0 2 two_node_first_build.subc two_node_first_build.c_coll).err = 5 ∧
    (mca_coll_acoll_comm_split_init (failing_split two_node_env Slot.leader_comm 5)
      100 0 4 0 0 2 two_node_first_build.subc two_node_first_build.c_coll).c_coll =
      base_coll_table ∧
    ((mca_coll_acoll_comm_split_init (failing_split two_node_env Slot.leader_comm 5)
      100 0 4 0 0 2 two_node_first_build.subc two_node_first_build.c_coll).subc
      0).local_comm.c_coll = base_coll_table ∧
    ((mca_coll_acoll_comm_split_init (failing_split two_node_env Slot.leader_comm 5)
      100 0 4 0 0 2 two_node_first_build.subc two_node_first_build.c_coll).subc
      0).socket_comm.c_coll = base_coll_table ∧
    base_coll_table.coll_allgather ≠ other_coll_table.coll_allgather ∧
    base_coll_table.coll_allreduce ≠ other_coll_table.coll_allreduce ∧
    base_coll_table.coll_bcast ≠ other_coll_table.coll_bcast := by
  decide

theorem sameNodeSocket_trans {a b c : Subcomms} (h1 : SameNodeSocket a b)
    (h2 : SameNodeSocket b c) : SameNodeSocket a c :=
  ⟨h2.1.trans h1.1, h2.2.trans h1.2⟩

theorem set_slot_sameNodeSocket (s : Subcomms) (slot : Slot) (c : Comm) :
    SameNodeSocket s (s.set_slot slot c) := by
  cases slot <;> exact ⟨rfl, rfl⟩

theorem do_split_sameNodeSocket (env : HierEnv) (slot : Slot) (parent : List Int)
    (color key : Int) (b : Build) :
    SameNodeSocket b.subc (do_split env slot parent color key b).subc :=
  set_slot_sameNodeSocket _ _ _

theorem do_free_sameNodeSocket (slot : Slot) (b : Build) :
    SameNodeSocket b.subc (do_free slot b).subc :=
  set_slot_sameNodeSocket _ _ _

theorem create_base_comm_step_sameNodeSocket (env : HierEnv) (pc : PerLayer Comm)
    (color rank : Int) (root : PerLayer Int) (bl : BaseLayer) (i : Layer) (b : Build) :
    SameNodeSocket b.subc (create_base_comm_step env pc color rank root bl i b).subc := by
  unfold create_base_comm_step
  simp only []
  split
  · exact do_split_sameNodeSocket _ _ _ _ _ _
  · exact do_split_sameNodeSocket _ _ _ _ _ _

theorem create_base_comm_sameNodeSocket (env : HierEnv) (pc : PerLayer Comm) (color rank : Int)
    (root : PerLayer Int) (bl : BaseLayer) (b : Build) :
    SameNodeSocket b.subc (mca_coll_acoll_create_base_comm env pc color rank root bl b).subc := by
  unfold mca_coll_acoll_create_base_comm
  simp only []
  split
  · exact create_base_comm_step_sameNodeSocket _ _ _ _ _ _ _ _
  · exact sameNodeSocket_trans (create_base_comm_step_sameNodeSocket _ _ _ _ _ _ _ _)
      (create_base_comm_step_sameNodeSocket _ _ _ _ _ _ _ _)

theorem split_init_base_groups_sameNodeSocket (env : HierEnv) (root key rank : Int)
    (grp : List Int) (numa_ldrs : Bool) (b : Build) :
    SameNodeSocket b.subc (split_init_base_groups env root key rank grp numa_ldrs b).subc := by
  unfold split_init_base_groups
  lift_lets
  intro r b1 color pc b2 numa_rank color1 b3 r2 b4 color2
  have h1 : SameNodeSocket b.subc b1.subc := ⟨rfl, rfl⟩
  have h2 : SameNodeSocket b1.subc b2.subc := create_base_comm_sameNodeSocket _ _ _ _ _ _ _
  have h3 : SameNodeSocket b2.subc b3.subc := by
    show SameNodeSocket b2.subc (if numa_ldrs = true then
      do_split env Slot.numa_comm_ldrs b2.subc.local_comm.ranks color1 rank b2
      else b2).subc
    split
    · exact do_split_sameNodeSocket _ _ _ _ _ _
    · exact ⟨rfl, rfl⟩
  have h4 : SameNodeSocket b3.subc b4.subc := ⟨rfl, rfl⟩
  exact sameNodeSocket_trans h1 (sameNodeSocket_trans h2 (sameNodeSocket_trans h3
    (sameNodeSocket_trans h4 (create_base_comm_sameNodeSocket _ _ _ _ _ _ _))))

theorem split_init_socket_leaders_sameNodeSocket (env : HierEnv) (root key rank : Int)
    (grp : List Int) (numa_ldrs : Bool) (b : Build) :
    SameNodeSocket b.subc (split_init_socket_leaders env root key rank grp numa_ldrs b).subc := by
  unfold split_init_socket_leaders
  lift_lets
  intro r b1 color b2 r2
  have h2 : SameNodeSocket b.subc b2.subc :=
    sameNodeSocket_trans (⟨rfl, rfl⟩ : SameNodeSocket b.subc b1.subc)
      (do_split_sameNodeSocket _ _ _ _ _ _)
  split
  · exact h2
  · exact sameNodeSocket_trans h2
      (sameNodeSocket_trans (⟨rfl, rfl⟩ : SameNodeSocket b2.subc (store_socket_ldr_root r2 b2).subc)
        (split_init_base_groups_sameNodeSocket _ _ _ _ _ _ _))

theorem split_init_multi_node_sameNodeSocket (env : HierEnv) (size rank root : Int) (b : Build) :
    SameNodeSocket b.subc (split_init_multi_node env size rank root b).subc := by
  unfold split_init_multi_node
  lift_lets
  intro local_rank b1 color b2 r b3 local_root
  have h1 : SameNodeSocket b.subc b1.subc := ⟨rfl, rfl⟩
  have h2 : SameNodeSocket b.subc b2.subc :=
    sameNodeSocket_trans h1 (do_split_sameNodeSocket _ _ _ _ _ _)
  have h3 : SameNodeSocket b.subc b3.subc := sameNodeSocket_trans h2 ⟨rfl, rfl⟩
  split
  · exact h2
  · exact sameNodeSocket_trans h3 (split_init_socket_leaders_sameNodeSocket _ _ _ _ _ _ _)

theorem split_init_single_node_sameNodeSocket (env : HierEnv) (size rank root : Int) (b : Build) :
    SameNodeSocket b.subc (split_init_single_node env size rank root b).subc := by
  unfold split_init_single_node
  exact sameNodeSocket_trans (⟨rfl, rfl⟩ : SameNodeSocket b.subc (single_init_local_root root b).subc)
    (split_init_socket_leaders_sameNodeSocket _ _ _ _ _ _ _)

theorem split_init_common_layer_sameNodeSocket (i : Layer) (b : Build) :
    SameNodeSocket b.subc (split_init_common_layer i b).subc := by
  unfold split_init_common_layer
  split
  · exact sameNodeSocket_trans (do_free_sameNodeSocket _ _)
      (sameNodeSocket_trans (do_free_sameNodeSocket _ _) ⟨rfl, rfl⟩)
  · exact ⟨rfl, rfl⟩

theorem free_leader_groups_sameNodeSocket (b : Build) :
    SameNodeSocket b.subc (free_leader_groups b).subc := by
  unfold free_leader_groups
  split
  · split
    · exact sameNodeSocket_trans (do_free_sameNodeSocket _ _) (do_free_sameNodeSocket _ _)
    · exact do_free_sameNodeSocket _ _
  · exact ⟨rfl, rfl⟩

theorem split_init_common_sameNodeSocket (b : Build) :
    SameNodeSocket b.subc (split_init_common b).subc := by
  unfold split_init_common
  exact sameNodeSocket_trans (⟨rfl, rfl⟩ : SameNodeSocket b.subc (reset_root_scalars b).subc)
    (sameNodeSocket_trans (free_leader_groups_sameNodeSocket _)
      (sameNodeSocket_trans (split_init_common_layer_sameNodeSocket _ _)
        (split_init_common_layer_sameNodeSocket _ _)))

theorem restore_after_override (b3 b5 : Build)
    (h : SameNodeSocket (split_init_override b3).subc b5.subc) :
    SameNodeSocket b3.subc
      (restore_local_socket b3.subc.local_comm.c_coll b3.subc.socket_comm.c_coll b5).subc := by
  obtain ⟨h1, h2⟩ := h
  constructor
  · show ({ b5.subc.local_comm with c_coll := b3.subc.local_comm.c_coll } : Comm) = _
    rw [h1]
    rfl
  · show ({ b5.subc.socket_comm with c_coll := b3.subc.socket_comm.c_coll } : Comm) = _
    rw [h2]
    rfl

theorem before_finish_restores (env : HierEnv) (size rank cid root : Int) (b0 : Build)
    (hinit : b0.subc.initialized ≠ 0)
    (hret : (body_before_finish env size rank cid root b0).returned = false) :
    SameNodeSocket b0.subc (body_before_finish env size rank cid root b0).subc := by
  revert hret
  unfold body_before_finish
  lift_lets
  intro b1 b2 b3 coll_loc coll_soc b4 b5 b6
  have i1 : b1.subc.initialized ≠ 0 := hinit
  have e2 : b2 = b1 := by
    show (if b1.subc.initialized = 0 then split_init_locality env size b1 else b1) = b1
    rw [if_neg i1]
  have h2 : SameNodeSocket b0.subc b2.subc := by rw [e2]; exact ⟨rfl, rfl⟩
  have i2 : b2.subc.initialized ≠ 0 := by rw [e2]; exact i1
  have h3 : SameNodeSocket b0.subc b3.subc :=
    sameNodeSocket_trans h2 (split_init_common_sameNodeSocket _)
  have i3 : b3.subc.initialized ≠ 0 := by
    rw [(split_init_common_rebuilds (fun _ => True) (fun _ => trivial) b2).1.1]
    exact i2
  have h5 : SameNodeSocket b4.subc b5.subc := by
    show SameNodeSocket b4.subc (if b4.subc.num_nodes > 1 then
      split_init_multi_node env size rank root b4
      else split_init_single_node env size rank root b4).subc
    split
    · exact split_init_multi_node_sameNodeSocket _ _ _ _ _
    · exact split_init_single_node_sameNodeSocket _ _ _ _ _
  have i5 : b5.subc.initialized ≠ 0 := by
    have e : b5.subc.initialized = b4.subc.initialized := by
      show (if b4.subc.num_nodes > 1 then split_init_multi_node env size rank root b4
        else split_init_single_node env size rank root b4).subc.initialized = _
      split
      · exact (split_init_multi_node_rebuilds (fun _ => True) (fun _ _ _ _ _ => trivial)
          env size rank root b4).1.1
      · exact (split_init_single_node_rebuilds (fun _ => True) (fun _ _ _ _ _ => trivial)
          env size rank root b4).1.1
    rw [e]
    exact i3
  have h6 : SameNodeSocket b3.subc b6.subc := restore_after_override b3 b5 h5
  have i6 : b6.subc.initialized ≠ 0 := i5
  intro hret
  by_cases r2 : b2.returned = true
  · exfalso
    rw [if_pos r2, r2] at hret
    cases hret
  · rw [if_neg r2] at hret
    rw [if_neg r2]
    by_cases r5 : b5.returned = true
    · exfalso
      rw [if_pos r5, r5] at hret
      cases hret
    · rw [if_neg r5, if_neg i6]
      exact sameNodeSocket_trans h3 h6

theorem finish_body_sameNodeSocket (root : Int) (coll_org : CollTable) (b : Build) :
    SameNodeSocket b.subc (finish_body root coll_org b).subc := by
  unfold finish_body count_root_change
  simp only []
  split <;> exact ⟨rfl, rfl⟩

theorem finish_body_c_coll (root : Int) (coll_org : CollTable) (b : Build) :
    (finish_body root coll_org b).c_coll = coll_org := by
  unfold finish_body count_root_change
  simp only []
  split <;> rfl

theorem split_init_restores (env : HierEnv) (max_cid err0 size rank cid root : Int)
    (subc : Int → Subcomms) (c_coll : CollTable)
    (h : runs_to_end env max_cid err0 size rank cid root subc c_coll) :
    (mca_coll_acoll_comm_split_init env max_cid err0 size rank cid root subc c_coll).c_coll =
      c_coll ∧
    ((subc cid).initialized ≠ 0 →
      SameNodeSocket (subc cid)
        ((mca_coll_acoll_comm_split_init env max_cid err0 size rank cid root subc c_coll).subc
          cid)) := by
  obtain ⟨hcid, hret⟩ := h
  have hnot : ¬ cid ≥ max_cid := by omega
  unfold mca_coll_acoll_comm_split_init
  rw [if_neg hnot]
  simp only [Function.update_same]
  rw [body_eq_finish, hret]
  simp only [Bool.false_eq_true, if_false]
  refine ⟨finish_body_c_coll _ _ _, fun hinit => ?_⟩
  exact sameNodeSocket_trans
    (before_finish_restores env size rank cid root
      { subc := subc cid, c_coll := c_coll, ops := [], err := err0, returned := false,
        stuck := false } hinit hret)
    (finish_body_sameNodeSocket _ _ _)

theorem quiet_trans {a b c : Build} (h1 : Quiet a b) (h2 : Quiet b c) : Quiet a c :=
  ⟨h2.1.trans h1.1, h2.2.1.trans h1.2.1, h2.2.2⟩

theorem surfaced_of_quiet (env : HierEnv) {a b : Build} (h : Quiet a b) : Surfaced env a b :=
  ⟨h.1, h.2.1, fun hr => by rw [h.2.2] at hr; cases hr⟩

theorem quiet_surfaced (env : HierEnv) {a b c : Build} (h1 : Quiet a b)
    (h2 : Surfaced env b c) : Surfaced env a c :=
  ⟨h2.1.trans h1.1, h2.2.1.trans h1.2.1, h2.2.2⟩

theorem set_slot_initialized (s : Subcomms) (slot : Slot) (c : Comm) :
    (s.set_slot slot c).initialized = s.initialized := by
  cases slot <;> rfl

theorem do_split_quiet (env : HierEnv) (slot : Slot) (parent : List Int) (color key : Int)
    (b : Build) (h : b.returned = false) : Quiet b (do_split env slot parent color key b) :=
  ⟨rfl, set_slot_initialized _ _ _, h⟩

theorem do_free_quiet (slot : Slot) (b : Build) (h : b.returned = false) :
    Quiet b (do_free slot b) :=
  ⟨rfl, set_slot_initialized _ _ _, h⟩

theorem do_split_type_quiet (env : HierEnv) (t : SplitType) (b : Build)
    (h : b.returned = false) : Quiet b (do_split_type env t b) := by
  cases t <;> exact ⟨rfl, rfl, h⟩

theorem do_split_failed (env : HierEnv) (slot : Slot) (parent : List Int) (color key : Int)
    (b : Build) (hf : (do_split env slot parent color key b).err ≠ MPI_SUCCESS) :
    Surfaced env b (do_split env slot parent color key b).ret :=
  ⟨rfl, set_slot_initialized _ _ _, fun _ _ =>
    ⟨b.ops, CommOp.split slot parent color key, rfl, rfl, hf⟩⟩

theorem do_split_type_failed (env : HierEnv) (t : SplitType) (b : Build)
    (hf : (do_split_type env t b).err ≠ MPI_SUCCESS) :
    Surfaced env b (do_split_type env t b).ret := by
  cases t <;> exact ⟨rfl, rfl, fun _ _ => ⟨b.ops, CommOp.split_type _, rfl, rfl, hf⟩⟩

theorem create_base_comm_step_frame (env : HierEnv) (pc : PerLayer Comm) (color rank : Int)
    (root : PerLayer Int) (bl : BaseLayer) (i : Layer) (b : Build) :
    (create_base_comm_step env pc color rank root bl i b).c_coll = b.c_coll ∧
    (create_base_comm_step env pc color rank root bl i b).subc.initialized =
      b.subc.initialized := by
  unfold create_base_comm_step
  simp only []
  split
  · exact ⟨rfl, set_slot_initialized _ _ _⟩
  · exact ⟨rfl, set_slot_initialized _ _ _⟩

theorem create_base_comm_quiet (env : HierEnv) (pc : PerLayer Comm) (color rank : Int)
    (root : PerLayer Int) (bl : BaseLayer) (b : Build) :
    Quiet b (mca_coll_acoll_create_base_comm env pc color rank root bl b) := by
  have h1 := create_base_comm_step_frame env pc color rank root bl Layer.node b
  have h2 := create_base_comm_step_frame env pc color rank root bl Layer.socket
    (create_base_comm_step env pc color rank root bl Layer.node b)
  unfold mca_coll_acoll_create_base_comm
  simp only []
  split
  · exact ⟨h1.1, h1.2, rfl⟩
  · exact ⟨h2.1.trans h1.1, h2.2.trans h1.2, rfl⟩

theorem split_init_base_groups_quiet (env : HierEnv) (root key rank : Int)
    (grp : List Int) (numa_ldrs : Bool) (b : Build) :
    Quiet b (split_init_base_groups env root key rank grp numa_ldrs b) := by
  unfold split_init_base_groups
  lift_lets
  intro r b1 color pc b2 numa_rank color1 b3 r2 b4 color2
  have h1 : b1.c_coll = b.c_coll ∧ b1.subc.initialized = b.subc.initialized := ⟨rfl, rfl⟩
  have h2 : Quiet b1 b2 := create_base_comm_quiet _ _ _ _ _ _ _
  have h3 : Quiet b2 b3 := by
    show Quiet b2 (if numa_ldrs = true then
      do_split env Slot.numa_comm_ldrs b2.subc.local_comm.ranks color1 rank b2
      else b2)
    split
    · exact do_split_quiet _ _ _ _ _ _ h2.2.2
    · exact ⟨rfl, rfl, h2.2.2⟩
  have h4 : b4.c_coll = b3.c_coll ∧ b4.subc.initialized = b3.subc.initialized := ⟨rfl, rfl⟩
  have h5 := create_base_comm_quiet env pc color2 key b4.subc.local_root BaseLayer.numa b4
  exact ⟨h5.1.trans (h4.1.trans (h3.1.trans (h2.1.trans h1.1))),
    h5.2.1.trans (h4.2.trans (h3.2.1.trans (h2.2.1.trans h1.2))), h5.2.2⟩

theorem split_init_socket_leaders_surfaced (env : HierEnv) (root key rank : Int)
    (grp : List Int) (numa_ldrs : Bool) (b : Build) :
    Surfaced env b (split_init_socket_leaders env root key rank grp numa_ldrs b) := by
  unfold split_init_socket_leaders
  lift_lets
  intro r b1 color b2 r2
  have h1 : b1.c_coll = b.c_coll ∧ b1.subc.initialized = b.subc.initialized := ⟨rfl, rfl⟩
  have h2 : b2.c_coll = b1.c_coll ∧ b2.subc.initialized = b1.subc.initialized :=
    ⟨rfl, set_slot_initialized _ _ _⟩
  split
  · rename_i hf
    have hs := do_split_failed env Slot.socket_ldr_comm grp color key b1 hf
    exact ⟨hs.1.trans h1.1, hs.2.1.trans h1.2, hs.2.2⟩
  · have hq := split_init_base_groups_quiet env root key rank grp numa_ldrs
      (store_socket_ldr_root r2 b2)
    exact ⟨hq.1.trans (h2.1.trans h1.1), hq.2.1.trans (h2.2.trans h1.2),
      fun hr => by rw [hq.2.2] at hr; cases hr⟩

theorem split_init_multi_node_surfaced (env : HierEnv) (size rank root : Int) (b : Build) :
    Surfaced env b (split_init_multi_node env size rank root b) := by
  unfold split_init_multi_node
  lift_lets
  intro local_rank b1 color b2 r b3 local_root
  have h1 : b1.c_coll = b.c_coll ∧ b1.subc.initialized = b.subc.initialized := ⟨rfl, rfl⟩
  have h2 : b2.c_coll = b1.c_coll ∧ b2.subc.initialized = b1.subc.initialized :=
    ⟨rfl, set_slot_initialized _ _ _⟩
  have h3 : b3.c_coll = b2.c_coll ∧ b3.subc.initialized = b2.subc.initialized := ⟨rfl, rfl⟩
  split
  · rename_i hf
    have hs := do_split_failed env Slot.leader_comm (comm_ranks size) color rank b1 hf
    exact ⟨hs.1.trans h1.1, hs.2.1.trans h1.2, hs.2.2⟩
  · have hs := split_init_socket_leaders_surfaced env local_root local_rank rank
      b3.subc.local_comm.ranks false b3
    exact ⟨hs.1.trans (h3.1.trans (h2.1.trans h1.1)),
      hs.2.1.trans (h3.2.trans (h2.2.trans h1.2)), hs.2.2⟩

theorem split_init_single_node_surfaced (env : HierEnv) (size rank root : Int) (b : Build) :
    Surfaced env b (split_init_single_node env size rank root b) := by
  unfold split_init_single_node
  have hs := split_init_socket_leaders_surfaced env root rank rank (comm_ranks size) true
    (single_init_local_root root b)
  exact ⟨hs.1, hs.2.1, hs.2.2⟩

theorem derive_nodes_surfaced (env : HierEnv) (size : Int) (b : Build)
    (h : b.returned = false) : Surfaced env b (derive_nodes env size b) := by
  unfold derive_nodes
  simp only []
  split
  · exact surfaced_of_quiet env ⟨rfl, rfl, h⟩
  · split
    · rename_i hf
      exact ⟨rfl, rfl, fun _ _ => ⟨b.ops, CommOp.allgather _ _, rfl, rfl, hf⟩⟩
    · split
      · exact surfaced_of_quiet env ⟨rfl, rfl, h⟩
      · exact ⟨rfl, rfl, fun _ hs => by cases hs⟩
      · exact ⟨rfl, rfl, fun _ hs => by cases hs⟩

theorem split_init_locality_surfaced (env : HierEnv) (size : Int) (b : Build)
    (h : b.returned = false) : Surfaced env b (split_init_locality env size b) := by
  unfold split_init_locality
  lift_lets
  intro b1 b2 b3 b4
  have q1 : Quiet b b1 := do_split_type_quiet _ _ _ h
  have q2 : Quiet b b2 := quiet_trans q1 (do_split_type_quiet _ _ _ q1.2.2)
  have q3 : Quiet b b3 := quiet_trans q2 (do_split_type_quiet _ _ _ q2.2.2)
  have q4 : Quiet b b4 := quiet_trans q3 (do_split_type_quiet _ _ _ q3.2.2)
  split
  · rename_i hf
    exact do_split_type_failed env SplitType.shared b hf
  · split
    · rename_i hf
      exact quiet_surfaced env q1 (do_split_type_failed env SplitType.socket b1 hf)
    · split
      · rename_i hf
        exact quiet_surfaced env q2 (do_split_type_failed env SplitType.l3cache b2 hf)
      · split
        · rename_i hf
          exact quiet_surfaced env q3 (do_split_type_failed env SplitType.numa b3 hf)
        · exact quiet_surfaced env
            (quiet_trans q4 (⟨rfl, rfl, q4.2.2⟩ : Quiet b4 (store_subgrp_size b4)))
            (derive_nodes_surfaced env size _ q4.2.2)

theorem split_init_rank_contiguous_surfaced (env : HierEnv) (size rank : Int) (b : Build)
    (h : b.returned = false) : Surfaced env b (split_init_rank_contiguous env size rank b) := by
  have q : Quiet b (split_local_r env size rank b) := do_split_quiet _ _ _ _ _ _ h
  unfold split_init_rank_contiguous
  split
  · split
    · rename_i hf
      exact do_split_failed env Slot.local_r_comm (comm_ranks size) _ rank b hf
    · exact surfaced_of_quiet env ⟨q.1, q.2.1, q.2.2⟩
  · exact surfaced_of_quiet env ⟨rfl, rfl, h⟩

theorem split_init_common_layer_quiet (i : Layer) (b : Build) (h : b.returned = false) :
    Quiet b (split_init_common_layer i b) := by
  unfold split_init_common_layer
  split
  · have q1 := do_free_quiet (Slot.base_comm BaseLayer.l3cache i) b h
    have q2 := do_free_quiet (Slot.base_comm BaseLayer.numa i) _ q1.2.2
    exact quiet_trans (quiet_trans q1 q2) ⟨rfl, rfl, q2.2.2⟩
  · exact ⟨rfl, rfl, h⟩

theorem free_leader_groups_quiet (b : Build) (h : b.returned = false) :
    Quiet b (free_leader_groups b) := by
  unfold free_leader_groups
  split
  · split
    · have q1 := do_free_quiet Slot.leader_comm b h
      exact quiet_trans q1 (do_free_quiet Slot.socket_ldr_comm _ q1.2.2)
    · exact do_free_quiet Slot.socket_ldr_comm b h
  · exact ⟨rfl, rfl, h⟩

theorem split_init_common_quiet (b : Build) (h : b.returned = false) :
    Quiet b (split_init_common b) := by
  unfold split_init_common
  have q0 : Quiet b (reset_root_scalars b) := ⟨rfl, rfl, h⟩
  have q1 := free_leader_groups_quiet _ q0.2.2
  have q2 := split_init_common_layer_quiet Layer.node _ q1.2.2
  have q3 := split_init_common_layer_quiet Layer.socket _ q2.2.2
  exact quiet_trans q0 (quiet_trans q1 (quiet_trans q2 q3))

theorem before_finish_surfaced (env : HierEnv) (size rank cid root : Int) (b0 : Build)
    (h : b0.returned = false) :
    Surfaced env (enter_body cid b0) (body_before_finish env size rank cid root b0) := by
  unfold body_before_finish
  lift_lets
  intro b1 b2 b3 coll_loc coll_soc b4 b5 b6
  have r1 : b1.returned = false := h
  have s2 : Surfaced env b1 b2 := by
    show Surfaced env b1 (if b1.subc.initialized = 0 then split_init_locality env size b1 else b1)
    split
    · exact split_init_locality_surfaced env size b1 r1
    · exact surfaced_of_quiet env ⟨rfl, rfl, r1⟩
  by_cases hr2 : b2.returned = true
  · rw [if_pos hr2]
    exact s2
  · rw [if_neg hr2]
    have r2 : b2.returned = false := by simpa using hr2
    have q2 : Quiet b1 b2 := ⟨s2.1, s2.2.1, r2⟩
    have q3 : Quiet b2 b3 := split_init_common_quiet b2 r2
    have q4 : Quiet b3 b4 := ⟨rfl, rfl, q3.2.2⟩
    have q14 : Quiet b1 b4 := quiet_trans q2 (quiet_trans q3 q4)
    have s5 : Surfaced env b4 b5 := by
      show Surfaced env b4 (if b4.subc.num_nodes > 1 then
        split_init_multi_node env size rank root b4
        else split_init_single_node env size rank root b4)
      split
      · exact split_init_multi_node_surfaced env size rank root b4
      · exact split_init_single_node_surfaced env size rank root b4
    by_cases hr5 : b5.returned = true
    · rw [if_pos hr5]
      exact quiet_surfaced env q14 s5
    · rw [if_neg hr5]
      have r5 : b5.returned = false := by simpa using hr5
      have q5 : Quiet b4 b5 := ⟨s5.1, s5.2.1, r5⟩
      have q6 : Quiet b5 b6 := ⟨rfl, rfl, r5⟩
      have q16 : Quiet b1 b6 := quiet_trans q14 (quiet_trans q5 q6)
      split
      · exact quiet_surfaced env q16 (split_init_rank_contiguous_surfaced env size rank b6 q6.2.2)
      · exact surfaced_of_quiet env q16

/-- A call of `mca_coll_acoll_comm_split_init` (with `cid` below the bound) that does not
run to its end, within the defined behaviour of C: the last group operation
it made failed and the call returns its result code; the flag `initialized`
is as on entry; and the table of collectives of `comm` is left with the
baseline functions. -/
theorem early_return_effects (env : HierEnv) (max_cid err0 size rank cid root : Int)
    (subc : Int → Subcomms) (c_coll : CollTable) (hcid : cid < max_cid)
    (hend : ¬ runs_to_end env max_cid err0 size rank cid root subc c_coll)
    (hdef : (mca_coll_acoll_comm_split_init env max_cid err0 size rank cid root subc
      c_coll).stuck = false) :
    (∃ init op,
      (mca_coll_acoll_comm_split_init env max_cid err0 size rank cid root subc c_coll).ops =
        init ++ [op] ∧
      (mca_coll_acoll_comm_split_init env max_cid err0 size rank cid root subc c_coll).err =
        op_code env op ∧
      (mca_coll_acoll_comm_split_init env max_cid err0 size rank cid root subc c_coll).err ≠
        MPI_SUCCESS) ∧
    ((mca_coll_acoll_comm_split_init env max_cid err0 size rank cid root subc c_coll).subc
      cid).initialized = (subc cid).initialized ∧
    (mca_coll_acoll_comm_split_init env max_cid err0 size rank cid root subc c_coll).c_coll =
      base_coll_table := by
  have hnot : ¬ cid ≥ max_cid := by omega
  have hret : (body_before_finish env size rank cid root
      { subc := subc cid, c_coll := c_coll, ops := [], err := err0, returned := false,
        stuck := false }).returned = true := by
    by_contra hc
    exact hend ⟨hcid, by simpa using hc⟩
  have hS := before_finish_surfaced env size rank cid root
    { subc := subc cid, c_coll := c_coll, ops := [], err := err0, returned := false,
      stuck := false } rfl
  revert hdef
  unfold mca_coll_acoll_comm_split_init
  rw [if_neg hnot]
  simp only [Function.update_same]
  rw [body_eq_finish, hret]
  simp only [if_true]
  intro hdef
  exact ⟨hS.2.2 hret hdef, hS.2.1, hS.1⟩

theorem coll_acoll_malloc_reserve (heap : Heap) (st : AllocState) (size : Int)
    (hc : reserve_free st size)
    (hb : st.res.reserve_mem ≠ 0 ∨ heap st.calls st.res.reserve_mem_size ≠ 0) :
    (coll_acoll_malloc heap st size).2 =
      (if st.res.reserve_mem ≠ 0 then st.res.reserve_mem
        else heap st.calls st.res.reserve_mem_size) ∧
    (coll_acoll_malloc heap st size).2 ≠ 0 ∧
    (coll_acoll_malloc heap st size).1.res =
      { st.res with reserve_mem := (coll_acoll_malloc heap st size).2,
                    reserve_mem_in_use := true } ∧
    (coll_acoll_malloc heap st size).1.calls =
      (if st.res.reserve_mem ≠ 0 then st.calls
        else st.calls ++ [HeapCall.malloc st.res.reserve_mem_size
          (heap st.calls st.res.reserve_mem_size)]) := by
  unfold reserve_free at hc
  unfold coll_acoll_malloc
  rw [if_pos hc]
  by_cases h0 : st.res.reserve_mem = 0
  · have hh : heap st.calls st.res.reserve_mem_size ≠ 0 := by
      rcases hb with h | h
      · exact absurd h0 h
      · exact h
    simp [h0, hh]
  · simp [h0]

theorem coll_acoll_malloc_block_unavailable (heap : Heap) (st : AllocState) (size : Int)
    (hc : reserve_free st size) (h0 : st.res.reserve_mem = 0)
    (hh : heap st.calls st.res.reserve_mem_size = 0) :
    (coll_acoll_malloc heap st size).2 = 0 ∧
    (coll_acoll_malloc heap st size).1.res = st.res ∧
    (coll_acoll_malloc heap st size).1.res.reserve_mem_in_use = false ∧
    (coll_acoll_malloc heap st size).1.calls =
      st.calls ++ [HeapCall.malloc st.res.reserve_mem_size 0] := by
  have hu : st.res.reserve_mem_in_use = false := hc.2.2
  unfold reserve_free at hc
  unfold coll_acoll_malloc
  rw [if_pos hc]
  obtain ⟨res, calls⟩ := st
  obtain ⟨m, sz, al, us⟩ := res
  simp only at h0 hh hu
  subst h0
  simp [hh, hu]

theorem coll_acoll_malloc_ordinary (heap : Heap) (st : AllocState) (size : Int)
    (hc : ¬ reserve_free st size) :
    (coll_acoll_malloc heap st size).2 = heap st.calls size ∧
    (coll_acoll_malloc heap st size).1.res = st.res ∧
    (coll_acoll_malloc heap st size).1.calls =
      st.calls ++ [HeapCall.malloc size (heap st.calls size)] := by
  unfold reserve_free at hc
  unfold coll_acoll_malloc
  rw [if_neg hc]
  exact ⟨rfl, rfl, rfl⟩

theorem not_reserve_free_of_in_use (st : AllocState) (size : Int)
    (h : st.res.reserve_mem_in_use = true) : ¬ reserve_free st size := by
  intro hc
  rw [hc.2.2] at h
  cases h

theorem coll_acoll_free_other_in_use (st : AllocState) (ptr : Nat)
    (ha : st.res.reserve_mem_allocate = true) (hu : st.res.reserve_mem_in_use = true)
    (hp : ptr ≠ st.res.reserve_mem) : coll_acoll_free st ptr = st := by
  unfold coll_acoll_free
  rw [if_neg (by simp [ha, hu]), if_neg (fun h => hp h.symm)]

theorem coll_acoll_free_reserve_in_use (st : AllocState)
    (ha : st.res.reserve_mem_allocate = true) (hu : st.res.reserve_mem_in_use = true) :
    coll_acoll_free st st.res.reserve_mem =
      { st with res := { st.res with reserve_mem_in_use := false } } := by
  unfold coll_acoll_free
  rw [if_neg (by simp [ha, hu]), if_pos rfl]

theorem live_append (calls : List HeapCall) (c : HeapCall) :
    live (calls ++ [c]) = live_step (live calls) c := by
  unfold live
  rw [List.foldl_append]
  rfl

theorem zero_not_live (calls : List HeapCall) : 0 ∉ live calls := by
  induction calls using List.reverseRecOn with
  | nil => simp [live]
  | append_singleton calls c ih =>
    rw [live_append]
    cases c with
    | malloc s p =>
      show 0 ∉ (if p = 0 then live calls else p :: live calls)
      split
      · exact ih
      · rename_i hp
        intro h
        rcases List.mem_cons.1 h with h | h
        · exact hp h.symm
        · exact ih h
    | free p =>
      show 0 ∉ (live calls).erase p
      intro h
      exact ih (List.mem_of_mem_erase h)

/-- C15, as amended: `coll_acoll_malloc` returns the
address of the reserve block and sets `reserve_mem_in_use` when the reserve is
enabled, `size <= reserve_mem_size`, the block is not lent out, and the block
exists or its allocation on first use succeeds (the block is then live in the
allocator of the C library); when under the same condition the block does not
exist and its allocation on first use fails, it returns `NULL`, leaves the
record as it is, with `reserve_mem_in_use` false, and has made the one call
`malloc(reserve_mem_size)`; in every case in which the condition on
the reserve fails it returns the address that `malloc(size)` gives and leaves
the record unchanged. Hence while the block is lent out a further request
gets the address that `malloc(size)` gives, the record stays as it is, and
that address is not the address of the block when the C library does not hand
out live addresses. -/
theorem reserve_malloc_exclusive (heap : Heap) (st : AllocState) (size : Int) :
    (reserve_free st size →
      (st.res.reserve_mem ≠ 0 ∨ heap st.calls st.res.reserve_mem_size ≠ 0) →
      (coll_acoll_malloc heap st size).2 =
        (if st.res.reserve_mem ≠ 0 then st.res.reserve_mem
          else heap st.calls st.res.reserve_mem_size) ∧
      (coll_acoll_malloc heap st size).2 ≠ 0 ∧
      (coll_acoll_malloc heap st size).1.res =
        { st.res with reserve_mem := (coll_acoll_malloc heap st size).2,
                      reserve_mem_in_use := true } ∧
      ((st.res.reserve_mem ≠ 0 → st.res.reserve_mem ∈ live st.calls) →
        (coll_acoll_malloc heap st size).2 ∈ live (coll_acoll_malloc heap st size).1.calls)) ∧
    (reserve_free st size → st.res.reserve_mem = 0 →
      heap st.calls st.res.reserve_mem_size = 0 →
      (coll_acoll_malloc heap st size).2 = 0 ∧
      (coll_acoll_malloc heap st size).1.res = st.res ∧
      (coll_acoll_malloc heap st size).1.res.reserve_mem_in_use = false ∧
      (coll_acoll_malloc heap st size).1.calls =
        st.calls ++ [HeapCall.malloc st.res.reserve_mem_size 0]) ∧
    (¬ reserve_free st size →
      (coll_acoll_malloc heap st size).2 = heap st.calls size ∧
      (coll_acoll_malloc heap st size).1.res = st.res ∧
      (coll_acoll_malloc heap st size).1.calls =
        st.calls ++ [HeapCall.malloc size (heap st.calls size)]) ∧
    (st.res.reserve_mem_in_use = true →
      (coll_acoll_malloc heap st size).2 = heap st.calls size ∧
      (coll_acoll_malloc heap st size).1.res = st.res ∧
      (fresh_or_null heap st.calls size → st.res.reserve_mem ∈ live st.calls →
        (coll_acoll_malloc heap st size).2 ≠ st.res.reserve_mem)) := by
  refine ⟨fun hc hb => ?_,
    fun hc h0 hh => coll_acoll_malloc_block_unavailable heap st size hc h0 hh,
    fun hc => coll_acoll_malloc_ordinary heap st size hc, fun hu => ?_⟩
  · obtain ⟨h1, h2, h3, h4⟩ := coll_acoll_malloc_reserve heap st size hc hb
    refine ⟨h1, h2, h3, fun hl => ?_⟩
    rw [h4, h1]
    by_cases h0 : st.res.reserve_mem = 0
    · have hh : heap st.calls st.res.reserve_mem_size ≠ 0 := by
        rcases hb with h | h
        · exact absurd h0 h
        · exact h
      simp only [h0, ne_eq, not_true_eq_false, if_false]
      rw [live_append]
      show heap st.calls st.res.reserve_mem_size ∈
        (if heap st.calls st.res.reserve_mem_size = 0 then live st.calls
          else heap st.calls st.res.reserve_mem_size :: live st.calls)
      rw [if_neg hh]
      exact List.mem_cons_self _ _
    · simp only [ne_eq, h0, not_false_eq_true, if_true]
      exact hl h0
  · obtain ⟨h1, h2, _⟩ :=
      coll_acoll_malloc_ordinary heap st size (not_reserve_free_of_in_use st size hu)
    refine ⟨h1, h2, fun hf hl => ?_⟩
    rw [h1]
    rcases hf with h | h
    · rw [h]
      intro e
      rw [← e] at hl
      exact zero_not_live _ hl
    · intro e
      rw [e] at h
      exact h hl

/-- Witness of C15 as amended: with an allocator that hands out the addresses
1, 2, 3, ... a first request of 100 bytes on a fresh reserve of 1024 bytes
obtains the block at the address 1 and marks it lent out; a second request of
100 bytes then gets the address 2 and leaves the record as it is; with an
allocator that is out of memory the first request returns `NULL` and the
block is not marked lent out. -/
theorem reserve_malloc_exclusive_witness :
    (reserve_free fresh_reserve 100 ∧ fresh_reserve.res.reserve_mem = 0 ∧
      exhausted_heap fresh_reserve.calls fresh_reserve.res.reserve_mem_size = 0) ∧
    ((coll_acoll_malloc bump_heap fresh_reserve 100).2 = 1 ∧
      (coll_acoll_malloc bump_heap fresh_reserve 100).1.res.reserve_mem_in_use = true) ∧
    ((coll_acoll_malloc exhausted_heap fresh_reserve 100).2 = 0 ∧
      (coll_acoll_malloc exhausted_heap fresh_reserve 100).1.res.reserve_mem_in_use = false) ∧
    ((coll_acoll_malloc bump_heap (coll_acoll_malloc bump_heap fresh_reserve 100).1 100).2 = 2 ∧
      (coll_acoll_malloc bump_heap (coll_acoll_malloc bump_heap fresh_reserve 100).1 100).1.res =
        (coll_acoll_malloc bump_heap fresh_reserve 100).1.res ∧
      (coll_acoll_malloc bump_heap (coll_acoll_malloc bump_heap fresh_reserve 100).1 100).2 ≠
        (coll_acoll_malloc bump_heap fresh_reserve 100).1.res.reserve_mem) :=
  ⟨by decide,
    ⟨((reserve_malloc_exclusive bump_heap fresh_reserve 100).1 (by decide) (by decide)).1,
      by decide⟩,
    ⟨((reserve_malloc_exclusive exhausted_heap fresh_reserve 100).2.1 (by decide) (by decide)
        (by decide)).1,
      ((reserve_malloc_exclusive exhausted_heap fresh_reserve 100).2.1 (by decide) (by decide)
        (by decide)).2.2.1⟩,
    by decide,
    ((reserve_malloc_exclusive bump_heap (coll_acoll_malloc bump_heap fresh_reserve 100).1
      100).2.2.2 (by decide)).2.1,
    ((reserve_malloc_exclusive bump_heap (coll_acoll_malloc bump_heap fresh_reserve 100).1
      100).2.2.2 (by decide)).2.2 (by decide) (by decide)⟩

/-- C15 fails as stated: on a fresh reserve of 1024 bytes that is enabled and
not lent out, a request of 100 bytes meets the condition of the claim, but
when the allocation of the block on first use fails `coll_acoll_malloc` returns
`NULL` and does not set `reserve_mem_in_use`. -/
theorem reserve_malloc_block_unavailable :
    reserve_free fresh_reserve 100 ∧
    (coll_acoll_malloc exhausted_heap fresh_reserve 100).2 = 0 ∧
    (coll_acoll_malloc exhausted_heap fresh_reserve 100).1.res.reserve_mem_in_use = false ∧
    (coll_acoll_malloc exhausted_heap fresh_reserve 100).1.calls = [HeapCall.malloc 1024 0] := by
  decide

/-- C16 fails on the code: with an allocator that hands out the addresses 1,
2, 3, ... a first request of 100 bytes on a fresh reserve obtains the block
(address 1) and a second request of 200 bytes gets the ordinary address 2.
When `coll_acoll_free(2)` is called while the block is still lent out, neither
branch of `coll_acoll_free` applies: no `free` is made, and after the first
borrower has given the block back the address 2 is still allocated and was
never released. In the other order (the block is given back first) the
address 2 is released once. Giving the block back clears `reserve_mem_in_use`
and makes no call of `free`. -/
theorem ordinary_free_lost_while_reserve_in_use :
    (coll_acoll_malloc bump_heap fresh_reserve 100).2 = 1 ∧
    (coll_acoll_malloc bump_heap fresh_reserve 100).1.res.reserve_mem = 1 ∧
    (coll_acoll_malloc bump_heap fresh_reserve 100).1.res.reserve_mem_in_use = true ∧
    (coll_acoll_malloc bump_heap (coll_acoll_malloc bump_heap fresh_reserve 100).1 200).2 = 2 ∧
    coll_acoll_free
        (coll_acoll_malloc bump_heap (coll_acoll_malloc bump_heap fresh_reserve 100).1 200).1 2 =
      (coll_acoll_malloc bump_heap (coll_acoll_malloc bump_heap fresh_reserve 100).1 200).1 ∧
    (coll_acoll_free (coll_acoll_free
        (coll_acoll_malloc bump_heap (coll_acoll_malloc bump_heap fresh_reserve 100).1 200).1 2)
        1).calls = [HeapCall.malloc 1024 1, HeapCall.malloc 200 2] ∧
    (coll_acoll_free (coll_acoll_free
        (coll_acoll_malloc bump_heap (coll_acoll_malloc bump_heap fresh_reserve 100).1 200).1 2)
        1).res.reserve_mem_in_use = false ∧
    2 ∈ live (coll_acoll_free (coll_acoll_free
        (coll_acoll_malloc bump_heap (coll_acoll_malloc bump_heap fresh_reserve 100).1 200).1 2)
        1).calls ∧
    (coll_acoll_free (coll_acoll_free
        (coll_acoll_malloc bump_heap (coll_acoll_malloc bump_heap fresh_reserve 100).1 200).1 1)
        2).calls = [HeapCall.malloc 1024 1, HeapCall.malloc 200 2, HeapCall.free 2] := by
  decide

theorem init_peers_error (env : InitEnv) (rank : Int) :
    ∀ (n : Nat) (i r : Int), init_peers env rank n i = some r → r = -1 := by
  intro n
  induction n with
  | zero => intro i r h; simp [init_peers] at h
  | succ n ih =>
    intro i r h
    unfold init_peers at h
    split at h
    · split at h
      · exact (Option.some.inj h).symm
      · split at h
        · exact (Option.some.inj h).symm
        · exact ih _ _ h
    · exact ih _ _ h

theorem init_xpmem_error (env : InitEnv) (sub : InitSubc) (size rank r : Int)
    (h : init_xpmem env sub size rank = Except.error r) : r ≠ 0 := by
  unfold init_xpmem at h
  have e2 : OMPI_ERR_OUT_OF_RESOURCE ≠ 0 := by decide
  repeat' split at h
  all_goals first
    | (cases h; exact e2)
    | (cases h; decide)
    | (rename_i hp; cases h; rw [init_peers_error _ _ _ _ _ hp]; decide)
    | cases h

theorem init_finish_success (sub : InitSubc) (size rank ldr : Int) (d : AcollData)
    (segment : Option Int) (hdef : (init_finish sub size rank ldr d segment).undefined = false) :
    (init_finish sub size rank ldr d segment).ret = MPI_SUCCESS ∧
    (init_finish sub size rank ldr d segment).subc.data = some d ∧
    (init_finish sub size rank ldr d segment).subc.initialized_data = true ∧
    (init_finish sub size rank ldr d segment).segment = segment ∧
    ∃ c1, l1_sync_offset rank = some c1 ∧
      (ldr ≠ rank → (init_finish sub size rank ldr d segment).memsets = [(ldr, c1, 64)]) ∧
      (ldr = rank → ∃ c2 ldr2, l2_sync_offset size rank = some c2 ∧ d.l2_gp.head? = some ldr2 ∧
        (init_finish sub size rank ldr d segment).memsets = [(ldr, c1, 64), (ldr2, c2, 64)]) := by
  revert hdef
  unfold init_finish
  split
  · intro h; cases h
  · rename_i c1 hc1
    by_cases hl : ldr = rank
    · rw [if_pos hl]
      split
      · rename_i c2 ldr2 hc2 hl2
        intro _
        exact ⟨rfl, rfl, rfl, rfl, c1, hc1, fun h => absurd hl h,
          fun _ => ⟨c2, ldr2, hc2, hl2, rfl⟩⟩
      · intro h; cases h
    · rw [if_neg hl]
      intro _
      exact ⟨rfl, rfl, rfl, rfl, c1, hc1, fun _ => rfl, fun h => absurd h hl⟩

theorem init_leader_success (env : InitEnv) (sub : InitSubc) (size rank : Int) (d : AcollData)
    (hdef : (init_leader env sub size rank d).undefined = false)
    (hret : (init_leader env sub size rank d).ret = MPI_SUCCESS) :
    (init_leader env sub size rank d).subc.data = some d ∧
    ∃ c1 m c2 ldr2, l1_sync_offset rank = some c1 ∧ init_memsize size = some m ∧
      (init_leader env sub size rank d).segment = some m ∧
      l2_sync_offset size rank = some c2 ∧
      (init_leader env sub size rank d).memsets = [(rank, c1, 64), (ldr2, c2, 64)] := by
  revert hdef hret
  unfold init_leader
  split
  · rename_i hneg
    intro _ hret
    exfalso
    have : env.asprintf = 0 := hret
    omega
  · split
    · intro h; cases h
    · rename_i m hm
      split
      · rename_i hs
        intro _ hret
        exact absurd hret hs
      · split
        · intro h; cases h
        · intro hdef _
          obtain ⟨_, h2, _, h4, c1, hc1, _, h6⟩ := init_finish_success _ size rank rank d (some m) hdef
          obtain ⟨c2, ldr2, hc2, _, hm2⟩ := h6 rfl
          exact ⟨h2, c1, m, c2, ldr2, hc1, hm, h4, hc2, hm2⟩

theorem init_member_success (env : InitEnv) (sub : InitSubc) (size rank ldr ret0 : Int)
    (d : AcollData) (hl : ldr ≠ rank)
    (hdef : (init_member env sub size rank ldr ret0 d).undefined = false)
    (hret : (init_member env sub size rank ldr ret0 d).ret = MPI_SUCCESS) :
    (init_member env sub size rank ldr ret0 d).subc.data = some d ∧
    ∃ c1, l1_sync_offset rank = some c1 ∧
      (init_member env sub size rank ldr ret0 d).segment = none ∧
      (init_member env sub size rank ldr ret0 d).memsets = [(ldr, c1, 64)] := by
  revert hdef hret
  unfold init_member
  split
  · rename_i hneg
    intro _ hret
    exfalso
    have : ret0 = 0 := hret
    omega
  · split
    · rename_i hs
      intro _ hret
      exact absurd hret hs
    · split
      · intro h; cases h
      · intro hdef _
        obtain ⟨_, h2, _, h4, c1, hc1, h5, _⟩ := init_finish_success sub size rank ldr d none hdef
        exact ⟨h2, c1, hc1, h4, h5 hl⟩

/-- What a call of `init_shm` that returns `MPI_SUCCESS` within the defined
behaviour of C has done. -/
theorem init_shm_success (env : InitEnv) (sub : InitSubc) (size rank ret0 : Int)
    (hdef : (init_shm env sub size rank ret0).undefined = false)
    (hret : (init_shm env sub size rank ret0).ret = MPI_SUCCESS) :
    ∃ off ldr d c1, init_offsets size rank = some off ∧
      (translate_ranks sub.numa_comm.ranks (comm_ranks size)).head? = some ldr ∧
      (init_shm env sub size rank ret0).subc.data = some d ∧ d.offset = off ∧
      l1_sync_offset rank = some c1 ∧
      (ldr ≠ rank → (init_shm env sub size rank ret0).segment = none ∧
        (init_shm env sub size rank ret0).memsets = [(ldr, c1, 64)]) ∧
      (ldr = rank → ∃ m c2 ldr2, init_memsize size = some m ∧
        (init_shm env sub size rank ret0).segment = some m ∧
        l2_sync_offset size rank = some c2 ∧
        (init_shm env sub size rank ret0).memsets = [(ldr, c1, 64), (ldr2, c2, 64)]) := by
  revert hdef hret
  unfold init_shm
  split
  · rename_i off ldr hoff hldr
    by_cases hl : ldr = rank
    · rw [if_pos hl]
      intro hdef hret
      obtain ⟨h2, c1, m, c2, ldr2, hc1, hm, hs, hc2, hms⟩ :=
        init_leader_success env sub size rank _ hdef hret
      refine ⟨off, ldr, _, c1, hoff, hldr, h2, rfl, hc1, fun h => absurd hl h,
        fun _ => ⟨m, c2, ldr2, hm, hs, hc2, ?_⟩⟩
      rw [hms, hl]
    · rw [if_neg hl]
      intro hdef hret
      obtain ⟨h2, c1, hc1, hs, hms⟩ := init_member_success env sub size rank ldr ret0 _ hl hdef hret
      exact ⟨off, ldr, _, c1, hoff, hldr, h2, rfl, hc1, fun _ => ⟨hs, hms⟩, fun h => absurd h hl⟩
  · intro h; cases h

/-- What a call of `coll_acoll_init` on a record without staging data that returns
`MPI_SUCCESS` within the defined behaviour of C has done: the record holds
the offsets `init_offsets` computes, the caller has cleared its level-1 sync
cell in the segment of its leader, and a leader has created a segment of
`init_memsize` bytes and cleared its level-2 sync cell. -/
theorem coll_acoll_init_success (env : InitEnv) (sub : InitSubc) (size rank cid : Int)
    (h0 : sub.initialized_data = false)
    (hdef : (coll_acoll_init env sub size rank cid).undefined = false)
    (hret : (coll_acoll_init env sub size rank cid).ret = MPI_SUCCESS) :
    ∃ off ldr d c1, init_offsets size rank = some off ∧
      (translate_ranks sub.numa_comm.ranks (comm_ranks size)).head? = some ldr ∧
      (coll_acoll_init env sub size rank cid).subc.data = some d ∧ d.offset = off ∧
      l1_sync_offset rank = some c1 ∧
      (ldr ≠ rank → (coll_acoll_init env sub size rank cid).segment = none ∧
        (coll_acoll_init env sub size rank cid).memsets = [(ldr, c1, 64)]) ∧
      (ldr = rank → ∃ m c2 ldr2, init_memsize size = some m ∧
        (coll_acoll_init env sub size rank cid).segment = some m ∧
        l2_sync_offset size rank = some c2 ∧
        (coll_acoll_init env sub size rank cid).memsets = [(ldr, c1, 64), (ldr2, c2, 64)]) := by
  revert hdef hret
  unfold coll_acoll_init
  rw [if_neg (by rw [h0]; decide)]
  lift_lets
  intro sub1
  split
  · intro _ hret
    have e : OMPI_ERR_OUT_OF_RESOURCE ≠ MPI_SUCCESS := by decide
    exact absurd hret e
  · split
    · split
      · rename_i r hr
        intro _ hret
        exact absurd hret (init_xpmem_error _ _ _ _ _ hr)
      · intro hdef hret
        exact init_shm_success env sub1 size rank _ hdef hret
    · intro hdef hret
      exact init_shm_success env sub1 size rank 0 hdef hret

theorem init_offsets_eq (N k : Int) (h1 : 1 ≤ N) (hk0 : 0 ≤ k) (hk : k < N)
    (hfit : 16384 + 64 * N + 64 * N + 8192 * N ≤ INT_MAX) :
    init_offsets N k =
      some [16384, 16384 + 64 * N, 16384 + 128 * N, 16384 + 128 * N + 8192 * k] := by
  unfold INT_MAX at hfit
  have e0 : int_result (16 * 1024) = some 16384 := by decide
  have e1 : int_result (N * 64) = some (N * 64) :=
    int_result_some _ (by unfold INT_MIN; omega) (by unfold INT_MAX; omega)
  have e2 : int_result (16384 + N * 64) = some (16384 + N * 64) :=
    int_result_some _ (by unfold INT_MIN; omega) (by unfold INT_MAX; omega)
  have e3 : int_result (16384 + N * 64 + N * 64) = some (16384 + N * 64 + N * 64) :=
    int_result_some _ (by unfold INT_MIN; omega) (by unfold INT_MAX; omega)
  have e4 : int_result (k * 8) = some (k * 8) :=
    int_result_some _ (by unfold INT_MIN; omega) (by unfold INT_MAX; omega)
  have e5 : int_result (k * 8 * 1024) = some (k * 8 * 1024) :=
    int_result_some _ (by unfold INT_MIN; omega) (by unfold INT_MAX; omega)
  have e6 : int_result (16384 + N * 64 + N * 64 + k * 8 * 1024) =
      some (16384 + N * 64 + N * 64 + k * 8 * 1024) :=
    int_result_some _ (by unfold INT_MIN; omega) (by unfold INT_MAX; omega)
  simp only [init_offsets, int_mul, int_add, e0, e1, e2, e3, e4, e5, e6, Option.bind_eq_bind,
    Option.some_bind, Option.pure_def]
  have a1 : 16384 + N * 64 = 16384 + 64 * N := by omega
  have a2 : 16384 + N * 64 + N * 64 = 16384 + 128 * N := by omega
  have a3 : 16384 + N * 64 + N * 64 + k * 8 * 1024 = 16384 + 128 * N + 8192 * k := by omega
  rw [a3, a2, a1]

theorem init_memsize_eq (N : Int) (h1 : 1 ≤ N)
    (hfit : 16384 + 64 * N + 64 * N + 8192 * N ≤ INT_MAX) :
    init_memsize N = some (16384 + 64 * N + 64 * N + 8192 * N) := by
  unfold INT_MAX at hfit
  have e0 : int_result (16 * 1024) = some 16384 := by decide
  have e1 : int_result (64 * N) = some (64 * N) :=
    int_result_some _ (by unfold INT_MIN; omega) (by unfold INT_MAX; omega)
  have e2 : int_result (16384 + 64 * N) = some (16384 + 64 * N) :=
    int_result_some _ (by unfold INT_MIN; omega) (by unfold INT_MAX; omega)
  have e3 : int_result (16384 + 64 * N + 64 * N) = some (16384 + 64 * N + 64 * N) :=
    int_result_some _ (by unfold INT_MIN; omega) (by unfold INT_MAX; omega)
  have e4 : int_result (8 * 1024) = some 8192 := by decide
  have e5 : int_result (8192 * N) = some (8192 * N) :=
    int_result_some _ (by unfold INT_MIN; omega) (by unfold INT_MAX; omega)
  have e6 : int_result (16384 + 64 * N + 64 * N + 8192 * N) =
      some (16384 + 64 * N + 64 * N + 8192 * N) :=
    int_result_some _ (by unfold INT_MIN; omega) (by unfold INT_MAX; omega)
  simp only [init_memsize, int_mul, int_add, e0, e1, e2, e3, e4, e5, e6, Option.bind_eq_bind,
    Option.some_bind]

theorem l1_sync_offset_eq (N k : Int) (h1 : 1 ≤ N) (hk0 : 0 ≤ k) (hk : k < N)
    (hfit : 16384 + 64 * N + 64 * N + 8192 * N ≤ INT_MAX) :
    l1_sync_offset k = some (16384 + 64 * k) := by
  unfold INT_MAX at hfit
  have e0 : int_result (16 * 1024) = some 16384 := by decide
  have e1 : int_result (64 * k) = some (64 * k) :=
    int_result_some _ (by unfold INT_MIN; omega) (by unfold INT_MAX; omega)
  simp only [l1_sync_offset, int_mul, e0, e1, Option.bind_eq_bind, Option.some_bind,
    Option.pure_def]

theorem l2_sync_offset_eq (N k : Int) (h1 : 1 ≤ N) (hk0 : 0 ≤ k) (hk : k < N)
    (hfit : 16384 + 64 * N + 64 * N + 8192 * N ≤ INT_MAX) :
    l2_sync_offset N k = some (16384 + 64 * N + 64 * k) := by
  unfold INT_MAX at hfit
  have e0 : int_result (16 * 1024) = some 16384 := by decide
  have e1 : int_result (64 * N) = some (64 * N) :=
    int_result_some _ (by unfold INT_MIN; omega) (by unfold INT_MAX; omega)
  have e2 : int_result (16384 + 64 * N) = some (16384 + 64 * N) :=
    int_result_some _ (by unfold INT_MIN; omega) (by unfold INT_MAX; omega)
  have e3 : int_result (64 * k) = some (64 * k) :=
    int_result_some _ (by unfold INT_MIN; omega) (by unfold INT_MAX; omega)
  simp only [l2_sync_offset, int_mul, int_add, e0, e1, e2, e3, Option.bind_eq_bind,
    Option.some_bind, Option.pure_def]

/-- C17, as amended: for a group of `N >= 1` ranks whose segment size
`16384 + 64*N + 64*N + 8192*N` is at most `INT_MAX` (so that the `int`
arithmetic of `coll_acoll_init` does not overflow) and a caller rank `k` in `[0, N)`, the
offsets computed are `16384`, `16384 + 64*N`, `16384 + 128*N` and
`16384 + 128*N + 8192*k`, and the size computed for the segment is
`16384 + 64*N + 64*N + 8192*N`; a call of `coll_acoll_init` on a record without staging
data that returns `MPI_SUCCESS` leaves these offsets in `data->offset`, and
when the caller is the leader of its level-1 group it has created the
segment with that size. -/
theorem staging_layout_offsets (N k : Int) (h1 : 1 ≤ N) (hk0 : 0 ≤ k) (hk : k < N)
    (hfit : 16384 + 64 * N + 64 * N + 8192 * N ≤ INT_MAX) :
    init_offsets N k =
      some [16384, 16384 + 64 * N, 16384 + 128 * N, 16384 + 128 * N + 8192 * k] ∧
    init_memsize N = some (16384 + 64 * N + 64 * N + 8192 * N) ∧
    (∀ (env : InitEnv) (sub : InitSubc) (cid : Int), sub.initialized_data = false →
      (coll_acoll_init env sub N k cid).undefined = false →
      (coll_acoll_init env sub N k cid).ret = MPI_SUCCESS →
      (∃ d, (coll_acoll_init env sub N k cid).subc.data = some d ∧
        d.offset = [16384, 16384 + 64 * N, 16384 + 128 * N, 16384 + 128 * N + 8192 * k]) ∧
      ((translate_ranks sub.numa_comm.ranks (comm_ranks N)).head? = some k →
        (coll_acoll_init env sub N k cid).segment =
          some (16384 + 64 * N + 64 * N + 8192 * N))) := by
  have ho := init_offsets_eq N k h1 hk0 hk hfit
  have hm := init_memsize_eq N h1 hfit
  refine ⟨ho, hm, ?_⟩
  intro env sub cid h0 hdef hret
  obtain ⟨off, ldr, d, c1, hoff, hldr, hd, hdo, _, _, hlead⟩ :=
    coll_acoll_init_success env sub N k cid h0 hdef hret
  rw [ho] at hoff
  refine ⟨⟨d, hd, ?_⟩, fun hk2 => ?_⟩
  · rw [hdo]
    exact (Option.some.inj hoff).symm
  · rw [hldr] at hk2
    obtain ⟨m, c2, ldr2, hm2, hseg, _, _⟩ := hlead (Option.some.inj hk2)
    rw [hseg, ← hm2, hm]

/-- Witness of C17 as amended: `N = 4` and the caller rank 2, the leader of
its NUMA group; the data region of rank 2 starts at byte
`16384 + 128*4 + 8192*2 = 33280` and the segment has 49664 bytes. -/
theorem staging_layout_offsets_witness :
    ((1 : Int) ≤ 4 ∧ (0 : Int) ≤ 2 ∧ (2 : Int) < 4 ∧
      (16384 + 64 * 4 + 64 * 4 + 8192 * 4 : Int) ≤ INT_MAX) ∧
    init_offsets 4 2 = some [16384, 16640, 16896, 33280] ∧
    init_memsize 4 = some 49664 ∧
    (coll_acoll_init init_env_ok init_subc_rank2 4 2 0).ret = MPI_SUCCESS ∧
    (coll_acoll_init init_env_ok init_subc_rank2 4 2 0).segment = some 49664 :=
  ⟨by decide,
    (staging_layout_offsets 4 2 (by decide) (by decide) (by decide) (by decide)).1,
    (staging_layout_offsets 4 2 (by decide) (by decide) (by decide) (by decide)).2.1,
    by decide,
    ((staging_layout_offsets 4 2 (by decide) (by decide) (by decide) (by decide)).2.2
      init_env_ok init_subc_rank2 0 (by decide) (by decide) (by decide)).2 (by decide)⟩

/-- C17 fails as stated: for a group of `N = 262144` ranks the product
`8 * 1024 * size` in the expression for `memsize` is `2^31`, which is not
representable in the type `int` of its operands: the size of the segment
that `coll_acoll_init` computes is undefined, and not the value
`16384 + 64*N + 64*N + 8192*N = 2181054464` of the claim. -/
theorem staging_memsize_overflows :
    (1 : Int) ≤ 262144 ∧ init_memsize 262144 = none ∧
    int_mul (8 * 1024) 262144 = none ∧
    (16384 + 64 * 262144 + 64 * 262144 + 8192 * 262144 : Int) = 2181054464 ∧
    (2181054464 : Int) > INT_MAX := by
  decide

/-- C19, as amended: for a group of `N >= 1` ranks whose segment size
`16384 + 64*N + 64*N + 8192*N` is at most `INT_MAX` and two distinct ranks
`j`, `k` in `[0, N)`, the level-1 sync cells, the level-2 sync cells and the
data slots of `j` and `k` that `coll_acoll_init` computes are the ranges of the claim;
together with the scratch region of the leader the seven ranges are pairwise
disjoint; each lies inside its own region of the layout (between `offset[0]`
and `offset[1]`, between `offset[1]` and `offset[2]`, from `offset[2]` to the
end of the segment); and every range a successful call of `coll_acoll_init` clears is
the level-1 or the level-2 sync cell of the caller. -/
theorem staging_ranges_disjoint (N j k : Int) (h1 : 1 ≤ N) (hj0 : 0 ≤ j) (hj : j < N)
    (hk0 : 0 ≤ k) (hk : k < N) (hjk : j ≠ k)
    (hfit : 16384 + 64 * N + 64 * N + 8192 * N ≤ INT_MAX) :
    (l1_cell j = some { start := 16384 + 64 * j, len := 64 } ∧
      l1_cell k = some { start := 16384 + 64 * k, len := 64 } ∧
      l2_cell N j = some { start := 16384 + 64 * N + 64 * j, len := 64 } ∧
      l2_cell N k = some { start := 16384 + 64 * N + 64 * k, len := 64 } ∧
      data_slot N j = some { start := 16384 + 128 * N + 8192 * j, len := 8192 } ∧
      data_slot N k = some { start := 16384 + 128 * N + 8192 * k, len := 8192 } ∧
      init_memsize N = some (16384 + 128 * N + 8192 * N)) ∧
    List.Pairwise ByteRange.disjoint
      [leader_scratch,
        { start := 16384 + 64 * j, len := 64 }, { start := 16384 + 64 * k, len := 64 },
        { start := 16384 + 64 * N + 64 * j, len := 64 },
        { start := 16384 + 64 * N + 64 * k, len := 64 },
        { start := 16384 + 128 * N + 8192 * j, len := 8192 },
        { start := 16384 + 128 * N + 8192 * k, len := 8192 }] ∧
    (∀ r ∈ [j, k],
      ByteRange.inside { start := 16384 + 64 * r, len := 64 } 16384 (16384 + 64 * N) ∧
      ByteRange.inside { start := 16384 + 64 * N + 64 * r, len := 64 }
        (16384 + 64 * N) (16384 + 128 * N) ∧
      ByteRange.inside { start := 16384 + 128 * N + 8192 * r, len := 8192 }
        (16384 + 128 * N) (16384 + 128 * N + 8192 * N)) ∧
    (∀ (env : InitEnv) (sub : InitSubc) (cid : Int), sub.initialized_data = false →
      (coll_acoll_init env sub N k cid).undefined = false →
      (coll_acoll_init env sub N k cid).ret = MPI_SUCCESS →
      ∀ x ∈ (coll_acoll_init env sub N k cid).memsets,
        x.2 = (16384 + 64 * k, 64) ∨ x.2 = (16384 + 64 * N + 64 * k, 64)) := by
  have hoj := init_offsets_eq N j h1 hj0 hj hfit
  have hok := init_offsets_eq N k h1 hk0 hk hfit
  have hm := init_memsize_eq N h1 hfit
  have a1 := l1_sync_offset_eq N j h1 hj0 hj hfit
  have a2 := l1_sync_offset_eq N k h1 hk0 hk hfit
  have b1 := l2_sync_offset_eq N j h1 hj0 hj hfit
  have b2 := l2_sync_offset_eq N k h1 hk0 hk hfit
  have e8 : (8 * 1024 : Int) = 8192 := by decide
  have em : 16384 + 64 * N + 64 * N + 8192 * N = 16384 + 128 * N + 8192 * N := by omega
  unfold INT_MAX at hfit
  refine ⟨⟨?_, ?_, ?_, ?_, ?_, ?_, ?_⟩, ?_, ?_, ?_⟩
  · simp only [l1_cell, a1, Option.map_some']
  · simp only [l1_cell, a2, Option.map_some']
  · simp only [l2_cell, b1, Option.map_some']
  · simp only [l2_cell, b2, Option.map_some']
  · simp only [data_slot, hoj, Option.map_some', e8]
    rfl
  · simp only [data_slot, hok, Option.map_some', e8]
    rfl
  · rw [hm, em]
  · simp only [List.pairwise_cons, List.mem_cons, List.mem_singleton, List.not_mem_nil,
      forall_eq_or_imp, forall_eq, ByteRange.disjoint, leader_scratch, e8, List.Pairwise.nil,
      and_true, IsEmpty.forall_iff, implies_true]
    refine ⟨⟨?_, ?_, ?_, ?_, ?_, ?_⟩, ⟨?_, ?_, ?_, ?_, ?_⟩, ⟨?_, ?_, ?_, ?_⟩, ⟨?_, ?_, ?_⟩,
      ⟨?_, ?_⟩, ?_⟩ <;> omega
  · intro r hr
    simp only [List.mem_cons, List.mem_singleton, List.not_mem_nil, or_false] at hr
    unfold ByteRange.inside
    rcases hr with rfl | rfl <;> simp only [] <;> omega
  · intro env sub cid h0 hdef hret x hx
    obtain ⟨off, ldr, d, c1, _, _, _, _, hc1, hmem, hlead⟩ :=
      coll_acoll_init_success env sub N k cid h0 hdef hret
    rw [a2] at hc1
    have ec1 : c1 = 16384 + 64 * k := (Option.some.inj hc1).symm
    by_cases hl : ldr = k
    · obtain ⟨m, c2, ldr2, _, _, hc2, hms⟩ := hlead hl
      rw [b2] at hc2
      have ec2 : c2 = 16384 + 64 * N + 64 * k := (Option.some.inj hc2).symm
      rw [hms] at hx
      simp only [List.mem_cons, List.mem_singleton, List.not_mem_nil, or_false] at hx
      rcases hx with rfl | rfl
      · left; rw [ec1]
      · right; rw [ec2]
    · rw [(hmem hl).2] at hx
      simp only [List.mem_cons, List.mem_singleton, List.not_mem_nil, or_false] at hx
      rw [hx]
      left; rw [ec1]

/-- Witness of C19 as amended: `N = 4` and the ranks 1 and 2. -/
theorem staging_ranges_disjoint_witness :
    ((1 : Int) ≤ 4 ∧ (0 : Int) ≤ 1 ∧ (1 : Int) < 4 ∧ (0 : Int) ≤ 2 ∧ (2 : Int) < 4 ∧
      (1 : Int) ≠ 2 ∧ (16384 + 64 * 4 + 64 * 4 + 8192 * 4 : Int) ≤ INT_MAX) ∧
    (l1_cell 1 = some { start := 16384 + 64 * 1, len := 64 } ∧
      l1_cell 2 = some { start := 16384 + 64 * 2, len := 64 } ∧
      l2_cell 4 1 = some { start := 16384 + 64 * 4 + 64 * 1, len := 64 } ∧
      l2_cell 4 2 = some { start := 16384 + 64 * 4 + 64 * 2, len := 64 } ∧
      data_slot 4 1 = some { start := 16384 + 128 * 4 + 8192 * 1, len := 8192 } ∧
      data_slot 4 2 = some { start := 16384 + 128 * 4 + 8192 * 2, len := 8192 } ∧
      init_memsize 4 = some (16384 + 128 * 4 + 8192 * 4)) ∧
    (coll_acoll_init init_env_ok init_subc_rank2 4 2 0).memsets =
      [(2, 16512, 64), (0, 16768, 64)] :=
  ⟨by decide,
    (staging_ranges_disjoint 4 1 2 (by decide) (by decide) (by decide) (by decide) (by decide)
      (by decide) (by decide)).1,
    by decide⟩

/-- C19 fails as stated: in a group of `N = 300000` ranks the product
`rank * 8 * 1024` for the rank `k = 299999` is 2457591808, which is not
representable in the type `int`: the data slot of that rank, `offset[3]`, is
undefined, as is the size of the segment. -/
theorem staging_data_slot_overflows :
    (1 : Int) ≤ 300000 ∧ (0 : Int) ≤ 299999 ∧ (299999 : Int) < 300000 ∧
    data_slot 300000 299999 = none ∧ init_offsets 300000 299999 = none ∧
    int_mul (299999 * 8) 1024 = none ∧ (299999 * 8 * 1024 : Int) = 2457591808 ∧
    (2457591808 : Int) > INT_MAX ∧ init_memsize 300000 = none := by
  decide

theorem register_and_cache_first_peer_fails (rcache : Rcache) (size : Int) (total_dsize : Nat)
    (rank : Int) (allshm_sbuf allshm_rbuf : Int → Nat) (d : XpmemAddrs)
    (hsize : 0 < size) (hrank : rank ≠ 0)
    (hfail : (register_buf rcache total_dsize 0 (allshm_sbuf 0)).1.ret ≠ 0) :
    (register_and_cache rcache size total_dsize rank allshm_sbuf allshm_rbuf d).xpmem_saddr =
      d.xpmem_saddr ∧
    (register_and_cache rcache size total_dsize rank allshm_sbuf allshm_rbuf d).xpmem_raddr =
      d.xpmem_raddr := by
  unfold register_and_cache
  obtain ⟨n, hn⟩ : ∃ n, size.toNat = n + 1 := ⟨size.toNat - 1, by omega⟩
  rw [hn]
  unfold register_and_cache_loop
  rw [if_pos hrank]
  simp only []
  rw [if_pos hfail]
  exact ⟨rfl, rfl⟩

theorem register_and_cache_loop_outside (rcache : Rcache) (td : Nat) (rank : Int)
    (sbuf rbuf : Int → Nat) :
    ∀ (n : Nat) (i : Int) (d : XpmemAddrs) (z : Int), (z < i ∨ i + n ≤ z) →
      (register_and_cache_loop rcache td rank sbuf rbuf n i d).xpmem_saddr z = d.xpmem_saddr z ∧
      (register_and_cache_loop rcache td rank sbuf rbuf n i d).xpmem_raddr z = d.xpmem_raddr z := by
  intro n
  induction n with
  | zero => intro i d z _; exact ⟨rfl, rfl⟩
  | succ n ih =>
    intro i d z hz
    have hzi : z ≠ i := by push_cast at hz; omega
    have hz1 : z < i + 1 ∨ i + 1 + n ≤ z := by push_cast at hz; omega
    rw [register_and_cache_loop]
    by_cases hr : rank ≠ i
    · rw [if_pos hr]
      simp only []
      by_cases hs : (register_buf rcache td i (sbuf i)).1.ret ≠ 0
      · rw [if_pos hs]
        exact ⟨rfl, rfl⟩
      · rw [if_neg hs]
        by_cases hb : (register_buf rcache td i (rbuf i)).1.ret ≠ 0
        · rw [if_pos hb]
          exact ⟨Function.update_noteq hzi _ _, rfl⟩
        · rw [if_neg hb]
          obtain ⟨a1, a2⟩ := ih (i + 1) _ z hz1
          rw [a1, a2]
          exact ⟨Function.update_noteq hzi _ _, Function.update_noteq hzi _ _⟩
    · rw [if_neg hr]
      obtain ⟨a1, a2⟩ := ih (i + 1) _ z hz1
      rw [a1, a2]
      exact ⟨Function.update_noteq hzi _ _, Function.update_noteq hzi _ _⟩

theorem register_and_cache_loop_inside (rcache : Rcache) (td : Nat) (rank : Int)
    (sbuf rbuf : Int → Nat) :
    ∀ (n : Nat) (i : Int) (d : XpmemAddrs) (j : Int), i ≤ j → j < i + n →
      ((∀ k : Int, i ≤ k → k < j → k ≠ rank → peer_registers rcache td sbuf rbuf k) →
        (j = rank →
          (register_and_cache_loop rcache td rank sbuf rbuf n i d).xpmem_saddr j = sbuf j ∧
          (register_and_cache_loop rcache td rank sbuf rbuf n i d).xpmem_raddr j = rbuf j) ∧
        (j ≠ rank →
          (register_and_cache_loop rcache td rank sbuf rbuf n i d).xpmem_saddr j =
            (if sbuf_registers rcache td sbuf j then
              xpmem_addr (register_buf rcache td j (sbuf j)).1 (sbuf j)
            else d.xpmem_saddr j) ∧
          (register_and_cache_loop rcache td rank sbuf rbuf n i d).xpmem_raddr j =
            (if peer_registers rcache td sbuf rbuf j then
              xpmem_addr (register_buf rcache td j (rbuf j)).1 (rbuf j)
            else d.xpmem_raddr j))) ∧
      ((∃ k : Int, i ≤ k ∧ k < j ∧ k ≠ rank ∧ ¬ peer_registers rcache td sbuf rbuf k) →
        (register_and_cache_loop rcache td rank sbuf rbuf n i d).xpmem_saddr j = d.xpmem_saddr j ∧
        (register_and_cache_loop rcache td rank sbuf rbuf n i d).xpmem_raddr j = d.xpmem_raddr j) := by
  intro n
  induction n with
  | zero => intro i d j h1 h2; simp at h2; omega
  | succ n ih =>
    intro i d j h1 h2
    push_cast at h2
    rw [register_and_cache_loop]
    by_cases hr : rank ≠ i
    · rw [if_pos hr]
      simp only []
      by_cases hs : (register_buf rcache td i (sbuf i)).1.ret ≠ 0
      · rw [if_pos hs]
        have hbad : ¬ peer_registers rcache td sbuf rbuf i := fun h => hs h.1
        refine ⟨fun hall => ?_, fun _ => ⟨rfl, rfl⟩⟩
        by_cases hji : j = i
        · subst hji
          refine ⟨fun e => absurd e.symm hr, fun _ => ?_⟩
          rw [if_neg (show ¬ sbuf_registers rcache td sbuf j from hs), if_neg hbad]
          exact ⟨rfl, rfl⟩
        · exact absurd (hall i (le_refl _) (by omega) (fun e => hr e.symm)) hbad
      · rw [if_neg hs]
        have hs0 : sbuf_registers rcache td sbuf i := by
          unfold sbuf_registers
          by_contra h
          exact hs h
        by_cases hb : (register_buf rcache td i (rbuf i)).1.ret ≠ 0
        · rw [if_pos hb]
          have hbad : ¬ peer_registers rcache td sbuf rbuf i := fun h => hb h.2
          by_cases hji : j = i
          · subst hji
            refine ⟨fun _ => ⟨fun e => absurd e.symm hr, fun _ => ?_⟩, ?_⟩
            · rw [if_pos hs0, if_neg hbad]
              exact ⟨Function.update_same _ _ _, rfl⟩
            · rintro ⟨k, k1, k2, _⟩
              omega
          · refine ⟨fun hall => ?_, fun _ => ⟨Function.update_noteq hji _ _, rfl⟩⟩
            exact absurd (hall i (le_refl _) (by omega) (fun e => hr e.symm)) hbad
        · rw [if_neg hb]
          have hb0 : (register_buf rcache td i (rbuf i)).1.ret = 0 := by
            by_contra h
            exact hb h
          have hgood : peer_registers rcache td sbuf rbuf i := ⟨hs0, hb0⟩
          by_cases hji : j = i
          · subst hji
            obtain ⟨a1, a2⟩ := register_and_cache_loop_outside rcache td rank sbuf rbuf n (j + 1)
              { xpmem_saddr := Function.update d.xpmem_saddr j
                  (xpmem_addr (register_buf rcache td j (sbuf j)).1 (sbuf j)),
                xpmem_raddr := Function.update d.xpmem_raddr j
                  (xpmem_addr (register_buf rcache td j (rbuf j)).1 (rbuf j)),
                registered := d.registered ++ [(register_buf rcache td j (sbuf j)).2] ++
                  [(register_buf rcache td j (rbuf j)).2] } j (Or.inl (by omega))
            refine ⟨fun _ => ⟨fun e => absurd e.symm hr, fun _ => ?_⟩, ?_⟩
            · rw [if_pos hs0, if_pos hgood]
              exact ⟨a1.trans (Function.update_same _ _ _), a2.trans (Function.update_same _ _ _)⟩
            · rintro ⟨k, k1, k2, _⟩
              omega
          · obtain ⟨a1, a2⟩ := ih (i + 1)
              { xpmem_saddr := Function.update d.xpmem_saddr i
                  (xpmem_addr (register_buf rcache td i (sbuf i)).1 (sbuf i)),
                xpmem_raddr := Function.update d.xpmem_raddr i
                  (xpmem_addr (register_buf rcache td i (rbuf i)).1 (rbuf i)),
                registered := d.registered ++ [(register_buf rcache td i (sbuf i)).2] ++
                  [(register_buf rcache td i (rbuf i)).2] } j (by omega) (by omega)
            simp only [Function.update_noteq hji] at a1 a2
            refine ⟨fun hall => a1 (fun k k1 k2 k3 => hall k (by omega) k2 k3), ?_⟩
            rintro ⟨k, k1, k2, k3, k4⟩
            have hki : k ≠ i := fun e => k4 (e ▸ hgood)
            exact a2 ⟨k, by omega, k2, k3, k4⟩
    · rw [if_neg hr]
      have hri : rank = i := by
        by_contra h
        exact hr h
      by_cases hji : j = i
      · subst hji
        obtain ⟨a1, a2⟩ := register_and_cache_loop_outside rcache td rank sbuf rbuf n (j + 1)
          { d with
            xpmem_saddr := Function.update d.xpmem_saddr j (sbuf j),
            xpmem_raddr := Function.update d.xpmem_raddr j (rbuf j) } j (Or.inl (by omega))
        refine ⟨fun _ => ⟨fun _ => ?_, fun e => absurd hri.symm e⟩, ?_⟩
        · exact ⟨a1.trans (Function.update_same _ _ _), a2.trans (Function.update_same _ _ _)⟩
        · rintro ⟨k, k1, k2, _⟩
          omega
      · obtain ⟨a1, a2⟩ := ih (i + 1)
          { d with
            xpmem_saddr := Function.update d.xpmem_saddr i (sbuf i),
            xpmem_raddr := Function.update d.xpmem_raddr i (rbuf i) } j (by omega) (by omega)
        simp only [Function.update_noteq hji] at a1 a2
        refine ⟨fun hall => a1 (fun k k1 k2 k3 => hall k (by omega) k2 k3), ?_⟩
        rintro ⟨k, k1, k2, k3, k4⟩
        have hki : k ≠ i := fun e => k3 (e.trans hri.symm)
        exact a2 ⟨k, by omega, k2, k3, k4⟩

theorem no_failure_before_iff (rcache : Rcache) (td : Nat) (rank : Int)
    (sbuf rbuf : Int → Nat) (j : Nat) :
    no_failure_before rcache td rank sbuf rbuf j ↔
      ∀ k : Int, 0 ≤ k → k < j → k ≠ rank → peer_registers rcache td sbuf rbuf k := by
  unfold no_failure_before
  constructor
  · intro h k k0 k1 k2
    have e : ((k.toNat : Nat) : Int) = k := Int.toNat_of_nonneg k0
    have := h k.toNat (List.mem_range.2 (by omega)) (by rw [e]; exact k2)
    rwa [e] at this
  · intro h k hk hne
    exact h k (by omega) (by have := List.mem_range.1 hk; omega) hne

/-- C20, as amended: `register_and_cache` handles the ranks `0, 1, ...` in
order and returns at the first registration that fails. For every rank `j` of
the group: when no registration fails for a peer below `j`, the caller's own
entries (`j = rank`) are set to its own buffers, and a peer `j` gets
`xpmem_saddr[j]` when the registration of its send buffer succeeds and
`xpmem_raddr[j]` when both its registrations succeed, an entry whose
registration fails keeping its value; when a registration fails for a peer
below `j`, both entries of `j` keep the values they had - also the caller's
own entries, and the entries of a peer whose registrations would succeed. -/
theorem register_and_cache_stops_at_first_failure (rcache : Rcache) (size : Int)
    (total_dsize : Nat) (rank : Int) (allshm_sbuf allshm_rbuf : Int → Nat) (d : XpmemAddrs)
    (j : Nat) (hj : (j : Int) < size) :
    (no_failure_before rcache total_dsize rank allshm_sbuf allshm_rbuf j →
      ((j : Int) = rank →
        (register_and_cache rcache size total_dsize rank allshm_sbuf allshm_rbuf d).xpmem_saddr j =
          allshm_sbuf j ∧
        (register_and_cache rcache size total_dsize rank allshm_sbuf allshm_rbuf d).xpmem_raddr j =
          allshm_rbuf j) ∧
      ((j : Int) ≠ rank →
        (register_and_cache rcache size total_dsize rank allshm_sbuf allshm_rbuf d).xpmem_saddr j =
          (if sbuf_registers rcache total_dsize allshm_sbuf j then
            xpmem_addr (register_buf rcache total_dsize j (allshm_sbuf j)).1 (allshm_sbuf j)
          else d.xpmem_saddr j) ∧
        (register_and_cache rcache size total_dsize rank allshm_sbuf allshm_rbuf d).xpmem_raddr j =
          (if peer_registers rcache total_dsize allshm_sbuf allshm_rbuf j then
            xpmem_addr (register_buf rcache total_dsize j (allshm_rbuf j)).1 (allshm_rbuf j)
          else d.xpmem_raddr j))) ∧
    (¬ no_failure_before rcache total_dsize rank allshm_sbuf allshm_rbuf j →
      (register_and_cache rcache size total_dsize rank allshm_sbuf allshm_rbuf d).xpmem_saddr j =
        d.xpmem_saddr j ∧
      (register_and_cache rcache size total_dsize rank allshm_sbuf allshm_rbuf d).xpmem_raddr j =
        d.xpmem_raddr j) := by
  have hn : (0 : Int) + (size.toNat : Nat) = size := by
    rw [Int.toNat_of_nonneg (by omega)]; ring
  obtain ⟨a1, a2⟩ := register_and_cache_loop_inside rcache total_dsize rank allshm_sbuf
    allshm_rbuf size.toNat 0 d j (by omega) (by rw [hn]; exact hj)
  unfold register_and_cache
  refine ⟨fun h => a1 ((no_failure_before_iff _ _ _ _ _ _).1 h), fun h => a2 ?_⟩
  rw [no_failure_before_iff] at h
  push_neg at h
  obtain ⟨k, k0, k1, k2, k3⟩ := h
  exact ⟨k, k0, k1, k2, k3⟩

/-- Witness of C20 as amended: in the group of three ranks with the caller at
rank 2, when the registrations for peer 1 fail, peer 0 (before the failure)
gets its send entry, and the caller's own entries (after the failure) keep
their values. -/
theorem register_and_cache_stops_at_first_failure_witness :
    (((0 : Nat) : Int) < 3 ∧ ((2 : Nat) : Int) < 3 ∧
      no_failure_before (example_rcache [1]) 100 2 example_sbuf example_rbuf 0 ∧
      (((0 : Nat) : Int) ≠ 2) ∧
      ¬ no_failure_before (example_rcache [1]) 100 2 example_sbuf example_rbuf 2) ∧
    (register_and_cache (example_rcache [1]) 3 100 2 example_sbuf example_rbuf
      unset_addrs).xpmem_saddr ((0 : Nat) : Int) =
      (if sbuf_registers (example_rcache [1]) 100 example_sbuf ((0 : Nat) : Int) then
        xpmem_addr (register_buf (example_rcache [1]) 100 ((0 : Nat) : Int)
          (example_sbuf ((0 : Nat) : Int))).1 (example_sbuf ((0 : Nat) : Int))
      else unset_addrs.xpmem_saddr ((0 : Nat) : Int)) ∧
    ((register_and_cache (example_rcache [1]) 3 100 2 example_sbuf example_rbuf
      unset_addrs).xpmem_saddr ((2 : Nat) : Int) = unset_addrs.xpmem_saddr ((2 : Nat) : Int) ∧
    (register_and_cache (example_rcache [1]) 3 100 2 example_sbuf example_rbuf
      unset_addrs).xpmem_raddr ((2 : Nat) : Int) = unset_addrs.xpmem_raddr ((2 : Nat) : Int)) :=
  ⟨by decide,
    (((register_and_cache_stops_at_first_failure (example_rcache [1]) 3 100 2 example_sbuf
      example_rbuf unset_addrs 0 (by decide)).1 (by decide)).2 (by decide)).1,
    (register_and_cache_stops_at_first_failure (example_rcache [1]) 3 100 2 example_sbuf
      example_rbuf unset_addrs 2 (by decide)).2 (by decide)⟩

/-- C20 fails as stated: in a group of three ranks the caller is rank 2 and
no entry has been set. When the registration for peer 0 fails and the
registrations for peer 1 would succeed, `register_and_cache` returns at the failure:
the entries of peer 1 and the caller's own entries are not set, and no
registration is attempted for peer 1. When only the registration for peer 1
fails, the entries of peer 0 are set but the caller's own entries are not.
When no registration fails, the entries of peer 1 and the caller's own
entries are set. -/
theorem registration_failure_stops_the_loop :
    (register_buf (example_rcache [0]) 100 1 (example_sbuf 1)).1.ret = 0 ∧
    (register_buf (example_rcache [0]) 100 1 (example_rbuf 1)).1.ret = 0 ∧
    (register_and_cache (example_rcache [0]) 3 100 2 example_sbuf example_rbuf
      unset_addrs).xpmem_saddr 1 = 0 ∧
    (register_and_cache (example_rcache [0]) 3 100 2 example_sbuf example_rbuf
      unset_addrs).xpmem_raddr 1 = 0 ∧
    (register_and_cache (example_rcache [0]) 3 100 2 example_sbuf example_rbuf
      unset_addrs).xpmem_saddr 2 = 0 ∧
    (register_and_cache (example_rcache [0]) 3 100 2 example_sbuf example_rbuf
      unset_addrs).xpmem_raddr 2 = 0 ∧
    (register_and_cache (example_rcache [0]) 3 100 2 example_sbuf example_rbuf
      unset_addrs).registered = [(0, 65536, 4096)] ∧
    (register_and_cache (example_rcache [1]) 3 100 2 example_sbuf example_rbuf
      unset_addrs).xpmem_saddr 0 = 4294967296 + 65536 ∧
    (register_and_cache (example_rcache [1]) 3 100 2 example_sbuf example_rbuf
      unset_addrs).xpmem_saddr 2 = 0 ∧
    (register_and_cache (example_rcache []) 3 100 2 example_sbuf example_rbuf
      unset_addrs).xpmem_saddr 1 = 4294967296 + 131072 ∧
    (register_and_cache (example_rcache []) 3 100 2 example_sbuf example_rbuf
      unset_addrs).xpmem_raddr 1 = 4294967296 + 131072 + 32768 ∧
    (register_and_cache (example_rcache []) 3 100 2 example_sbuf example_rbuf
      unset_addrs).xpmem_saddr 2 = example_sbuf 2 ∧
    (register_and_cache (example_rcache []) 3 100 2 example_sbuf example_rbuf
      unset_addrs).xpmem_raddr 2 = example_rbuf 2 ∧
    example_sbuf 2 ≠ 0 := by
  decide

end Acoll
